import Mathlib

set_option maxHeartbeats 1000000
set_option maxRecDepth 4000
set_option linter.unnecessarySeqFocus false
set_option linter.unreachableTactic false
set_option linter.unusedTactic false

/-! Verification development for the rdns DNS server: the wire buffers, the message
codec and the resolver logic, translated from the Rust sources under src/dns.
Rust strings are modeled as their byte sequences (List Nat), machine integers as Nat
with explicit truncation where the Rust code casts, fallible operations as Except
values, and a Rust panic (out-of-bounds indexing or slicing) as the distinguished
error value Err.panicked, which no source-level match arm catches. String conversion
from bytes (from_utf8_lossy) is modeled as the identity on the byte sequence, which
is exact for the ASCII content all theorems below quantify over. -/

/-- Error outcomes of the embedded Rust functions. endOfBuffer and readBeyond are
the io errors the buffer code constructs, labelTooLong the error of write_qname;
panicked models a Rust panic; fuelExhausted is a modeling artifact marking that an
unbounded source loop ran longer than the fuel given to its embedding. -/
inductive Err where
  | endOfBuffer
  | labelTooLong
  | readBeyond
  | panicked
  | fuelExhausted
deriving DecidableEq

/-- Pointwise update of a byte store at one position. -/
def updateF (f : Nat → Nat) (i v : Nat) : Nat → Nat :=
  fun j => if j = i then v else f j

/-- Sequential update of a byte store with a list of bytes starting at position p. -/
def writeListF (f : Nat → Nat) (p : Nat) : List Nat → (Nat → Nat)
  | [] => f
  | v :: vs => writeListF (updateF f p v) (p + 1) vs

/-- The byte store f holds exactly the bytes bs starting at position p. -/
def region (f : Nat → Nat) (p : Nat) (bs : List Nat) : Prop :=
  ∀ i, (h : i < bs.length) → f (p + i) = bs[i]

/-- Maximum size of a DNS packet, from buffer.rs. -/
def MAX_SIZE : Nat := 512

/-- Maximum size of a label, from buffer.rs. -/
def MAX_LABEL_LEN : Nat := 63

/-- The fixed 512-byte packet buffer of buffer.rs; the backing array is modeled as a
function from positions to byte values, all positions outside 0..511 being
inaccessible to the embedded operations exactly as in the source. -/
structure BytePacketBuffer where
  buf : Nat → Nat
  head : Nat

namespace BytePacketBuffer

/-- Fresh zeroed buffer (BytePacketBuffer::new). -/
def new : BytePacketBuffer := ⟨fun _ => 0, 0⟩

/-- ByteBuffer::step for BytePacketBuffer: advance the cursor, never failing. -/
def step (b : BytePacketBuffer) (steps : Nat) : Except Err BytePacketBuffer :=
  .ok { b with head := b.head + steps }

/-- ByteBuffer::seek for BytePacketBuffer: place the cursor, never failing. -/
def seek (b : BytePacketBuffer) (offset : Nat) : Except Err BytePacketBuffer :=
  .ok { b with head := offset }

/-- ByteBuffer::read for BytePacketBuffer: byte at the cursor, cursor advanced. -/
def read (b : BytePacketBuffer) : Except Err (Nat × BytePacketBuffer) :=
  if b.head ≥ MAX_SIZE then .error .endOfBuffer
  else .ok (b.buf b.head, { b with head := b.head + 1 })

/-- ByteBuffer::get for BytePacketBuffer: byte at an absolute offset. -/
def get (b : BytePacketBuffer) (offset : Nat) : Except Err Nat :=
  if offset ≥ MAX_SIZE then .error .endOfBuffer
  else .ok (b.buf offset)

/-- ByteBuffer::get_range for BytePacketBuffer: the source rejects start + len ≥ 512
with an end-of-buffer error and otherwise returns the len bytes from start. -/
def get_range (b : BytePacketBuffer) (start len : Nat) : Except Err (List Nat) :=
  if start + len ≥ MAX_SIZE then .error .endOfBuffer
  else .ok ((List.range len).map fun i => b.buf (start + i))

/-- ByteBuffer::write for BytePacketBuffer: byte at the cursor, cursor advanced;
fails once the cursor has reached 512. -/
def write (b : BytePacketBuffer) (val : Nat) : Except Err BytePacketBuffer :=
  if b.head ≥ MAX_SIZE then .error .endOfBuffer
  else .ok { buf := updateF b.buf b.head val, head := b.head + 1 }

/-- ByteBuffer::set for BytePacketBuffer: the source writes self.buf[pos] = val with
no bounds check, so an offset at or past 512 panics (array indexing) instead of
returning an error. -/
def set (b : BytePacketBuffer) (pos val : Nat) : Except Err BytePacketBuffer :=
  if pos < MAX_SIZE then .ok { b with buf := updateF b.buf pos val }
  else .error .panicked

/-- ByteBuffer::read_u16 default method: two reads, big-endian. -/
def read_u16 (b : BytePacketBuffer) : Except Err (Nat × BytePacketBuffer) := do
  let (hi, b) ← b.read
  let (lo, b) ← b.read
  pure ((hi <<< 8) ||| lo, b)

/-- ByteBuffer::read_u32 default method: two 16-bit reads, big-endian. -/
def read_u32 (b : BytePacketBuffer) : Except Err (Nat × BytePacketBuffer) := do
  let (hi, b) ← b.read_u16
  let (lo, b) ← b.read_u16
  pure ((hi <<< 16) ||| lo, b)

/-- ByteBuffer::write_u16 default method: high byte then low byte. -/
def write_u16 (b : BytePacketBuffer) (data : Nat) : Except Err BytePacketBuffer := do
  let b ← b.write ((data >>> 8) % 256)
  b.write (data &&& 0xFF)

/-- ByteBuffer::write_u32 default method: two 16-bit writes. -/
def write_u32 (b : BytePacketBuffer) (data : Nat) : Except Err BytePacketBuffer := do
  let b ← b.write_u16 ((data >>> 16) % 65536)
  b.write_u16 (data &&& 0xFFFF)

/-- ByteBuffer::set_u16 default method: patch two bytes in place. -/
def set_u16 (b : BytePacketBuffer) (offset data : Nat) : Except Err BytePacketBuffer := do
  let b ← b.set offset ((data >>> 8) % 256)
  b.set (offset + 1) (data &&& 0xFF)

end BytePacketBuffer

/-- ASCII lowercasing of one byte, the effect of to_lowercase on ASCII content. -/
def dnsLower (b : Nat) : Nat :=
  if 65 ≤ b ∧ b ≤ 90 then b + 32 else b

/-- Loop body of ByteBuffer::read_qname. The source loop carries a local position,
a jumped flag and the current delimiter and has no iteration bound; the embedding
adds explicit fuel, returning Err.fuelExhausted when the bound is hit, which is how
divergence of the source loop is expressed. -/
def readQnameGo : Nat → BytePacketBuffer → List Nat → Nat → Bool → List Nat →
    Except Err (List Nat × BytePacketBuffer)
  | 0, _, _, _, _, _ => .error .fuelExhausted
  | fuel + 1, b, acc, pos, jumped, delim => do
    let label_len ← b.get pos
    if label_len &&& 0xC0 = 0xC0 then do
      let b' ← if !jumped then b.seek (pos + 2) else pure b
      let jump_byte ← b'.get (pos + 1)
      let offset := ((label_len ^^^ 0xC0) <<< 8) ||| jump_byte
      readQnameGo fuel b' acc offset true delim
    else
      let pos' := pos + 1
      if label_len = 0 then
        if !jumped then do
          let b' ← b.seek pos'
          pure (acc, b')
        else pure (acc, b)
      else do
        let str_buffer ← b.get_range pos' label_len
        readQnameGo fuel b (acc ++ delim ++ str_buffer.map dnsLower)
          (pos' + label_len) jumped [46]

/-- ByteBuffer::read_qname: appends the decoded name to the accumulator string and
leaves the cursor after the name (or after the first pointer). The fuel argument is
the modeling artifact described at readQnameGo. -/
def BytePacketBuffer.read_qname (fuel : Nat) (b : BytePacketBuffer) (qname : List Nat) :
    Except Err (List Nat × BytePacketBuffer) :=
  readQnameGo fuel b qname b.head false []

/-- Fuel handed to read_qname by the parsing code; large enough for every name a
512-byte packet can hold, see readQnameGo_encodes below. -/
def QNAME_FUEL : Nat := 1024

/-- Models str split on a separator byte, as used by write_qname splitting the name
on the dot character: the (possibly empty) pieces between separator occurrences. -/
def splitB (sep : Nat) : List Nat → List (List Nat)
  | [] => [[]]
  | b :: rest =>
    let r := splitB sep rest
    if b = sep then [] :: r
    else (b :: r.headD []) :: r.tail

/-- Inverse of splitB: rejoin pieces with the dot byte. -/
def joinDot : List (List Nat) → List Nat
  | [] => []
  | [l] => l
  | l :: ls => l ++ 46 :: joinDot ls

/-- Label-writing loop of ByteBuffer::write_qname: length byte then label bytes,
rejecting labels longer than 63 bytes. -/
def writeLabels : BytePacketBuffer → List (List Nat) → Except Err BytePacketBuffer
  | b, [] => .ok b
  | b, label :: rest => do
    if label.length > MAX_LABEL_LEN then .error .labelTooLong
    else do
      let b ← b.write label.length
      let b ← writeBytesList b label
      writeLabels b rest
where
  writeBytesList : BytePacketBuffer → List Nat → Except Err BytePacketBuffer
    | b, [] => .ok b
    | b, v :: vs => do
      let b ← b.write v
      writeBytesList b vs

/-- ByteBuffer::write_qname: split on dots, write each label length-prefixed, then
a terminating zero byte. -/
def BytePacketBuffer.write_qname (b : BytePacketBuffer) (qname : List Nat) :
    Except Err BytePacketBuffer := do
  let b ← writeLabels b (splitB 46 qname)
  b.write 0

/-- The growable buffer of buffer.rs used by the TCP path: a byte vector and a
cursor. -/
structure ExtendingBuffer where
  buf : List Nat
  head : Nat

namespace ExtendingBuffer

/-- ExtendingBuffer::new. -/
def new : ExtendingBuffer := ⟨[], 0⟩

/-- ExtendingBuffer::step, never failing. -/
def step (b : ExtendingBuffer) (steps : Nat) : Except Err ExtendingBuffer :=
  .ok { b with head := b.head + steps }

/-- ExtendingBuffer::seek, never failing. -/
def seek (b : ExtendingBuffer) (offset : Nat) : Except Err ExtendingBuffer :=
  .ok { b with head := offset }

/-- ExtendingBuffer::read: the source indexes self.buf[self.head()] with no bounds
check, so a cursor at or past the end of the data panics instead of erroring. -/
def read (b : ExtendingBuffer) : Except Err (Nat × ExtendingBuffer) :=
  if h : b.head < b.buf.length then
    .ok (b.buf.get ⟨b.head, h⟩, { b with head := b.head + 1 })
  else .error .panicked

/-- ExtendingBuffer::write: push one byte and advance the cursor; never fails. -/
def write (b : ExtendingBuffer) (data : Nat) : Except Err ExtendingBuffer :=
  .ok { buf := b.buf ++ [data], head := b.head + 1 }

/-- ExtendingBuffer::get: the source checks the cursor, not the requested offset,
before indexing self.buf[offset], so an out-of-range offset with an in-range cursor
panics. -/
def get (b : ExtendingBuffer) (offset : Nat) : Except Err Nat :=
  if b.head ≥ b.buf.length then .error .readBeyond
  else if h : offset < b.buf.length then .ok (b.buf.get ⟨offset, h⟩)
  else .error .panicked

/-- ExtendingBuffer::get_range: the source checks offset + len against the data
length, then slices self.buf[offset..len]; a slice whose start exceeds its end
panics. -/
def get_range (b : ExtendingBuffer) (offset len : Nat) : Except Err (List Nat) :=
  if offset + len ≥ b.buf.length then .error .readBeyond
  else if offset ≤ len then .ok ((b.buf.drop offset).take (len - offset))
  else .error .panicked

/-- ExtendingBuffer::set: the source checks the cursor, not the target offset,
before writing self.buf[offset], so an out-of-range offset with an in-range cursor
panics. -/
def set (b : ExtendingBuffer) (offset data : Nat) : Except Err ExtendingBuffer :=
  if b.head ≥ b.buf.length then .error .readBeyond
  else if offset < b.buf.length then .ok { b with buf := b.buf.set offset data }
  else .error .panicked

end ExtendingBuffer

/-- DNS response code enum of protocol.rs. -/
inductive ResponseCode where
  | NOERROR
  | FORMERR
  | SERVFAIL
  | NXDOMAIN
  | NOTIMP
  | REFUSED
deriving DecidableEq

/-- The numeric discriminant of a response code (the Rust enum value, used by the
cast rescode as u8 in DnsHeader::write). -/
def ResponseCode.toNum : ResponseCode → Nat
  | .NOERROR => 0
  | .FORMERR => 1
  | .SERVFAIL => 2
  | .NXDOMAIN => 3
  | .NOTIMP => 4
  | .REFUSED => 5

/-- ResponseCode::from_num: codes outside 1..5 are coerced to NOERROR. -/
def ResponseCode.from_num (num : Nat) : ResponseCode :=
  match num with
  | 1 => .FORMERR
  | 2 => .SERVFAIL
  | 3 => .NXDOMAIN
  | 4 => .NOTIMP
  | 5 => .REFUSED
  | _ => .NOERROR

/-- QueryType of protocol.rs, with the catch-all UNKNOWN carrying the raw code. -/
inductive QueryType where
  | UNKNOWN (n : Nat)
  | A
  | NS
  | CNAME
  | MX
  | AAAA
deriving DecidableEq

/-- QueryType::to_num. -/
def QueryType.to_num : QueryType → Nat
  | .UNKNOWN n => n
  | .A => 1
  | .NS => 2
  | .CNAME => 5
  | .MX => 15
  | .AAAA => 28

/-- QueryType::from_num. -/
def QueryType.from_num (num : Nat) : QueryType :=
  match num with
  | 1 => .A
  | 2 => .NS
  | 5 => .CNAME
  | 15 => .MX
  | 28 => .AAAA
  | _ => .UNKNOWN num

/-- An IPv4 address as its four octets (std::net::Ipv4Addr). -/
structure Ipv4Addr where
  o0 : Nat
  o1 : Nat
  o2 : Nat
  o3 : Nat
deriving DecidableEq

/-- An IPv6 address as its eight 16-bit segments (std::net::Ipv6Addr). -/
structure Ipv6Addr where
  s0 : Nat
  s1 : Nat
  s2 : Nat
  s3 : Nat
  s4 : Nat
  s5 : Nat
  s6 : Nat
  s7 : Nat
deriving DecidableEq

/-- DnsHeader of protocol.rs. -/
structure DnsHeader where
  id : Nat
  recursion_desired : Bool
  truncated_message : Bool
  authoritative_answer : Bool
  opcode : Nat
  response : Bool
  rescode : ResponseCode
  checking_disabled : Bool
  authed_data : Bool
  z : Bool
  recursion_available : Bool
  questions : Nat
  answers : Nat
  authoritative_entries : Nat
  resource_entries : Nat
deriving DecidableEq

/-- DnsHeader::new. -/
def DnsHeader.new : DnsHeader where
  id := 0
  recursion_desired := false
  truncated_message := false
  authoritative_answer := false
  opcode := 0
  response := false
  rescode := .NOERROR
  checking_disabled := false
  authed_data := false
  z := false
  recursion_available := false
  questions := 0
  answers := 0
  authoritative_entries := 0
  resource_entries := 0

/-- DnsHeader::read: id, the packed 16-bit flag word, then the four counts. The
flag word is unpacked as RCODE from bits 0-3, CD bit 4, AD bit 5, Z bit 6, RA bit
7, RD bit 8, TC bit 9, AA bit 10, Opcode bits 11-14, QR bit 15. -/
def DnsHeader.read (buffer : BytePacketBuffer) :
    Except Err (DnsHeader × BytePacketBuffer) := do
  let (id, buffer) ← buffer.read_u16
  let (flags, buffer) ← buffer.read_u16
  let (questions, buffer) ← buffer.read_u16
  let (answers, buffer) ← buffer.read_u16
  let (authoritative_entries, buffer) ← buffer.read_u16
  let (resource_entries, buffer) ← buffer.read_u16
  pure ({ id := id
          rescode := ResponseCode.from_num (flags &&& 0xF)
          checking_disabled := (flags >>> 4) &&& 1 != 0
          authed_data := (flags >>> 5) &&& 1 != 0
          z := (flags >>> 6) &&& 1 != 0
          recursion_available := (flags >>> 7) &&& 1 != 0
          recursion_desired := (flags >>> 8) &&& 1 != 0
          truncated_message := (flags >>> 9) &&& 1 != 0
          authoritative_answer := (flags >>> 10) &&& 1 != 0
          opcode := (flags >>> 11) &&& 0xF
          response := (flags >>> 15) &&& 1 != 0
          questions := questions
          answers := answers
          authoritative_entries := authoritative_entries
          resource_entries := resource_entries }, buffer)

/-- DnsHeader::write: id, two flag bytes, then the four counts. The first flag
byte is built as (response << 7) | (opcode << 6) | (aa << 2) | (tc << 1) | rd in
u8 arithmetic, where opcode << 6 wraps modulo 256 exactly as Rust u8 shifts do. -/
def DnsHeader.write (h : DnsHeader) (buffer : BytePacketBuffer) :
    Except Err BytePacketBuffer := do
  let buffer ← buffer.write_u16 h.id
  let buffer ← buffer.write
    ((h.response.toNat <<< 7) ||| ((h.opcode <<< 6) % 256) |||
      (h.authoritative_answer.toNat <<< 2) ||| (h.truncated_message.toNat <<< 1) |||
      h.recursion_desired.toNat)
  let buffer ← buffer.write
    ((h.recursion_available.toNat <<< 7) ||| (h.z.toNat <<< 6) |||
      (h.authed_data.toNat <<< 5) ||| (h.checking_disabled.toNat <<< 4) |||
      h.rescode.toNum)
  let buffer ← buffer.write_u16 h.questions
  let buffer ← buffer.write_u16 h.answers
  let buffer ← buffer.write_u16 h.authoritative_entries
  buffer.write_u16 h.resource_entries

/-- DnsQuestion of protocol.rs; the name is the byte sequence of the Rust String. -/
structure DnsQuestion where
  name : List Nat
  qtype : QueryType
deriving DecidableEq

/-- DnsQuestion::read: name appended to the existing name field, qtype, and an
ignored class word. -/
def DnsQuestion.read (q : DnsQuestion) (buffer : BytePacketBuffer) :
    Except Err (DnsQuestion × BytePacketBuffer) := do
  let (name, buffer) ← buffer.read_qname QNAME_FUEL q.name
  let (qtypeNum, buffer) ← buffer.read_u16
  let (_, buffer) ← buffer.read_u16
  pure ({ name := name, qtype := QueryType.from_num qtypeNum }, buffer)

/-- DnsQuestion::write: name, qtype, class 1. -/
def DnsQuestion.write (q : DnsQuestion) (buffer : BytePacketBuffer) :
    Except Err BytePacketBuffer := do
  let buffer ← buffer.write_qname q.name
  let buffer ← buffer.write_u16 q.qtype.to_num
  buffer.write_u16 1

/-- DnsRecord of protocol.rs; domains and hosts are Rust String byte sequences. -/
inductive DnsRecord where
  | UNKNOWN (domain : List Nat) (qtype : Nat) (data_len : Nat) (ttl : Nat)
  | A (domain : List Nat) (addr : Ipv4Addr) (ttl : Nat)
  | NS (domain : List Nat) (host : List Nat) (ttl : Nat)
  | CNAME (domain : List Nat) (host : List Nat) (ttl : Nat)
  | MX (domain : List Nat) (priority : Nat) (host : List Nat) (ttl : Nat)
  | AAAA (domain : List Nat) (addr : Ipv6Addr) (ttl : Nat)
deriving DecidableEq

/-- DnsRecord::read: common preamble (name, qtype, ignored class, ttl, rdlength)
then the variant payload selected by QueryType::from_num. -/
def DnsRecord.read (buffer : BytePacketBuffer) :
    Except Err (DnsRecord × BytePacketBuffer) := do
  let (domain, buffer) ← buffer.read_qname QNAME_FUEL []
  let (qtype, buffer) ← buffer.read_u16
  let (_, buffer) ← buffer.read_u16
  let (ttl, buffer) ← buffer.read_u32
  let (data_len, buffer) ← buffer.read_u16
  match QueryType.from_num qtype with
  | .A => do
    let (raw_addr, buffer) ← buffer.read_u32
    let addr : Ipv4Addr :=
      ⟨(raw_addr >>> 24) &&& 0xFF, (raw_addr >>> 16) &&& 0xFF,
        (raw_addr >>> 8) &&& 0xFF, (raw_addr >>> 0) &&& 0xFF⟩
    pure (.A domain addr ttl, buffer)
  | .AAAA => do
    let (raw0, buffer) ← buffer.read_u32
    let (raw1, buffer) ← buffer.read_u32
    let (raw2, buffer) ← buffer.read_u32
    let (raw3, buffer) ← buffer.read_u32
    let addr : Ipv6Addr :=
      ⟨(raw0 >>> 16) &&& 0xFFFF, raw0 &&& 0xFFFF, (raw1 >>> 16) &&& 0xFFFF,
        raw1 &&& 0xFFFF, (raw2 >>> 16) &&& 0xFFFF, raw2 &&& 0xFFFF,
        (raw3 >>> 16) &&& 0xFFFF, raw3 &&& 0xFFFF⟩
    pure (.AAAA domain addr ttl, buffer)
  | .CNAME => do
    let (host, buffer) ← buffer.read_qname QNAME_FUEL []
    pure (.CNAME domain host ttl, buffer)
  | .NS => do
    let (host, buffer) ← buffer.read_qname QNAME_FUEL []
    pure (.NS domain host ttl, buffer)
  | .MX => do
    let (priority, buffer) ← buffer.read_u16
    let (host, buffer) ← buffer.read_qname QNAME_FUEL []
    pure (.MX domain priority host ttl, buffer)
  | .UNKNOWN _ => do
    let buffer ← buffer.step data_len
    pure (.UNKNOWN domain qtype data_len ttl, buffer)

/-- DnsRecord::write: variant payloads as in the source; NS, CNAME and MX write a
placeholder rdlength, the payload, then patch the rdlength in place with set_u16;
UNKNOWN records are dropped (nothing written). Returns the byte count written. -/
def DnsRecord.write (r : DnsRecord) (buffer : BytePacketBuffer) :
    Except Err (Nat × BytePacketBuffer) := do
  let start_pos := buffer.head
  match r with
  | .A domain addr ttl => do
    let buffer ← buffer.write_qname domain
    let buffer ← buffer.write_u16 (QueryType.A.to_num)
    let buffer ← buffer.write_u16 1
    let buffer ← buffer.write_u32 ttl
    let buffer ← buffer.write_u16 4
    let buffer ← buffer.write addr.o0
    let buffer ← buffer.write addr.o1
    let buffer ← buffer.write addr.o2
    let buffer ← buffer.write addr.o3
    pure (buffer.head - start_pos, buffer)
  | .NS domain host ttl => do
    let buffer ← buffer.write_qname domain
    let buffer ← buffer.write_u16 (QueryType.NS.to_num)
    let buffer ← buffer.write_u16 1
    let buffer ← buffer.write_u32 ttl
    let pos := buffer.head
    let buffer ← buffer.write_u16 0
    let buffer ← buffer.write_qname host
    let size := buffer.head - (pos + 2)
    let buffer ← buffer.set_u16 pos size
    pure (buffer.head - start_pos, buffer)
  | .CNAME domain host ttl => do
    let buffer ← buffer.write_qname domain
    let buffer ← buffer.write_u16 (QueryType.CNAME.to_num)
    let buffer ← buffer.write_u16 1
    let buffer ← buffer.write_u32 ttl
    let pos := buffer.head
    let buffer ← buffer.write_u16 0
    let buffer ← buffer.write_qname host
    let size := buffer.head - (pos + 2)
    let buffer ← buffer.set_u16 pos size
    pure (buffer.head - start_pos, buffer)
  | .MX domain priority host ttl => do
    let buffer ← buffer.write_qname domain
    let buffer ← buffer.write_u16 (QueryType.MX.to_num)
    let buffer ← buffer.write_u16 1
    let buffer ← buffer.write_u32 ttl
    let pos := buffer.head
    let buffer ← buffer.write_u16 0
    let buffer ← buffer.write_u16 priority
    let buffer ← buffer.write_qname host
    let size := buffer.head - (pos + 2)
    let buffer ← buffer.set_u16 pos size
    pure (buffer.head - start_pos, buffer)
  | .AAAA domain addr ttl => do
    let buffer ← buffer.write_qname domain
    let buffer ← buffer.write_u16 (QueryType.AAAA.to_num)
    let buffer ← buffer.write_u16 1
    let buffer ← buffer.write_u32 ttl
    let buffer ← buffer.write_u16 16
    let buffer ← buffer.write_u16 addr.s0
    let buffer ← buffer.write_u16 addr.s1
    let buffer ← buffer.write_u16 addr.s2
    let buffer ← buffer.write_u16 addr.s3
    let buffer ← buffer.write_u16 addr.s4
    let buffer ← buffer.write_u16 addr.s5
    let buffer ← buffer.write_u16 addr.s6
    let buffer ← buffer.write_u16 addr.s7
    pure (buffer.head - start_pos, buffer)
  | .UNKNOWN _ _ _ _ =>
    pure (buffer.head - start_pos, buffer)

/-- DnsPacket of protocol.rs. -/
structure DnsPacket where
  header : DnsHeader
  questions : List DnsQuestion
  answers : List DnsRecord
  authorities : List DnsRecord
  resources : List DnsRecord
deriving DecidableEq

/-- DnsPacket::new. -/
def DnsPacket.new : DnsPacket where
  header := DnsHeader.new
  questions := []
  answers := []
  authorities := []
  resources := []

/-- Question-reading loop of DnsPacket::from_buffer: header.questions iterations,
each starting from an empty name and UNKNOWN(0) qtype, pushed in order. -/
def readQuestionsN : Nat → BytePacketBuffer →
    Except Err (List DnsQuestion × BytePacketBuffer)
  | 0, buffer => pure ([], buffer)
  | n + 1, buffer => do
    let (q, buffer) ← DnsQuestion.read ⟨[], .UNKNOWN 0⟩ buffer
    let (qs, buffer) ← readQuestionsN n buffer
    pure (q :: qs, buffer)

/-- Record-reading loop of DnsPacket::from_buffer: n records pushed in order. -/
def readRecordsN : Nat → BytePacketBuffer →
    Except Err (List DnsRecord × BytePacketBuffer)
  | 0, buffer => pure ([], buffer)
  | n + 1, buffer => do
    let (r, buffer) ← DnsRecord.read buffer
    let (rs, buffer) ← readRecordsN n buffer
    pure (r :: rs, buffer)

/-- DnsPacket::from_buffer: header, then exactly the counted number of questions,
answers, authorities and resources. -/
def DnsPacket.from_buffer (buffer : BytePacketBuffer) : Except Err DnsPacket := do
  let (header, buffer) ← DnsHeader.read buffer
  let (questions, buffer) ← readQuestionsN header.questions buffer
  let (answers, buffer) ← readRecordsN header.answers buffer
  let (authorities, buffer) ← readRecordsN header.authoritative_entries buffer
  let (resources, _) ← readRecordsN header.resource_entries buffer
  pure { header := header, questions := questions, answers := answers,
         authorities := authorities, resources := resources }

/-- Question-writing loop of DnsPacket::write, propagating the first error. -/
def writeQuestionsList : List DnsQuestion → BytePacketBuffer →
    Except Err BytePacketBuffer
  | [], buffer => pure buffer
  | q :: qs, buffer => do
    let buffer ← q.write buffer
    writeQuestionsList qs buffer

/-- Record-writing loop of the second phase of DnsPacket::write, propagating the
first error. -/
def writeRecordsList : List DnsRecord → BytePacketBuffer →
    Except Err BytePacketBuffer
  | [], buffer => pure buffer
  | r :: rs, buffer => do
    let (_, buffer) ← r.write buffer
    writeRecordsList rs buffer

/-- First-phase record loop of DnsPacket::write over the enumerated chain of
answers, authorities and resources: on success the per-section header counter for
the record's index is incremented; on the first error the truncated_message bit is
set, record_count is cut to the failing index, and the loop stops. A panic inside
a record write is not caught, exactly as a Rust panic unwinds through the match. -/
def tempLoop (ansLen authLen : Nat) :
    List (Nat × DnsRecord) → DnsHeader → BytePacketBuffer → Nat →
    Except Err (DnsHeader × BytePacketBuffer × Nat)
  | [], header, temp_buf, record_count => .ok (header, temp_buf, record_count)
  | (i, rec) :: rest, header, temp_buf, record_count =>
    match rec.write temp_buf with
    | .ok (_, temp_buf') =>
      let header' :=
        if i < ansLen then { header with answers := header.answers + 1 }
        else if i < ansLen + authLen then
          { header with authoritative_entries := header.authoritative_entries + 1 }
        else { header with resource_entries := header.resource_entries + 1 }
      tempLoop ansLen authLen rest header' temp_buf' record_count
    | .error e =>
      if e = .panicked then .error .panicked
      else .ok ({ header with truncated_message := true }, temp_buf, i)

/-- DnsPacket::write: dry-run the header, the questions and the records into a
scratch buffer, tracking per-section counts and truncation; then write the header
(with the question count set from the list), the questions and the surviving
record prefix into the real buffer. The source mutates self.header; the embedding
returns the mutated packet alongside the buffer. -/
def DnsPacket.write (p : DnsPacket) (buffer : BytePacketBuffer) :
    Except Err (DnsPacket × BytePacketBuffer) := do
  let temp_buf := BytePacketBuffer.new
  let temp_buf ← p.header.write temp_buf
  let temp_buf ← writeQuestionsList p.questions temp_buf
  let chained := p.answers ++ p.authorities ++ p.resources
  let (header, _, record_count) ←
    tempLoop p.answers.length p.authorities.length chained.enum p.header temp_buf
      chained.length
  let header := { header with questions := p.questions.length }
  let buffer ← header.write buffer
  let buffer ← writeQuestionsList p.questions buffer
  let buffer ← writeRecordsList (chained.take record_count) buffer
  pure ({ p with header := header }, buffer)

/-- Decimal byte representation of a Nat, for Ipv4Addr::to_string. -/
def natDecimal (n : Nat) : List Nat :=
  (Nat.toDigits 10 n).map Char.toNat

/-- The display string of an IPv4 address, dotted decimal. -/
def ipv4String (a : Ipv4Addr) : List Nat :=
  natDecimal a.o0 ++ 46 :: natDecimal a.o1 ++ 46 :: natDecimal a.o2 ++
    46 :: natDecimal a.o3

/-- DnsPacket::get_random_a: if answers is nonempty, draw one index uniformly over
all answers (random::<usize>() % answers.len(), the draw modeled as the rand
argument) and return the address string when that record is an A record; otherwise
return none. -/
def DnsPacket.get_random_a (p : DnsPacket) (rand : Nat) : Option (List Nat) :=
  if p.answers.isEmpty then none
  else
    match p.answers.get? (rand % p.answers.length) with
    | some (.A _ addr _) => some (ipv4String addr)
    | _ => none

/-- DnsResolver::resolve, the trait default method: an UNKNOWN qtype short-circuits
to a fresh packet with rescode NOTIMP; every other qtype is delegated to the
variant's execute (the oracle argument). The recursive flag is accepted and never
consulted. -/
def resolve (execute : List Nat → QueryType → Except Err DnsPacket)
    (qname : List Nat) (qtype : QueryType) (recursive : Bool) :
    Except Err DnsPacket :=
  match qtype with
  | .UNKNOWN _ =>
    .ok { DnsPacket.new with header := { DnsHeader.new with rescode := .NOTIMP } }
  | _ =>
    let _ := recursive
    execute qname qtype

/-- ForwardResolver::execute: one call to the transport client with the configured
upstream server and the recursion-desired flag hard-coded to true. -/
def ForwardResolver.execute
    (send_query : List Nat → QueryType → (List Nat × Nat) → Bool →
      Except Err DnsPacket)
    (server : List Nat × Nat) (qname : List Nat) (qtype : QueryType) :
    Except Err DnsPacket :=
  send_query qname qtype server true

/-- Reply-data extraction of UdpServer::run (server.rs lines 190-197): after a
successful response write, the server takes get_range(0, head) of the response
buffer and sends it; on error it logs and returns without sending, modeled as
none. -/
def udpReplyData (res_buffer : BytePacketBuffer) : Option (List Nat) :=
  match res_buffer.get_range 0 res_buffer.head with
  | .ok result => some result
  | .error _ => none

/-- Write a header to a fresh buffer and read it back from offset 0, the
composition claim C2 is about. -/
def headerWriteThenRead (h : DnsHeader) : Except Err DnsHeader := do
  let b ← h.write BytePacketBuffer.new
  let (h', _) ← DnsHeader.read { b with head := 0 }
  pure h'

/-- C2: the claim that DnsHeader::write emits the opcode at bits 11-14 of the flag
word (the layout DnsHeader::read unpacks) fails: the source shifts the opcode by 6
inside the first flag byte, so a written opcode of 1 is read back as 8, and a
written opcode of 2 wraps into the QR bit and is read back as opcode 0 with
response set. -/
theorem C2_opcode_bit_layout_bug :
    headerWriteThenRead { DnsHeader.new with opcode := 1 } =
      .ok { DnsHeader.new with opcode := 8 } ∧
    headerWriteThenRead { DnsHeader.new with opcode := 2 } =
      .ok { DnsHeader.new with opcode := 0, response := true } := by
  constructor <;> rfl

/-- A 512-byte buffer holding a two-byte compression pointer at offset 0 that
points back to offset 0. -/
def cycBuf : BytePacketBuffer :=
  { buf := fun i => if i = 0 then 0xC0 else 0, head := 0 }

theorem cycAux (fuel : Nat) :
    ∀ (b : BytePacketBuffer) (acc delim : List Nat), b.buf = cycBuf.buf →
      readQnameGo fuel b acc 0 true delim = .error .fuelExhausted := by
  induction fuel with
  | zero => intro b acc delim _; rfl
  | succ n ih =>
    intro b acc delim hb
    have h0 : b.buf 0 = 0xC0 := by rw [hb]; rfl
    have h1 : b.buf 1 = 0 := by rw [hb]; rfl
    simp only [readQnameGo, BytePacketBuffer.get, MAX_SIZE]
    norm_num [h0, h1, Except.bind]
    exact ih b acc delim hb

/-- C5: read_qname does not terminate on a pointer cycle. On the buffer whose
bytes 0xC0 0x00 at offset 0 form a pointer to offset 0, the source loop revisits
the same state forever; in the fueled embedding, every fuel value is exhausted, so
no bound on pointer follows (such as the claimed 255) exists in the code and no
format error is ever produced. -/
theorem C5_pointer_cycle_diverges :
    ∀ (fuel : Nat) (acc : List Nat),
      cycBuf.read_qname fuel acc = .error .fuelExhausted := by
  intro fuel acc
  match fuel with
  | 0 => rfl
  | n + 1 =>
    show readQnameGo (n + 1) cycBuf acc 0 false [] = .error .fuelExhausted
    have h0 : cycBuf.buf 0 = 0xC0 := rfl
    have h1 : ∀ bb, bb = cycBuf →
        readQnameGo (n + 1) cycBuf acc 0 false [] = .error .fuelExhausted := by
      intro bb _
      simp only [readQnameGo, BytePacketBuffer.get, BytePacketBuffer.seek, MAX_SIZE]
      norm_num [Except.bind]
      exact cycAux n { cycBuf with head := 2 } acc [] rfl
    exact h1 cycBuf rfl

/-- C6: two buffer operations panic instead of returning an error Result.
BytePacketBuffer::set writes self.buf[pos] with no bounds check, so offset 512
panics; ExtendingBuffer::read indexes self.buf[self.head()] with no check, so a
cursor at the end of the data panics. -/
theorem C6_set_and_read_panic :
    BytePacketBuffer.new.set 512 7 = .error .panicked ∧
    ExtendingBuffer.read ⟨[1, 2], 2⟩ = .error .panicked := by
  constructor <;> rfl

/-- C7: for an UNKNOWN qtype, resolve returns a fresh packet with rescode NOTIMP
and all four sections empty, for every execute oracle whatsoever (so execute is
never consulted and no outbound query can occur). -/
theorem C7_unknown_qtype_notimp :
    ∀ (execute : List Nat → QueryType → Except Err DnsPacket)
      (qname : List Nat) (n : Nat) (recursive : Bool),
      resolve execute qname (.UNKNOWN n) recursive =
        .ok { header := { DnsHeader.new with rescode := .NOTIMP },
              questions := [], answers := [], authorities := [], resources := [] } :=
  fun _ _ _ _ => rfl

/-- C10: the recursive argument of resolve is never consulted: for every execute
oracle (covering both ForwardResolver and RecursiveResolver), every qname and every
qtype, the two flag values give identical computations; moreover
ForwardResolver::execute hard-codes recursion desired to true on its send_query
call. -/
theorem C10_recursive_flag_has_no_effect :
    (∀ (execute : List Nat → QueryType → Except Err DnsPacket)
      (qname : List Nat) (qtype : QueryType),
      resolve execute qname qtype true = resolve execute qname qtype false) ∧
    (∀ (send_query : List Nat → QueryType → (List Nat × Nat) → Bool →
        Except Err DnsPacket)
      (server : List Nat × Nat) (qname : List Nat) (qtype : QueryType),
      ForwardResolver.execute send_query server qname qtype =
        send_query qname qtype server true) := by
  constructor
  · intro execute qname qtype
    cases qtype <;> rfl
  · intro _ _ _ _
    rfl

/-- The two-answer packet of the C8 counterexample: an NS record first, an A
record second. -/
def c8Packet : DnsPacket :=
  { header := DnsHeader.new
    questions := []
    answers := [.NS [97] [98] 0, .A [97] ⟨1, 2, 3, 4⟩ 0]
    authorities := []
    resources := [] }

/-- C8 counterexample: get_random_a returns none on a draw that lands on the NS
record even though the answers section contains an A record, refuting the claim
that none is returned only when no A record is present. -/
theorem C8_counterexample :
    DnsRecord.A [97] ⟨1, 2, 3, 4⟩ 0 ∈ c8Packet.answers ∧
      c8Packet.get_random_a 0 = none := by
  constructor
  · simp [c8Packet]
  · rfl

/-- C8 amended: get_random_a draws one index uniformly over all answers, A record
or not, and yields the address string exactly when the drawn record is an A
record; in particular a packet whose answers hold an A record can still yield
none. -/
theorem C8_uniform_over_all_answers (p : DnsPacket) (rand : Nat) :
    p.get_random_a rand =
      match p.answers.get? (rand % p.answers.length) with
      | some (.A _ addr _) => some (ipv4String addr)
      | _ => none := by
  unfold DnsPacket.get_random_a
  rcases h : p.answers with _ | ⟨a, l⟩
  · simp [h, List.isEmpty]
  · simp [List.isEmpty]

/-- C9: BytePacketBuffer::get_range succeeds exactly when start + len is strictly
below 512 — a range ending exactly at the 512-byte capacity is rejected — and
therefore the UDP reply path, which extracts get_range(0, head) from the response
buffer, sends nothing when a response fills all 512 bytes. -/
theorem C9_get_range_off_by_one (b : BytePacketBuffer) (start len : Nat) :
    ((b.get_range start len).isOk = true ↔ start + len < 512) ∧
      (b.head = 512 → udpReplyData b = none) := by
  constructor
  · unfold BytePacketBuffer.get_range MAX_SIZE
    rcases Nat.lt_or_ge (start + len) 512 with h | h
    · simp [Nat.not_le.mpr h, h, Except.isOk, Except.toBool]
    · simp [h, Nat.not_lt.mpr h, Except.isOk, Except.toBool]
  · intro hh
    unfold udpReplyData BytePacketBuffer.get_range
    rw [hh]
    rfl

/-- C9 witness: a buffer whose cursor sits at 512 after a maximal write produces
no UDP reply data. -/
theorem C9_witness :
    udpReplyData { BytePacketBuffer.new with head := 512 } = none :=
  (C9_get_range_off_by_one { BytePacketBuffer.new with head := 512 } 0 512).2 rfl

theorem updateF_same (f : Nat → Nat) (i v : Nat) : updateF f i v i = v := by
  simp [updateF]

theorem updateF_other (f : Nat → Nat) (i v j : Nat) (h : j ≠ i) :
    updateF f i v j = f j := by
  simp [updateF, h]

theorem writeListF_apply (bs : List Nat) (f : Nat → Nat) (p j : Nat) :
    writeListF f p bs j =
      if h : p ≤ j ∧ j < p + bs.length then bs[j - p] else f j := by
  induction bs generalizing f p with
  | nil =>
    simp only [writeListF, List.length_nil, Nat.add_zero]
    rw [dif_neg (by omega)]
  | cons v vs ih =>
    show writeListF (updateF f p v) (p + 1) vs j = _
    rw [ih]
    by_cases hj : p + 1 ≤ j ∧ j < p + 1 + vs.length
    · rw [dif_pos hj, dif_pos ⟨by omega, by simp only [List.length_cons]; omega⟩]
      have hs : j - p = (j - (p + 1)) + 1 := by omega
      simp only [hs, List.getElem_cons_succ]
    · rw [dif_neg hj]
      by_cases hj2 : j = p
      · subst hj2
        rw [updateF_same, dif_pos ⟨Nat.le_refl _, by simp only [List.length_cons]; omega⟩]
        simp
      · rw [updateF_other _ _ _ _ hj2,
          dif_neg (by simp only [List.length_cons]; omega)]

theorem writeListF_append (a b : List Nat) (f : Nat → Nat) (p : Nat) :
    writeListF f p (a ++ b) = writeListF (writeListF f p a) (p + a.length) b := by
  induction a generalizing f p with
  | nil => simp [writeListF]
  | cons v vs ih =>
    show writeListF (updateF f p v) (p + 1) (vs ++ b) = _
    rw [ih]
    show _ = writeListF (writeListF (updateF f p v) (p + 1) vs) (p + (vs.length + 1)) b
    rw [show p + (vs.length + 1) = p + 1 + vs.length from by omega]

theorem writeListF_below (bs : List Nat) (f : Nat → Nat) (p j : Nat) (h : j < p) :
    writeListF f p bs j = f j := by
  rw [writeListF_apply, dif_neg (by omega)]

theorem writeListF_above (bs : List Nat) (f : Nat → Nat) (p j : Nat)
    (h : p + bs.length ≤ j) : writeListF f p bs j = f j := by
  rw [writeListF_apply, dif_neg (by omega)]

theorem region_writeListF (bs : List Nat) (f : Nat → Nat) (p : Nat) :
    region (writeListF f p bs) p bs := by
  intro i hi
  rw [writeListF_apply, dif_pos ⟨by omega, by omega⟩]
  congr 1
  omega

theorem region_append (f : Nat → Nat) (p : Nat) (a b : List Nat) :
    region f p (a ++ b) ↔ region f p a ∧ region f (p + a.length) b := by
  constructor
  · intro h
    constructor
    · intro i hi
      have hh := h i (by simp only [List.length_append]; omega)
      rwa [List.getElem_append_left hi] at hh
    · intro i hi
      have hh := h (a.length + i) (by simp only [List.length_append]; omega)
      rw [← Nat.add_assoc] at hh
      rw [hh, List.getElem_append_right (by omega)]
      congr 1
      omega
  · rintro ⟨h1, h2⟩ i hi
    rcases Nat.lt_or_ge i a.length with hc | hc
    · rw [List.getElem_append_left hc]
      exact h1 i hc
    · have hi' : i - a.length < b.length := by
        simp only [List.length_append] at hi; omega
      have hh := h2 (i - a.length) hi'
      rw [show p + a.length + (i - a.length) = p + i from by omega] at hh
      rw [hh, List.getElem_append_right hc]

theorem region_singleton (f : Nat → Nat) (p x : Nat) :
    region f p [x] ↔ f p = x := by
  constructor
  · intro h
    simpa using h 0 (by simp)
  · intro h i hi
    have : i = 0 := by simpa using hi
    subst this
    simpa using h

theorem region_cons (f : Nat → Nat) (p : Nat) (x : Nat) (bs : List Nat) :
    region f p (x :: bs) ↔ f p = x ∧ region f (p + 1) bs := by
  have hx : x :: bs = [x] ++ bs := rfl
  rw [hx, region_append, region_singleton]
  simp

theorem writeListF_set (bs : List Nat) (f : Nat → Nat) (p k v : Nat)
    (hk : k < bs.length) :
    updateF (writeListF f p bs) (p + k) v = writeListF f p (bs.set k v) := by
  funext j
  by_cases h : j = p + k
  · subst h
    rw [updateF_same, writeListF_apply,
      dif_pos ⟨by omega, by simp only [List.length_set]; omega⟩]
    rw [List.getElem_set]
    rw [if_pos (by omega)]
  · rw [updateF_other _ _ _ _ h, writeListF_apply, writeListF_apply]
    by_cases hc : p ≤ j ∧ j < p + bs.length
    · rw [dif_pos hc, dif_pos (by simp only [List.length_set]; omega)]
      rw [List.getElem_set, if_neg (by omega)]
    · rw [dif_neg hc, dif_neg (by simp only [List.length_set]; omega)]

theorem lor_shiftLeft_eq_add (x y n : Nat) (h : y < 2 ^ n) :
    (x <<< n) ||| y = x * 2 ^ n + y := by
  apply Nat.eq_of_testBit_eq
  intro i
  rw [Nat.testBit_lor, Nat.testBit_shiftLeft,
    show x * 2 ^ n + y = 2 ^ n * x + y from by ring_nf,
    Nat.testBit_mul_pow_two_add x h i]
  by_cases hc : i < n
  · rw [if_pos hc]
    simp [Nat.not_le.mpr hc]
  · rw [if_neg hc]
    have hy : y.testBit i = false := by
      apply Nat.testBit_eq_false_of_lt
      calc y < 2 ^ n := h
        _ ≤ 2 ^ i := Nat.pow_le_pow_right (by omega) (by omega)
    simp [Nat.le_of_not_lt hc, hy]

theorem and_255_eq_mod (x : Nat) : x &&& 0xFF = x % 256 := by
  have h := Nat.and_pow_two_sub_one_eq_mod x 8
  norm_num at h
  exact h

theorem and_65535_eq_mod (x : Nat) : x &&& 0xFFFF = x % 65536 := by
  have h := Nat.and_pow_two_sub_one_eq_mod x 16
  norm_num at h
  exact h

theorem dec_u16 (d : Nat) (h : d < 65536) :
    (((d >>> 8) % 256) <<< 8) ||| (d &&& 0xFF) = d := by
  rw [and_255_eq_mod, lor_shiftLeft_eq_add _ _ _ (by omega : d % 256 < 2 ^ 8)]
  rw [Nat.shiftRight_eq_div_pow]
  have : d / 2 ^ 8 % 256 = d / 2 ^ 8 := Nat.mod_eq_of_lt (by omega)
  rw [this]
  norm_num
  omega

theorem dec_u32 (d : Nat) (h : d < 4294967296) :
    (((d >>> 16) % 65536) <<< 16) ||| (d &&& 0xFFFF) = d := by
  rw [and_65535_eq_mod, lor_shiftLeft_eq_add _ _ _ (by omega : d % 65536 < 2 ^ 16)]
  rw [Nat.shiftRight_eq_div_pow]
  have : d / 2 ^ 16 % 65536 = d / 2 ^ 16 := Nat.mod_eq_of_lt (by omega)
  rw [this]
  norm_num
  omega

/-- Big-endian byte pair of write_u16. -/
def encU16 (d : Nat) : List Nat := [(d >>> 8) % 256, d &&& 0xFF]

/-- Big-endian byte quadruple of write_u32. -/
def encU32 (d : Nat) : List Nat := encU16 ((d >>> 16) % 65536) ++ encU16 (d &&& 0xFFFF)

/-- Byte image of the label-writing loop of write_qname. -/
def encLabels : List (List Nat) → List Nat
  | [] => []
  | l :: ls => l.length :: l ++ encLabels ls

/-- Byte image of write_qname: length-prefixed labels and a zero terminator. -/
def encQname (n : List Nat) : List Nat := encLabels (splitB 46 n) ++ [0]

/-- First flag byte emitted by DnsHeader::write. -/
def flagByte1 (h : DnsHeader) : Nat :=
  (h.response.toNat <<< 7) ||| ((h.opcode <<< 6) % 256) |||
    (h.authoritative_answer.toNat <<< 2) ||| (h.truncated_message.toNat <<< 1) |||
    h.recursion_desired.toNat

/-- Second flag byte emitted by DnsHeader::write. -/
def flagByte2 (h : DnsHeader) : Nat :=
  (h.recursion_available.toNat <<< 7) ||| (h.z.toNat <<< 6) |||
    (h.authed_data.toNat <<< 5) ||| (h.checking_disabled.toNat <<< 4) |||
    h.rescode.toNum

/-- Byte image of DnsHeader::write: 12 bytes. -/
def encHeader (h : DnsHeader) : List Nat :=
  encU16 h.id ++ [flagByte1 h, flagByte2 h] ++ encU16 h.questions ++
    encU16 h.answers ++ encU16 h.authoritative_entries ++ encU16 h.resource_entries

/-- Byte image of DnsQuestion::write. -/
def encQuestion (q : DnsQuestion) : List Nat :=
  encQname q.name ++ encU16 q.qtype.to_num ++ encU16 1

/-- Byte image of the question-writing loop. -/
def encQuestions (qs : List DnsQuestion) : List Nat := (qs.map encQuestion).flatten

/-- Byte image of DnsRecord::write, including the patched rdlength for the
variable-width variants; UNKNOWN records contribute nothing. -/
def encRecord : DnsRecord → List Nat
  | .A d a t =>
    encQname d ++ encU16 1 ++ encU16 1 ++ encU32 t ++ encU16 4 ++
      [a.o0, a.o1, a.o2, a.o3]
  | .NS d host t =>
    encQname d ++ encU16 2 ++ encU16 1 ++ encU32 t ++
      encU16 (encQname host).length ++ encQname host
  | .CNAME d host t =>
    encQname d ++ encU16 5 ++ encU16 1 ++ encU32 t ++
      encU16 (encQname host).length ++ encQname host
  | .MX d p host t =>
    encQname d ++ encU16 15 ++ encU16 1 ++ encU32 t ++
      encU16 (2 + (encQname host).length) ++ encU16 p ++ encQname host
  | .AAAA d a t =>
    encQname d ++ encU16 28 ++ encU16 1 ++ encU32 t ++ encU16 16 ++
      encU16 a.s0 ++ encU16 a.s1 ++ encU16 a.s2 ++ encU16 a.s3 ++
      encU16 a.s4 ++ encU16 a.s5 ++ encU16 a.s6 ++ encU16 a.s7
  | .UNKNOWN _ _ _ _ => []

/-- Byte image of the record-writing loop. -/
def encRecords (rs : List DnsRecord) : List Nat := (rs.map encRecord).flatten

/-- A label acceptable to both the name writer and the name reader: nonempty (so
the reader does not stop at an interior empty label), at most 63 bytes (so the
writer accepts it and the length byte is no pointer tag), and lowercase ASCII (so
the reader's lossy UTF-8 conversion plus lowercasing is the identity). -/
def wfLabel (l : List Nat) : Prop :=
  l ≠ [] ∧ l.length ≤ 63 ∧ ∀ c ∈ l, c < 128 ∧ ¬(65 ≤ c ∧ c ≤ 90)

/-- A name every label of which is well-formed. -/
def wfName (n : List Nat) : Prop := ∀ l ∈ splitB 46 n, wfLabel l

/-- The weaker condition needed for write success alone: labels at most 63 bytes. -/
def labelsOk (n : List Nat) : Prop := ∀ l ∈ splitB 46 n, l.length ≤ 63

/-- The five query types the codec supports symmetrically. -/
def supportedQtype (t : QueryType) : Prop :=
  t = .A ∨ t = .NS ∨ t = .CNAME ∨ t = .MX ∨ t = .AAAA

/-- A question that round-trips: well-formed name, supported type. -/
def wfQuestion (q : DnsQuestion) : Prop := wfName q.name ∧ supportedQtype q.qtype

/-- A record that round-trips: supported variant, well-formed names, numeric
fields within their machine widths. -/
def wfRecord : DnsRecord → Prop
  | .A d a t => wfName d ∧ t < 4294967296 ∧
      a.o0 < 256 ∧ a.o1 < 256 ∧ a.o2 < 256 ∧ a.o3 < 256
  | .NS d host t => wfName d ∧ wfName host ∧ t < 4294967296
  | .CNAME d host t => wfName d ∧ wfName host ∧ t < 4294967296
  | .MX d p host t => wfName d ∧ wfName host ∧ p < 65536 ∧ t < 4294967296
  | .AAAA d a t => wfName d ∧ t < 4294967296 ∧
      a.s0 < 65536 ∧ a.s1 < 65536 ∧ a.s2 < 65536 ∧ a.s3 < 65536 ∧
      a.s4 < 65536 ∧ a.s5 < 65536 ∧ a.s6 < 65536 ∧ a.s7 < 65536
  | .UNKNOWN _ _ _ _ => False

/-- The weaker per-record condition needed for write behavior alone. -/
def labelsOkRecord : DnsRecord → Prop
  | .A d _ _ => labelsOk d
  | .NS d host _ => labelsOk d ∧ labelsOk host
  | .CNAME d host _ => labelsOk d ∧ labelsOk host
  | .MX d _ host _ => labelsOk d ∧ labelsOk host
  | .AAAA d _ _ => labelsOk d
  | .UNKNOWN _ _ _ _ => True

/-- Header fields within machine widths, with the opcode zero (the only value the
buggy opcode shift of DnsHeader::write transports, see C2). -/
def wfHeader (h : DnsHeader) : Prop :=
  h.id < 65536 ∧ h.opcode = 0 ∧ h.questions < 65536 ∧ h.answers < 65536 ∧
    h.authoritative_entries < 65536 ∧ h.resource_entries < 65536

theorem splitB_ne_nil (sep : Nat) (n : List Nat) : splitB sep n ≠ [] := by
  cases n with
  | nil => simp [splitB]
  | cons b rest =>
    simp only [splitB]
    by_cases h : b = sep <;> simp [h]

theorem joinDot_splitB (n : List Nat) : joinDot (splitB 46 n) = n := by
  induction n with
  | nil => rfl
  | cons b rest ih =>
    obtain ⟨hd, tl, hr⟩ : ∃ hd tl, splitB 46 rest = hd :: tl := by
      cases e : splitB 46 rest with
      | nil => exact absurd e (splitB_ne_nil 46 rest)
      | cons hd tl => exact ⟨hd, tl, rfl⟩
    rw [hr] at ih
    simp only [splitB, hr]
    by_cases h : b = 46
    · rw [if_pos h]
      show joinDot ([] :: hd :: tl) = b :: rest
      show [] ++ 46 :: joinDot (hd :: tl) = b :: rest
      rw [ih, h]
      rfl
    · rw [if_neg h]
      simp only [List.headD, List.tail]
      cases tl with
      | nil => exact congrArg (List.cons b) ih
      | cons t0 t1 => exact congrArg (List.cons b) ih

/-- The buffer after appending the byte list bs at the cursor. -/
def wAdv (b : BytePacketBuffer) (bs : List Nat) : BytePacketBuffer :=
  ⟨writeListF b.buf b.head bs, b.head + bs.length⟩

theorem wAdv_nil (b : BytePacketBuffer) : wAdv b [] = b := rfl

theorem wAdv_head (b : BytePacketBuffer) (bs : List Nat) :
    (wAdv b bs).head = b.head + bs.length := rfl

theorem wAdv_buf (b : BytePacketBuffer) (bs : List Nat) :
    (wAdv b bs).buf = writeListF b.buf b.head bs := rfl

theorem wAdv_append (b : BytePacketBuffer) (a c : List Nat) :
    wAdv (wAdv b a) c = wAdv b (a ++ c) := by
  simp only [wAdv, writeListF_append, List.length_append]
  exact congrArg _ (by omega)

theorem ebind_ok {α β : Type} (a : α) (f : α → Except Err β) :
    Except.bind (.ok a) f = f a := rfl

theorem ebind_err {α β : Type} (e : Err) (f : α → Except Err β) :
    Except.bind (.error e : Except Err α) f = .error e := rfl

theorem encU16_length (d : Nat) : (encU16 d).length = 2 := rfl

theorem encU32_length (d : Nat) : (encU32 d).length = 4 := rfl

theorem write_eq (b : BytePacketBuffer) (v : Nat) :
    b.write v = if b.head + 1 ≤ 512 then .ok (wAdv b [v]) else .error .endOfBuffer := by
  unfold BytePacketBuffer.write MAX_SIZE
  by_cases h : b.head + 1 ≤ 512
  · rw [if_neg (by omega), if_pos h]
    rfl
  · rw [if_pos (by omega), if_neg h]

theorem write_u16_eq (b : BytePacketBuffer) (d : Nat) :
    b.write_u16 d =
      if b.head + 2 ≤ 512 then .ok (wAdv b (encU16 d)) else .error .endOfBuffer := by
  unfold BytePacketBuffer.write_u16
  simp only [Bind.bind]
  by_cases h : b.head + 2 ≤ 512
  · rw [write_eq, if_pos (by omega), ebind_ok, write_eq,
      if_pos (by rw [wAdv_head]; simp; omega), wAdv_append, if_pos h]
    rfl
  · rw [if_neg h]
    by_cases h1 : b.head + 1 ≤ 512
    · rw [write_eq, if_pos h1, ebind_ok, write_eq,
        if_neg (by rw [wAdv_head]; simp; omega)]
    · rw [write_eq, if_neg h1, ebind_err]

theorem write_u32_eq (b : BytePacketBuffer) (d : Nat) :
    b.write_u32 d =
      if b.head + 4 ≤ 512 then .ok (wAdv b (encU32 d)) else .error .endOfBuffer := by
  unfold BytePacketBuffer.write_u32
  simp only [Bind.bind]
  by_cases h : b.head + 4 ≤ 512
  · rw [write_u16_eq, if_pos (by omega), ebind_ok, write_u16_eq,
      if_pos (by rw [wAdv_head, encU16_length]; omega), wAdv_append, if_pos h]
    rfl
  · rw [if_neg h]
    by_cases h1 : b.head + 2 ≤ 512
    · rw [write_u16_eq, if_pos h1, ebind_ok, write_u16_eq,
        if_neg (by rw [wAdv_head, encU16_length]; omega)]
    · rw [write_u16_eq, if_neg h1, ebind_err]

theorem writeBytesList_ok (l : List Nat) (b : BytePacketBuffer)
    (h : b.head + l.length ≤ 512) :
    writeLabels.writeBytesList b l = .ok (wAdv b l) := by
  induction l generalizing b with
  | nil => rfl
  | cons v vs ih =>
    show Except.bind (b.write v) _ = _
    rw [write_eq, if_pos (by simp at h; omega), ebind_ok,
      ih _ (by rw [wAdv_head]; simp at h ⊢; omega), wAdv_append]
    rfl

theorem writeBytesList_err (l : List Nat) (b : BytePacketBuffer)
    (hh : b.head ≤ 512) (h : b.head + l.length > 512) :
    writeLabels.writeBytesList b l = .error .endOfBuffer := by
  induction l generalizing b with
  | nil => simp at h; omega
  | cons v vs ih =>
    show Except.bind (b.write v) _ = _
    by_cases h1 : b.head + 1 ≤ 512
    · rw [write_eq, if_pos h1, ebind_ok,
        ih _ (by rw [wAdv_head]; simp; omega) (by rw [wAdv_head]; simp at h ⊢; omega)]
    · rw [write_eq, if_neg h1, ebind_err]

theorem encLabels_cons_length (l : List Nat) (ls : List (List Nat)) :
    (encLabels (l :: ls)).length = 1 + l.length + (encLabels ls).length := by
  simp [encLabels]
  omega

theorem writeLabels_cons_eq (b : BytePacketBuffer) (l : List Nat)
    (ls : List (List Nat)) :
    writeLabels b (l :: ls) =
      (if l.length > MAX_LABEL_LEN then .error .labelTooLong
       else Except.bind (b.write l.length) fun b1 =>
         Except.bind (writeLabels.writeBytesList b1 l) fun b2 =>
           writeLabels b2 ls) := rfl

theorem write_qname_eq (b : BytePacketBuffer) (n : List Nat) :
    b.write_qname n =
      Except.bind (writeLabels b (splitB 46 n)) fun b1 => b1.write 0 := rfl

theorem question_write_eq (q : DnsQuestion) (b : BytePacketBuffer) :
    q.write b = (Except.bind (b.write_qname q.name) fun b1 =>
      Except.bind (b1.write_u16 q.qtype.to_num) fun b2 => b2.write_u16 1) := rfl

theorem writeLabels_ok (L : List (List Nat)) (b : BytePacketBuffer)
    (hw : ∀ l ∈ L, l.length ≤ 63) (h : b.head + (encLabels L).length ≤ 512) :
    writeLabels b L = .ok (wAdv b (encLabels L)) := by
  induction L generalizing b with
  | nil => rfl
  | cons l ls ih =>
    have hsz := encLabels_cons_length l ls
    have hl : l.length ≤ 63 := hw l (by simp)
    rw [writeLabels_cons_eq, if_neg (by simp [MAX_LABEL_LEN]; omega)]
    rw [write_eq, if_pos (by omega), ebind_ok]
    have h1 : (wAdv b [l.length]).head = b.head + 1 := rfl
    rw [writeBytesList_ok _ _ (by rw [h1]; omega), ebind_ok, wAdv_append]
    have h2 : (wAdv b ([l.length] ++ l)).head = b.head + (1 + l.length) := by
      rw [wAdv_head]; simp; omega
    rw [ih _ (fun x hx => hw x (by simp [hx])) (by rw [h2]; omega), wAdv_append]
    show _ = Except.ok (wAdv b (l.length :: (l ++ encLabels ls)))
    rw [show l.length :: (l ++ encLabels ls) = [l.length] ++ l ++ encLabels ls by simp]

theorem writeLabels_err (L : List (List Nat)) (b : BytePacketBuffer)
    (hw : ∀ l ∈ L, l.length ≤ 63) (hh : b.head ≤ 512)
    (h : b.head + (encLabels L).length > 512) :
    writeLabels b L = .error .endOfBuffer := by
  induction L generalizing b with
  | nil => simp [encLabels] at h; omega
  | cons l ls ih =>
    have hsz := encLabels_cons_length l ls
    have hl : l.length ≤ 63 := hw l (by simp)
    rw [writeLabels_cons_eq, if_neg (by simp [MAX_LABEL_LEN]; omega)]
    by_cases h1 : b.head + 1 ≤ 512
    · rw [write_eq, if_pos h1, ebind_ok]
      have hb1 : (wAdv b [l.length]).head = b.head + 1 := rfl
      by_cases h2 : b.head + 1 + l.length ≤ 512
      · rw [writeBytesList_ok _ _ (by rw [hb1]; omega), ebind_ok, wAdv_append]
        have hb2 : (wAdv b ([l.length] ++ l)).head = b.head + (1 + l.length) := by
          rw [wAdv_head]; simp; omega
        rw [ih _ (fun x hx => hw x (by simp [hx])) (by rw [hb2]; omega)
          (by rw [hb2]; omega)]
      · rw [writeBytesList_err _ _ (by rw [hb1]; omega) (by rw [hb1]; omega), ebind_err]
    · rw [write_eq, if_neg h1, ebind_err]

theorem write_qname_ok (b : BytePacketBuffer) (n : List Nat) (hw : labelsOk n)
    (h : b.head + (encQname n).length ≤ 512) :
    b.write_qname n = .ok (wAdv b (encQname n)) := by
  have hsz : (encQname n).length = (encLabels (splitB 46 n)).length + 1 := by
    simp [encQname]
  rw [write_qname_eq, writeLabels_ok _ _ hw (by omega), ebind_ok, write_eq,
    if_pos (by rw [wAdv_head]; omega), wAdv_append]
  rfl

theorem write_qname_err (b : BytePacketBuffer) (n : List Nat) (hw : labelsOk n)
    (hh : b.head ≤ 512) (h : b.head + (encQname n).length > 512) :
    b.write_qname n = .error .endOfBuffer := by
  have hsz : (encQname n).length = (encLabels (splitB 46 n)).length + 1 := by
    simp [encQname]
  rw [write_qname_eq]
  by_cases h1 : b.head + (encLabels (splitB 46 n)).length ≤ 512
  · rw [writeLabels_ok _ _ hw h1, ebind_ok, write_eq, if_neg (by rw [wAdv_head]; omega)]
  · rw [writeLabels_err _ _ hw hh (by omega), ebind_err]

theorem question_write_ok (q : DnsQuestion) (b : BytePacketBuffer)
    (hw : labelsOk q.name) (h : b.head + (encQuestion q).length ≤ 512) :
    q.write b = .ok (wAdv b (encQuestion q)) := by
  have hsz : (encQuestion q).length = (encQname q.name).length + 4 := by
    simp [encQuestion, encU16_length]
  rw [question_write_eq, write_qname_ok _ _ hw (by omega), ebind_ok, write_u16_eq,
    if_pos (by rw [wAdv_head]; omega), ebind_ok, wAdv_append, write_u16_eq,
    if_pos (by rw [wAdv_head]; simp [encU16_length]; omega), wAdv_append]
  simp [encQuestion, List.append_assoc]

theorem question_write_err (q : DnsQuestion) (b : BytePacketBuffer)
    (hw : labelsOk q.name) (hh : b.head ≤ 512)
    (h : b.head + (encQuestion q).length > 512) :
    q.write b = .error .endOfBuffer := by
  have hsz : (encQuestion q).length = (encQname q.name).length + 4 := by
    simp [encQuestion, encU16_length]
  rw [question_write_eq]
  by_cases h1 : b.head + (encQname q.name).length ≤ 512
  · rw [write_qname_ok _ _ hw h1, ebind_ok]
    by_cases h2 : b.head + (encQname q.name).length + 2 ≤ 512
    · rw [write_u16_eq, if_pos (by rw [wAdv_head]; omega), ebind_ok, wAdv_append,
        write_u16_eq, if_neg (by rw [wAdv_head]; simp [encU16_length]; omega)]
    · rw [write_u16_eq, if_neg (by rw [wAdv_head]; omega), ebind_err]
  · rw [write_qname_err _ _ hw hh (by omega), ebind_err]

theorem set_eq (b : BytePacketBuffer) (pos v : Nat) :
    b.set pos v =
      if pos < 512 then .ok { b with buf := updateF b.buf pos v }
      else .error .panicked := rfl

theorem set_u16_eq (b : BytePacketBuffer) (off data : Nat) :
    b.set_u16 off data =
      Except.bind (b.set off ((data >>> 8) % 256)) fun b1 =>
        b1.set (off + 1) (data &&& 0xFF) := rfl

theorem set_append_shift (a c : List Nat) (k v : Nat) :
    (a ++ c).set (a.length + k) v = a ++ c.set k v := by
  induction a with
  | nil => simp
  | cons x xs ih =>
    show (x :: (xs ++ c)).set (xs.length + 1 + k) v = _
    rw [show xs.length + 1 + k = (xs.length + k) + 1 from by omega]
    show x :: ((xs ++ c).set (xs.length + k) v) = x :: (xs ++ c.set k v)
    rw [ih]

theorem set_u16_patch (b : BytePacketBuffer) (pre post : List Nat) (v : Nat)
    (h2 : b.head + pre.length + 2 ≤ 512) :
    (wAdv b (pre ++ ([0, 0] ++ post))).set_u16 (b.head + pre.length) v =
      .ok (wAdv b (pre ++ (encU16 v ++ post))) := by
  rw [set_u16_eq, set_eq, if_pos (by omega), ebind_ok, set_eq, if_pos (by omega)]
  have hb : (wAdv b (pre ++ ([0, 0] ++ post))).buf =
      writeListF b.buf b.head (pre ++ ([0, 0] ++ post)) := rfl
  congr 1
  show ({ wAdv b (pre ++ ([0, 0] ++ post)) with
    buf := updateF (updateF (writeListF b.buf b.head (pre ++ ([0, 0] ++ post)))
      (b.head + pre.length) ((v >>> 8) % 256))
      (b.head + pre.length + 1) (v &&& 0xFF) } : BytePacketBuffer) = _
  rw [writeListF_set _ _ _ _ _ (by simp),
    show pre.length = pre.length + 0 from rfl,
    set_append_shift pre ([0, 0] ++ post) 0 ((v >>> 8) % 256)]
  rw [show b.head + (pre.length + 0) + 1 = b.head + (pre.length + 1) from by omega,
    writeListF_set _ _ _ _ _ (by simp),
    set_append_shift pre _ 1 (v &&& 0xFF)]
  show ({ wAdv b (pre ++ ([0, 0] ++ post)) with
    buf := writeListF b.buf b.head
      (pre ++ (((v >>> 8) % 256) :: (v &&& 0xFF) :: post)) } : BytePacketBuffer) = _
  unfold wAdv
  simp only [List.length_append, List.length_cons, encU16_length]
  exact congrArg _ (by simp)

theorem record_write_A_eq (d : List Nat) (a : Ipv4Addr) (t : Nat)
    (b : BytePacketBuffer) :
    (DnsRecord.A d a t).write b =
      (Except.bind (b.write_qname d) fun b1 =>
       Except.bind (b1.write_u16 1) fun b2 =>
       Except.bind (b2.write_u16 1) fun b3 =>
       Except.bind (b3.write_u32 t) fun b4 =>
       Except.bind (b4.write_u16 4) fun b5 =>
       Except.bind (b5.write a.o0) fun b6 =>
       Except.bind (b6.write a.o1) fun b7 =>
       Except.bind (b7.write a.o2) fun b8 =>
       Except.bind (b8.write a.o3) fun b9 =>
       Except.ok (b9.head - b.head, b9)) := rfl

theorem encRecord_A_length (d : List Nat) (a : Ipv4Addr) (t : Nat) :
    (encRecord (.A d a t)).length = (encQname d).length + 14 := by
  simp [encRecord, encU16_length, encU32_length]

attribute [simp] wAdv_head encU16_length encU32_length

theorem write_ok1 (b : BytePacketBuffer) (v : Nat) (h : b.head + 1 ≤ 512) :
    b.write v = .ok (wAdv b [v]) := by rw [write_eq, if_pos h]

theorem write_err1 (b : BytePacketBuffer) (v : Nat) (h : ¬b.head + 1 ≤ 512) :
    b.write v = .error .endOfBuffer := by rw [write_eq, if_neg h]

theorem write_u16_ok (b : BytePacketBuffer) (d : Nat) (h : b.head + 2 ≤ 512) :
    b.write_u16 d = .ok (wAdv b (encU16 d)) := by rw [write_u16_eq, if_pos h]

theorem write_u16_err (b : BytePacketBuffer) (d : Nat) (h : ¬b.head + 2 ≤ 512) :
    b.write_u16 d = .error .endOfBuffer := by rw [write_u16_eq, if_neg h]

theorem write_u32_ok (b : BytePacketBuffer) (d : Nat) (h : b.head + 4 ≤ 512) :
    b.write_u32 d = .ok (wAdv b (encU32 d)) := by rw [write_u32_eq, if_pos h]

theorem write_u32_err (b : BytePacketBuffer) (d : Nat) (h : ¬b.head + 4 ≤ 512) :
    b.write_u32 d = .error .endOfBuffer := by rw [write_u32_eq, if_neg h]

theorem record_write_A_ok (d : List Nat) (a : Ipv4Addr) (t : Nat)
    (b : BytePacketBuffer) (hw : labelsOk d)
    (h : b.head + (encRecord (.A d a t)).length ≤ 512) :
    (DnsRecord.A d a t).write b =
      .ok ((encRecord (.A d a t)).length, wAdv b (encRecord (.A d a t))) := by
  rw [encRecord_A_length] at h
  rw [record_write_A_eq, write_qname_ok _ _ hw (by omega), ebind_ok]
  rw [write_u16_ok _ _ (by simp <;> omega), ebind_ok, wAdv_append]
  rw [write_u16_ok _ _ (by simp <;> omega), ebind_ok, wAdv_append]
  rw [write_u32_ok _ _ (by simp <;> omega), ebind_ok, wAdv_append]
  rw [write_u16_ok _ _ (by simp <;> omega), ebind_ok, wAdv_append]
  rw [write_ok1 _ _ (by simp <;> omega), ebind_ok, wAdv_append]
  rw [write_ok1 _ _ (by simp <;> omega), ebind_ok, wAdv_append]
  rw [write_ok1 _ _ (by simp <;> omega), ebind_ok, wAdv_append]
  rw [write_ok1 _ _ (by simp <;> omega), ebind_ok, wAdv_append]
  have henc : encQname d ++ encU16 1 ++ encU16 1 ++ encU32 t ++ encU16 4 ++ [a.o0] ++
      [a.o1] ++ [a.o2] ++ [a.o3] = encRecord (.A d a t) := by
    simp [encRecord]
  rw [henc, wAdv_head]
  congr 2
  rw [encRecord_A_length]
  omega

theorem record_write_A_err (d : List Nat) (a : Ipv4Addr) (t : Nat)
    (b : BytePacketBuffer) (hw : labelsOk d) (hh : b.head ≤ 512)
    (h : ¬b.head + (encRecord (.A d a t)).length ≤ 512) :
    (DnsRecord.A d a t).write b = .error .endOfBuffer := by
  rw [encRecord_A_length] at h
  rw [record_write_A_eq]
  by_cases c1 : b.head + (encQname d).length ≤ 512
  · rw [write_qname_ok _ _ hw c1, ebind_ok]
    by_cases c2 : b.head + (encQname d).length + 2 ≤ 512
    · rw [write_u16_ok _ _ (by simp <;> omega), ebind_ok, wAdv_append]
      by_cases c3 : b.head + (encQname d).length + 4 ≤ 512
      · rw [write_u16_ok _ _ (by simp <;> omega), ebind_ok, wAdv_append]
        by_cases c4 : b.head + (encQname d).length + 8 ≤ 512
        · rw [write_u32_ok _ _ (by simp <;> omega), ebind_ok, wAdv_append]
          by_cases c5 : b.head + (encQname d).length + 10 ≤ 512
          · rw [write_u16_ok _ _ (by simp <;> omega), ebind_ok, wAdv_append]
            by_cases c6 : b.head + (encQname d).length + 11 ≤ 512
            · rw [write_ok1 _ _ (by simp <;> omega), ebind_ok, wAdv_append]
              by_cases c7 : b.head + (encQname d).length + 12 ≤ 512
              · rw [write_ok1 _ _ (by simp <;> omega), ebind_ok, wAdv_append]
                by_cases c8 : b.head + (encQname d).length + 13 ≤ 512
                · rw [write_ok1 _ _ (by simp <;> omega), ebind_ok, wAdv_append]
                  rw [write_err1 _ _ (by simp <;> omega), ebind_err]
                · rw [write_err1 _ _ (by simp <;> omega), ebind_err]
              · rw [write_err1 _ _ (by simp <;> omega), ebind_err]
            · rw [write_err1 _ _ (by simp <;> omega), ebind_err]
          · rw [write_u16_err _ _ (by simp <;> omega), ebind_err]
        · rw [write_u32_err _ _ (by simp <;> omega), ebind_err]
      · rw [write_u16_err _ _ (by simp <;> omega), ebind_err]
    · rw [write_u16_err _ _ (by simp <;> omega), ebind_err]
  · rw [write_qname_err _ _ hw hh (by omega), ebind_err]

theorem record_write_NS_eq (d host : List Nat) (t : Nat) (b : BytePacketBuffer) :
    (DnsRecord.NS d host t).write b =
      (Except.bind (b.write_qname d) fun b1 =>
       Except.bind (b1.write_u16 2) fun b2 =>
       Except.bind (b2.write_u16 1) fun b3 =>
       Except.bind (b3.write_u32 t) fun b4 =>
       Except.bind (b4.write_u16 0) fun b5 =>
       Except.bind (b5.write_qname host) fun b6 =>
       Except.bind (b6.set_u16 b4.head (b6.head - (b4.head + 2))) fun b7 =>
       Except.ok (b7.head - b.head, b7)) := rfl

theorem encRecord_NS_length (d host : List Nat) (t : Nat) :
    (encRecord (.NS d host t)).length =
      (encQname d).length + (encQname host).length + 10 := by
  simp [encRecord]
  omega

theorem record_write_NS_ok (d host : List Nat) (t : Nat) (b : BytePacketBuffer)
    (hwd : labelsOk d) (hwh : labelsOk host)
    (h : b.head + (encRecord (.NS d host t)).length ≤ 512) :
    (DnsRecord.NS d host t).write b =
      .ok ((encRecord (.NS d host t)).length, wAdv b (encRecord (.NS d host t))) := by
  rw [encRecord_NS_length] at h
  rw [record_write_NS_eq, write_qname_ok _ _ hwd (by omega), ebind_ok]
  rw [write_u16_ok _ _ (by simp <;> omega), ebind_ok, wAdv_append]
  rw [write_u16_ok _ _ (by simp <;> omega), ebind_ok, wAdv_append]
  rw [write_u32_ok _ _ (by simp <;> omega), ebind_ok, wAdv_append]
  rw [write_u16_ok _ _ (by simp <;> omega), ebind_ok, wAdv_append]
  rw [write_qname_ok _ _ hwh (by simp <;> omega), ebind_ok, wAdv_append]
  rw [show (wAdv b (encQname d ++ encU16 2 ++ encU16 1 ++ encU32 t)).head =
    b.head + ((encQname d).length + 8) from by simp <;> omega]
  rw [show (wAdv b (encQname d ++ encU16 2 ++ encU16 1 ++ encU32 t ++ encU16 0 ++
    encQname host)).head = b.head + ((encQname d).length + 8) + 2 +
      (encQname host).length from by simp <;> omega]
  rw [show b.head + ((encQname d).length + 8) + 2 + (encQname host).length -
    (b.head + ((encQname d).length + 8) + 2) = (encQname host).length from by omega]
  rw [show encQname d ++ encU16 2 ++ encU16 1 ++ encU32 t ++ encU16 0 ++
    encQname host = (encQname d ++ encU16 2 ++ encU16 1 ++ encU32 t) ++
      ([0, 0] ++ encQname host) from by simp [List.append_assoc]; rfl]
  rw [show b.head + ((encQname d).length + 8) = b.head +
    (encQname d ++ encU16 2 ++ encU16 1 ++ encU32 t).length from by simp <;> omega]
  rw [set_u16_patch _ _ _ _ (by simp <;> omega), ebind_ok]
  rw [show (encQname d ++ encU16 2 ++ encU16 1 ++ encU32 t) ++
    (encU16 (encQname host).length ++ encQname host) =
      encRecord (.NS d host t) from by simp [encRecord, List.append_assoc]]
  rw [wAdv_head]
  congr 2
  rw [encRecord_NS_length]
  omega

theorem record_write_NS_err (d host : List Nat) (t : Nat) (b : BytePacketBuffer)
    (hwd : labelsOk d) (hwh : labelsOk host) (hh : b.head ≤ 512)
    (h : ¬b.head + (encRecord (.NS d host t)).length ≤ 512) :
    (DnsRecord.NS d host t).write b = .error .endOfBuffer := by
  rw [encRecord_NS_length] at h
  rw [record_write_NS_eq]
  by_cases c1 : b.head + (encQname d).length ≤ 512
  · rw [write_qname_ok _ _ hwd c1, ebind_ok]
    by_cases c2 : b.head + (encQname d).length + 2 ≤ 512
    · rw [write_u16_ok _ _ (by simp <;> omega), ebind_ok, wAdv_append]
      by_cases c3 : b.head + (encQname d).length + 4 ≤ 512
      · rw [write_u16_ok _ _ (by simp <;> omega), ebind_ok, wAdv_append]
        by_cases c4 : b.head + (encQname d).length + 8 ≤ 512
        · rw [write_u32_ok _ _ (by simp <;> omega), ebind_ok, wAdv_append]
          by_cases c5 : b.head + (encQname d).length + 10 ≤ 512
          · rw [write_u16_ok _ _ (by simp <;> omega), ebind_ok, wAdv_append]
            rw [write_qname_err _ _ hwh (by simp <;> omega) (by simp <;> omega),
              ebind_err]
          · rw [write_u16_err _ _ (by simp <;> omega), ebind_err]
        · rw [write_u32_err _ _ (by simp <;> omega), ebind_err]
      · rw [write_u16_err _ _ (by simp <;> omega), ebind_err]
    · rw [write_u16_err _ _ (by simp <;> omega), ebind_err]
  · rw [write_qname_err _ _ hwd hh (by omega), ebind_err]

theorem record_write_CNAME_eq (d host : List Nat) (t : Nat) (b : BytePacketBuffer) :
    (DnsRecord.CNAME d host t).write b =
      (Except.bind (b.write_qname d) fun b1 =>
       Except.bind (b1.write_u16 5) fun b2 =>
       Except.bind (b2.write_u16 1) fun b3 =>
       Except.bind (b3.write_u32 t) fun b4 =>
       Except.bind (b4.write_u16 0) fun b5 =>
       Except.bind (b5.write_qname host) fun b6 =>
       Except.bind (b6.set_u16 b4.head (b6.head - (b4.head + 2))) fun b7 =>
       Except.ok (b7.head - b.head, b7)) := rfl

theorem encRecord_CNAME_length (d host : List Nat) (t : Nat) :
    (encRecord (.CNAME d host t)).length =
      (encQname d).length + (encQname host).length + 10 := by
  simp [encRecord]
  omega

theorem record_write_CNAME_ok (d host : List Nat) (t : Nat) (b : BytePacketBuffer)
    (hwd : labelsOk d) (hwh : labelsOk host)
    (h : b.head + (encRecord (.CNAME d host t)).length ≤ 512) :
    (DnsRecord.CNAME d host t).write b =
      .ok ((encRecord (.CNAME d host t)).length,
        wAdv b (encRecord (.CNAME d host t))) := by
  rw [encRecord_CNAME_length] at h
  rw [record_write_CNAME_eq, write_qname_ok _ _ hwd (by omega), ebind_ok]
  rw [write_u16_ok _ _ (by simp <;> omega), ebind_ok, wAdv_append]
  rw [write_u16_ok _ _ (by simp <;> omega), ebind_ok, wAdv_append]
  rw [write_u32_ok _ _ (by simp <;> omega), ebind_ok, wAdv_append]
  rw [write_u16_ok _ _ (by simp <;> omega), ebind_ok, wAdv_append]
  rw [write_qname_ok _ _ hwh (by simp <;> omega), ebind_ok, wAdv_append]
  rw [show (wAdv b (encQname d ++ encU16 5 ++ encU16 1 ++ encU32 t)).head =
    b.head + ((encQname d).length + 8) from by simp <;> omega]
  rw [show (wAdv b (encQname d ++ encU16 5 ++ encU16 1 ++ encU32 t ++ encU16 0 ++
    encQname host)).head = b.head + ((encQname d).length + 8) + 2 +
      (encQname host).length from by simp <;> omega]
  rw [show b.head + ((encQname d).length + 8) + 2 + (encQname host).length -
    (b.head + ((encQname d).length + 8) + 2) = (encQname host).length from by omega]
  rw [show encQname d ++ encU16 5 ++ encU16 1 ++ encU32 t ++ encU16 0 ++
    encQname host = (encQname d ++ encU16 5 ++ encU16 1 ++ encU32 t) ++
      ([0, 0] ++ encQname host) from by simp [List.append_assoc]; rfl]
  rw [show b.head + ((encQname d).length + 8) = b.head +
    (encQname d ++ encU16 5 ++ encU16 1 ++ encU32 t).length from by simp <;> omega]
  rw [set_u16_patch _ _ _ _ (by simp <;> omega), ebind_ok]
  rw [show (encQname d ++ encU16 5 ++ encU16 1 ++ encU32 t) ++
    (encU16 (encQname host).length ++ encQname host) =
      encRecord (.CNAME d host t) from by simp [encRecord, List.append_assoc]]
  rw [wAdv_head]
  congr 2
  rw [encRecord_CNAME_length]
  omega

theorem record_write_CNAME_err (d host : List Nat) (t : Nat) (b : BytePacketBuffer)
    (hwd : labelsOk d) (hwh : labelsOk host) (hh : b.head ≤ 512)
    (h : ¬b.head + (encRecord (.CNAME d host t)).length ≤ 512) :
    (DnsRecord.CNAME d host t).write b = .error .endOfBuffer := by
  rw [encRecord_CNAME_length] at h
  rw [record_write_CNAME_eq]
  by_cases c1 : b.head + (encQname d).length ≤ 512
  · rw [write_qname_ok _ _ hwd c1, ebind_ok]
    by_cases c2 : b.head + (encQname d).length + 2 ≤ 512
    · rw [write_u16_ok _ _ (by simp <;> omega), ebind_ok, wAdv_append]
      by_cases c3 : b.head + (encQname d).length + 4 ≤ 512
      · rw [write_u16_ok _ _ (by simp <;> omega), ebind_ok, wAdv_append]
        by_cases c4 : b.head + (encQname d).length + 8 ≤ 512
        · rw [write_u32_ok _ _ (by simp <;> omega), ebind_ok, wAdv_append]
          by_cases c5 : b.head + (encQname d).length + 10 ≤ 512
          · rw [write_u16_ok _ _ (by simp <;> omega), ebind_ok, wAdv_append]
            rw [write_qname_err _ _ hwh (by simp <;> omega) (by simp <;> omega),
              ebind_err]
          · rw [write_u16_err _ _ (by simp <;> omega), ebind_err]
        · rw [write_u32_err _ _ (by simp <;> omega), ebind_err]
      · rw [write_u16_err _ _ (by simp <;> omega), ebind_err]
    · rw [write_u16_err _ _ (by simp <;> omega), ebind_err]
  · rw [write_qname_err _ _ hwd hh (by omega), ebind_err]

theorem record_write_MX_eq (d : List Nat) (p : Nat) (host : List Nat) (t : Nat)
    (b : BytePacketBuffer) :
    (DnsRecord.MX d p host t).write b =
      (Except.bind (b.write_qname d) fun b1 =>
       Except.bind (b1.write_u16 15) fun b2 =>
       Except.bind (b2.write_u16 1) fun b3 =>
       Except.bind (b3.write_u32 t) fun b4 =>
       Except.bind (b4.write_u16 0) fun b5 =>
       Except.bind (b5.write_u16 p) fun b6 =>
       Except.bind (b6.write_qname host) fun b7 =>
       Except.bind (b7.set_u16 b4.head (b7.head - (b4.head + 2))) fun b8 =>
       Except.ok (b8.head - b.head, b8)) := rfl

theorem encRecord_MX_length (d : List Nat) (p : Nat) (host : List Nat) (t : Nat) :
    (encRecord (.MX d p host t)).length =
      (encQname d).length + (encQname host).length + 12 := by
  simp [encRecord]
  omega

theorem record_write_MX_ok (d : List Nat) (p : Nat) (host : List Nat) (t : Nat)
    (b : BytePacketBuffer) (hwd : labelsOk d) (hwh : labelsOk host)
    (h : b.head + (encRecord (.MX d p host t)).length ≤ 512) :
    (DnsRecord.MX d p host t).write b =
      .ok ((encRecord (.MX d p host t)).length,
        wAdv b (encRecord (.MX d p host t))) := by
  rw [encRecord_MX_length] at h
  rw [record_write_MX_eq, write_qname_ok _ _ hwd (by omega), ebind_ok]
  rw [write_u16_ok _ _ (by simp <;> omega), ebind_ok, wAdv_append]
  rw [write_u16_ok _ _ (by simp <;> omega), ebind_ok, wAdv_append]
  rw [write_u32_ok _ _ (by simp <;> omega), ebind_ok, wAdv_append]
  rw [write_u16_ok _ _ (by simp <;> omega), ebind_ok, wAdv_append]
  rw [write_u16_ok _ _ (by simp <;> omega), ebind_ok, wAdv_append]
  rw [write_qname_ok _ _ hwh (by simp <;> omega), ebind_ok, wAdv_append]
  rw [show (wAdv b (encQname d ++ encU16 15 ++ encU16 1 ++ encU32 t)).head =
    b.head + ((encQname d).length + 8) from by simp <;> omega]
  rw [show (wAdv b (encQname d ++ encU16 15 ++ encU16 1 ++ encU32 t ++ encU16 0 ++
    encU16 p ++ encQname host)).head = b.head + ((encQname d).length + 8) + 2 + 2 +
      (encQname host).length from by simp <;> omega]
  rw [show b.head + ((encQname d).length + 8) + 2 + 2 + (encQname host).length -
    (b.head + ((encQname d).length + 8) + 2) =
      2 + (encQname host).length from by omega]
  rw [show encQname d ++ encU16 15 ++ encU16 1 ++ encU32 t ++ encU16 0 ++
    encU16 p ++ encQname host = (encQname d ++ encU16 15 ++ encU16 1 ++ encU32 t) ++
      ([0, 0] ++ (encU16 p ++ encQname host)) from by simp [List.append_assoc]; rfl]
  rw [show b.head + ((encQname d).length + 8) = b.head +
    (encQname d ++ encU16 15 ++ encU16 1 ++ encU32 t).length from by simp <;> omega]
  rw [set_u16_patch _ _ _ _ (by simp <;> omega), ebind_ok]
  rw [show (encQname d ++ encU16 15 ++ encU16 1 ++ encU32 t) ++
    (encU16 (2 + (encQname host).length) ++ (encU16 p ++ encQname host)) =
      encRecord (.MX d p host t) from by simp [encRecord, List.append_assoc]]
  rw [wAdv_head]
  congr 2
  rw [encRecord_MX_length]
  omega

theorem record_write_MX_err (d : List Nat) (p : Nat) (host : List Nat) (t : Nat)
    (b : BytePacketBuffer) (hwd : labelsOk d) (hwh : labelsOk host)
    (hh : b.head ≤ 512)
    (h : ¬b.head + (encRecord (.MX d p host t)).length ≤ 512) :
    (DnsRecord.MX d p host t).write b = .error .endOfBuffer := by
  rw [encRecord_MX_length] at h
  rw [record_write_MX_eq]
  by_cases c1 : b.head + (encQname d).length ≤ 512
  · rw [write_qname_ok _ _ hwd c1, ebind_ok]
    by_cases c2 : b.head + (encQname d).length + 2 ≤ 512
    · rw [write_u16_ok _ _ (by simp <;> omega), ebind_ok, wAdv_append]
      by_cases c3 : b.head + (encQname d).length + 4 ≤ 512
      · rw [write_u16_ok _ _ (by simp <;> omega), ebind_ok, wAdv_append]
        by_cases c4 : b.head + (encQname d).length + 8 ≤ 512
        · rw [write_u32_ok _ _ (by simp <;> omega), ebind_ok, wAdv_append]
          by_cases c5 : b.head + (encQname d).length + 10 ≤ 512
          · rw [write_u16_ok _ _ (by simp <;> omega), ebind_ok, wAdv_append]
            by_cases c6 : b.head + (encQname d).length + 12 ≤ 512
            · rw [write_u16_ok _ _ (by simp <;> omega), ebind_ok, wAdv_append]
              rw [write_qname_err _ _ hwh (by simp <;> omega) (by simp <;> omega),
                ebind_err]
            · rw [write_u16_err _ _ (by simp <;> omega), ebind_err]
          · rw [write_u16_err _ _ (by simp <;> omega), ebind_err]
        · rw [write_u32_err _ _ (by simp <;> omega), ebind_err]
      · rw [write_u16_err _ _ (by simp <;> omega), ebind_err]
    · rw [write_u16_err _ _ (by simp <;> omega), ebind_err]
  · rw [write_qname_err _ _ hwd hh (by omega), ebind_err]

theorem record_write_AAAA_eq (d : List Nat) (a : Ipv6Addr) (t : Nat)
    (b : BytePacketBuffer) :
    (DnsRecord.AAAA d a t).write b =
      (Except.bind (b.write_qname d) fun b1 =>
       Except.bind (b1.write_u16 28) fun b2 =>
       Except.bind (b2.write_u16 1) fun b3 =>
       Except.bind (b3.write_u32 t) fun b4 =>
       Except.bind (b4.write_u16 16) fun b5 =>
       Except.bind (b5.write_u16 a.s0) fun b6 =>
       Except.bind (b6.write_u16 a.s1) fun b7 =>
       Except.bind (b7.write_u16 a.s2) fun b8 =>
       Except.bind (b8.write_u16 a.s3) fun b9 =>
       Except.bind (b9.write_u16 a.s4) fun b10 =>
       Except.bind (b10.write_u16 a.s5) fun b11 =>
       Except.bind (b11.write_u16 a.s6) fun b12 =>
       Except.bind (b12.write_u16 a.s7) fun b13 =>
       Except.ok (b13.head - b.head, b13)) := rfl

theorem encRecord_AAAA_length (d : List Nat) (a : Ipv6Addr) (t : Nat) :
    (encRecord (.AAAA d a t)).length = (encQname d).length + 26 := by
  simp [encRecord]

theorem record_write_AAAA_ok (d : List Nat) (a : Ipv6Addr) (t : Nat)
    (b : BytePacketBuffer) (hw : labelsOk d)
    (h : b.head + (encRecord (.AAAA d a t)).length ≤ 512) :
    (DnsRecord.AAAA d a t).write b =
      .ok ((encRecord (.AAAA d a t)).length, wAdv b (encRecord (.AAAA d a t))) := by
  rw [encRecord_AAAA_length] at h
  rw [record_write_AAAA_eq, write_qname_ok _ _ hw (by omega), ebind_ok]
  rw [write_u16_ok _ _ (by simp <;> omega), ebind_ok, wAdv_append]
  rw [write_u16_ok _ _ (by simp <;> omega), ebind_ok, wAdv_append]
  rw [write_u32_ok _ _ (by simp <;> omega), ebind_ok, wAdv_append]
  rw [write_u16_ok _ _ (by simp <;> omega), ebind_ok, wAdv_append]
  rw [write_u16_ok _ _ (by simp <;> omega), ebind_ok, wAdv_append]
  rw [write_u16_ok _ _ (by simp <;> omega), ebind_ok, wAdv_append]
  rw [write_u16_ok _ _ (by simp <;> omega), ebind_ok, wAdv_append]
  rw [write_u16_ok _ _ (by simp <;> omega), ebind_ok, wAdv_append]
  rw [write_u16_ok _ _ (by simp <;> omega), ebind_ok, wAdv_append]
  rw [write_u16_ok _ _ (by simp <;> omega), ebind_ok, wAdv_append]
  rw [write_u16_ok _ _ (by simp <;> omega), ebind_ok, wAdv_append]
  rw [write_u16_ok _ _ (by simp <;> omega), ebind_ok, wAdv_append]
  rw [show encQname d ++ encU16 28 ++ encU16 1 ++ encU32 t ++ encU16 16 ++
    encU16 a.s0 ++ encU16 a.s1 ++ encU16 a.s2 ++ encU16 a.s3 ++ encU16 a.s4 ++
      encU16 a.s5 ++ encU16 a.s6 ++ encU16 a.s7 =
        encRecord (.AAAA d a t) from by simp [encRecord, List.append_assoc]]
  rw [wAdv_head]
  congr 2
  rw [encRecord_AAAA_length]
  omega

theorem record_write_AAAA_err (d : List Nat) (a : Ipv6Addr) (t : Nat)
    (b : BytePacketBuffer) (hw : labelsOk d) (hh : b.head ≤ 512)
    (h : ¬b.head + (encRecord (.AAAA d a t)).length ≤ 512) :
    (DnsRecord.AAAA d a t).write b = .error .endOfBuffer := by
  rw [encRecord_AAAA_length] at h
  rw [record_write_AAAA_eq]
  by_cases c1 : b.head + (encQname d).length ≤ 512
  · rw [write_qname_ok _ _ hw c1, ebind_ok]
    by_cases c2 : b.head + (encQname d).length + 2 ≤ 512
    · rw [write_u16_ok _ _ (by simp <;> omega), ebind_ok, wAdv_append]
      by_cases c3 : b.head + (encQname d).length + 4 ≤ 512
      · rw [write_u16_ok _ _ (by simp <;> omega), ebind_ok, wAdv_append]
        by_cases c4 : b.head + (encQname d).length + 8 ≤ 512
        · rw [write_u32_ok _ _ (by simp <;> omega), ebind_ok, wAdv_append]
          by_cases c5 : b.head + (encQname d).length + 10 ≤ 512
          · rw [write_u16_ok _ _ (by simp <;> omega), ebind_ok, wAdv_append]
            by_cases c6 : b.head + (encQname d).length + 12 ≤ 512
            · rw [write_u16_ok _ _ (by simp <;> omega), ebind_ok, wAdv_append]
              by_cases c7 : b.head + (encQname d).length + 14 ≤ 512
              · rw [write_u16_ok _ _ (by simp <;> omega), ebind_ok, wAdv_append]
                by_cases c8 : b.head + (encQname d).length + 16 ≤ 512
                · rw [write_u16_ok _ _ (by simp <;> omega), ebind_ok, wAdv_append]
                  by_cases c9 : b.head + (encQname d).length + 18 ≤ 512
                  · rw [write_u16_ok _ _ (by simp <;> omega), ebind_ok, wAdv_append]
                    by_cases c10 : b.head + (encQname d).length + 20 ≤ 512
                    · rw [write_u16_ok _ _ (by simp <;> omega), ebind_ok, wAdv_append]
                      by_cases c11 : b.head + (encQname d).length + 22 ≤ 512
                      · rw [write_u16_ok _ _ (by simp <;> omega), ebind_ok,
                          wAdv_append]
                        by_cases c12 : b.head + (encQname d).length + 24 ≤ 512
                        · rw [write_u16_ok _ _ (by simp <;> omega), ebind_ok,
                            wAdv_append]
                          rw [write_u16_err _ _ (by simp <;> omega), ebind_err]
                        · rw [write_u16_err _ _ (by simp <;> omega), ebind_err]
                      · rw [write_u16_err _ _ (by simp <;> omega), ebind_err]
                    · rw [write_u16_err _ _ (by simp <;> omega), ebind_err]
                  · rw [write_u16_err _ _ (by simp <;> omega), ebind_err]
                · rw [write_u16_err _ _ (by simp <;> omega), ebind_err]
              · rw [write_u16_err _ _ (by simp <;> omega), ebind_err]
            · rw [write_u16_err _ _ (by simp <;> omega), ebind_err]
          · rw [write_u16_err _ _ (by simp <;> omega), ebind_err]
        · rw [write_u32_err _ _ (by simp <;> omega), ebind_err]
      · rw [write_u16_err _ _ (by simp <;> omega), ebind_err]
    · rw [write_u16_err _ _ (by simp <;> omega), ebind_err]
  · rw [write_qname_err _ _ hw hh (by omega), ebind_err]

theorem record_write_UNKNOWN_ok (d : List Nat) (q dl t : Nat)
    (b : BytePacketBuffer) :
    (DnsRecord.UNKNOWN d q dl t).write b =
      .ok ((encRecord (.UNKNOWN d q dl t)).length,
        wAdv b (encRecord (.UNKNOWN d q dl t))) := by
  show Except.ok (b.head - b.head, b) = _
  rw [Nat.sub_self]
  rfl

/-- A record write appends exactly the byte image of the record when it fits. -/
theorem record_write_ok (r : DnsRecord) (b : BytePacketBuffer)
    (hw : labelsOkRecord r) (h : b.head + (encRecord r).length ≤ 512) :
    r.write b = .ok ((encRecord r).length, wAdv b (encRecord r)) := by
  cases r with
  | UNKNOWN d q dl t => exact record_write_UNKNOWN_ok d q dl t b
  | A d a t => exact record_write_A_ok d a t b hw h
  | NS d host t => exact record_write_NS_ok d host t b hw.1 hw.2 h
  | CNAME d host t => exact record_write_CNAME_ok d host t b hw.1 hw.2 h
  | MX d p host t => exact record_write_MX_ok d p host t b hw.1 hw.2 h
  | AAAA d a t => exact record_write_AAAA_ok d a t b hw h

/-- A record write fails with the end-of-buffer error when it does not fit. -/
theorem record_write_err (r : DnsRecord) (b : BytePacketBuffer)
    (hw : labelsOkRecord r) (hh : b.head ≤ 512)
    (h : ¬b.head + (encRecord r).length ≤ 512) :
    r.write b = .error .endOfBuffer := by
  cases r with
  | UNKNOWN d q dl t => exact absurd (by simp [encRecord]; omega) h
  | A d a t => exact record_write_A_err d a t b hw hh h
  | NS d host t => exact record_write_NS_err d host t b hw.1 hw.2 hh h
  | CNAME d host t => exact record_write_CNAME_err d host t b hw.1 hw.2 hh h
  | MX d p host t => exact record_write_MX_err d p host t b hw.1 hw.2 hh h
  | AAAA d a t => exact record_write_AAAA_err d a t b hw hh h

theorem header_write_eq (h : DnsHeader) (b : BytePacketBuffer) :
    h.write b =
      (Except.bind (b.write_u16 h.id) fun b1 =>
       Except.bind (b1.write (flagByte1 h)) fun b2 =>
       Except.bind (b2.write (flagByte2 h)) fun b3 =>
       Except.bind (b3.write_u16 h.questions) fun b4 =>
       Except.bind (b4.write_u16 h.answers) fun b5 =>
       Except.bind (b5.write_u16 h.authoritative_entries) fun b6 =>
       b6.write_u16 h.resource_entries) := rfl

theorem encHeader_length (h : DnsHeader) : (encHeader h).length = 12 := by
  simp [encHeader]

theorem header_write_ok (h : DnsHeader) (b : BytePacketBuffer)
    (hfit : b.head + 12 ≤ 512) : h.write b = .ok (wAdv b (encHeader h)) := by
  rw [header_write_eq]
  rw [write_u16_ok _ _ (by omega), ebind_ok]
  rw [write_ok1 _ _ (by simp <;> omega), ebind_ok, wAdv_append]
  rw [write_ok1 _ _ (by simp <;> omega), ebind_ok, wAdv_append]
  rw [write_u16_ok _ _ (by simp <;> omega), ebind_ok, wAdv_append]
  rw [write_u16_ok _ _ (by simp <;> omega), ebind_ok, wAdv_append]
  rw [write_u16_ok _ _ (by simp <;> omega), ebind_ok, wAdv_append]
  rw [write_u16_ok _ _ (by simp <;> omega), wAdv_append]
  rw [show encU16 h.id ++ [flagByte1 h] ++ [flagByte2 h] ++ encU16 h.questions ++
    encU16 h.answers ++ encU16 h.authoritative_entries ++
      encU16 h.resource_entries = encHeader h from by simp [encHeader]]

theorem encQuestions_cons (q : DnsQuestion) (qs : List DnsQuestion) :
    encQuestions (q :: qs) = encQuestion q ++ encQuestions qs := by
  simp [encQuestions]

theorem encRecords_cons (r : DnsRecord) (rs : List DnsRecord) :
    encRecords (r :: rs) = encRecord r ++ encRecords rs := by
  simp [encRecords]

theorem writeQuestionsList_ok (qs : List DnsQuestion) (b : BytePacketBuffer)
    (hw : ∀ q ∈ qs, labelsOk q.name)
    (hfit : b.head + (encQuestions qs).length ≤ 512) :
    writeQuestionsList qs b = .ok (wAdv b (encQuestions qs)) := by
  induction qs generalizing b with
  | nil => rfl
  | cons q qs ih =>
    rw [encQuestions_cons] at hfit
    simp only [List.length_append] at hfit
    show Except.bind (q.write b) _ = _
    rw [question_write_ok _ _ (hw q (by simp)) (by omega), ebind_ok,
      ih _ (fun x hx => hw x (by simp [hx])) (by simp <;> omega), wAdv_append,
      encQuestions_cons]

theorem writeRecordsList_ok (rs : List DnsRecord) (b : BytePacketBuffer)
    (hw : ∀ r ∈ rs, labelsOkRecord r)
    (hfit : b.head + (encRecords rs).length ≤ 512) :
    writeRecordsList rs b = .ok (wAdv b (encRecords rs)) := by
  induction rs generalizing b with
  | nil => rfl
  | cons r rs ih =>
    rw [encRecords_cons] at hfit
    simp only [List.length_append] at hfit
    show Except.bind (r.write b) _ = _
    rw [record_write_ok _ _ (hw r (by simp)) (by omega), ebind_ok]
    show writeRecordsList rs (wAdv b (encRecord r)) = _
    rw [ih _ (fun x hx => hw x (by simp [hx])) (by simp <;> omega), wAdv_append,
      encRecords_cons]

theorem tempLoop_cons_ok (aL uL i : Nat) (r : DnsRecord)
    (rest : List (Nat × DnsRecord)) (hdr : DnsHeader) (buf : BytePacketBuffer)
    (rc len : Nat) (buf' : BytePacketBuffer) (e : r.write buf = .ok (len, buf')) :
    tempLoop aL uL ((i, r) :: rest) hdr buf rc =
      tempLoop aL uL rest
        (if i < aL then { hdr with answers := hdr.answers + 1 }
         else if i < aL + uL then
           { hdr with authoritative_entries := hdr.authoritative_entries + 1 }
         else { hdr with resource_entries := hdr.resource_entries + 1 })
        buf' rc := by
  simp only [tempLoop]
  rw [e]

theorem tempLoop_cons_err (aL uL i : Nat) (r : DnsRecord)
    (rest : List (Nat × DnsRecord)) (hdr : DnsHeader) (buf : BytePacketBuffer)
    (rc : Nat) (e : Err) (he : r.write buf = .error e) (hne : ¬e = .panicked) :
    tempLoop aL uL ((i, r) :: rest) hdr buf rc =
      .ok ({ hdr with truncated_message := true }, buf, i) := by
  simp only [tempLoop]
  rw [he]
  simp [hne]

theorem tempLoop_allOk (aL uL : Nat) (rs : List DnsRecord) (k : Nat)
    (hdr : DnsHeader) (buf : BytePacketBuffer) (rc : Nat)
    (hw : ∀ r ∈ rs, labelsOkRecord r)
    (hfit : buf.head + (encRecords rs).length ≤ 512) :
    tempLoop aL uL (List.enumFrom k rs) hdr buf rc =
      .ok ({ hdr with
          answers := hdr.answers + (min (k + rs.length) aL - min k aL),
          authoritative_entries := hdr.authoritative_entries +
            ((min (k + rs.length) (aL + uL) - min k (aL + uL)) -
              (min (k + rs.length) aL - min k aL)),
          resource_entries := hdr.resource_entries +
            ((k + rs.length - min (k + rs.length) (aL + uL)) -
              (k - min k (aL + uL))) },
        wAdv buf (encRecords rs), rc) := by
  induction rs generalizing k hdr buf with
  | nil =>
    show Except.ok (hdr, buf, rc) = _
    simp only [List.length_nil, Nat.add_zero, Nat.sub_self, encRecords,
      List.map_nil, List.flatten_nil, wAdv_nil]
  | cons r rest ih =>
    have hm : List.enumFrom k (r :: rest) = (k, r) :: List.enumFrom (k + 1) rest := rfl
    have hfit1 : buf.head + (encRecord r).length ≤ 512 := by
      rw [encRecords_cons] at hfit
      simp only [List.length_append] at hfit
      omega
    rw [hm, tempLoop_cons_ok aL uL k r _ hdr buf rc _ _
      (record_write_ok r buf (hw r (by simp)) hfit1)]
    have hfit2 : (wAdv buf (encRecord r)).head + (encRecords rest).length ≤ 512 := by
      rw [encRecords_cons] at hfit
      simp only [List.length_append] at hfit
      simp only [wAdv_head]
      omega
    rw [ih (k + 1) _ _ (fun x hx => hw x (by simp [hx])) hfit2]
    have hbuf : wAdv (wAdv buf (encRecord r)) (encRecords rest) =
        wAdv buf (encRecords (r :: rest)) := by
      rw [wAdv_append, encRecords_cons]
    rw [hbuf]
    congr 1
    congr 1
    by_cases hk1 : k < aL
    · rw [if_pos hk1]
      cases hdr
      simp only [List.length_cons, DnsHeader.mk.injEq, and_true, true_and]
      refine ⟨?_, ?_, ?_⟩ <;> omega
    · rw [if_neg hk1]
      by_cases hk2 : k < aL + uL
      · rw [if_pos hk2]
        cases hdr
        simp only [List.length_cons, DnsHeader.mk.injEq, and_true, true_and]
        refine ⟨?_, ?_, ?_⟩ <;> omega
      · rw [if_neg hk2]
        cases hdr
        simp only [List.length_cons, DnsHeader.mk.injEq, and_true, true_and]
        refine ⟨?_, ?_, ?_⟩ <;> omega

theorem tempLoop_cons_panic (aL uL i : Nat) (r : DnsRecord)
    (rest : List (Nat × DnsRecord)) (hdr : DnsHeader) (buf : BytePacketBuffer)
    (rc : Nat) (he : r.write buf = .error .panicked) :
    tempLoop aL uL ((i, r) :: rest) hdr buf rc = .error .panicked := by
  simp only [tempLoop]
  rw [he]
  simp

theorem tempLoop_count (aL uL : Nat) (rs : List DnsRecord) (k : Nat)
    (hdr : DnsHeader) (buf : BytePacketBuffer) (rc : Nat) (hdr' : DnsHeader)
    (buf' : BytePacketBuffer) (rc' : Nat)
    (hrun : tempLoop aL uL (List.enumFrom k rs) hdr buf rc = .ok (hdr', buf', rc')) :
    ∃ m, k ≤ m ∧ m ≤ k + rs.length ∧
      hdr'.answers = hdr.answers + (min m aL - min k aL) ∧
      hdr'.authoritative_entries = hdr.authoritative_entries +
        ((min m (aL + uL) - min k (aL + uL)) - (min m aL - min k aL)) ∧
      hdr'.resource_entries = hdr.resource_entries +
        ((m - min m (aL + uL)) - (k - min k (aL + uL))) ∧
      hdr' = { hdr with
        truncated_message := hdr'.truncated_message,
        answers := hdr'.answers,
        authoritative_entries := hdr'.authoritative_entries,
        resource_entries := hdr'.resource_entries } ∧
      ((rc' = rc ∧ m = k + rs.length ∧
          hdr'.truncated_message = hdr.truncated_message) ∨
        (rc' = m ∧ m < k + rs.length ∧ hdr'.truncated_message = true)) := by
  induction rs generalizing k hdr buf with
  | nil =>
    have h0 : tempLoop aL uL (List.enumFrom k []) hdr buf rc = .ok (hdr, buf, rc) :=
      rfl
    rw [h0, Except.ok.injEq, Prod.mk.injEq, Prod.mk.injEq] at hrun
    obtain ⟨h1, _, h3⟩ := hrun
    subst h1
    refine ⟨k, Nat.le_refl _, by simp, by omega, by omega, by omega, rfl, ?_⟩
    exact Or.inl ⟨h3.symm, by simp, rfl⟩
  | cons r rest ih =>
    have hm : List.enumFrom k (r :: rest) = (k, r) :: List.enumFrom (k + 1) rest := rfl
    rw [hm] at hrun
    cases e : r.write buf with
    | ok pr =>
      obtain ⟨len, buf2⟩ := pr
      rw [tempLoop_cons_ok aL uL k r _ hdr buf rc len buf2 e] at hrun
      by_cases hk1 : k < aL
      · rw [if_pos hk1] at hrun
        obtain ⟨m, hm1, hm2, ha, hu, hr2, hframe, hdisj⟩ := ih (k + 1) _ buf2 hrun
        have ha' : hdr'.answers = hdr.answers + 1 + (min m aL - min (k + 1) aL) := ha
        have hu' : hdr'.authoritative_entries = hdr.authoritative_entries +
            ((min m (aL + uL) - min (k + 1) (aL + uL)) -
              (min m aL - min (k + 1) aL)) := hu
        have hr' : hdr'.resource_entries = hdr.resource_entries +
            ((m - min m (aL + uL)) - (k + 1 - min (k + 1) (aL + uL))) := hr2
        have hframe' : hdr' = { hdr with
            truncated_message := hdr'.truncated_message,
            answers := hdr'.answers,
            authoritative_entries := hdr'.authoritative_entries,
            resource_entries := hdr'.resource_entries } := hframe
        refine ⟨m, by omega, by simp only [List.length_cons]; omega, by omega,
          by omega, by omega, hframe', ?_⟩
        rcases hdisj with ⟨h1, h2, h3⟩ | ⟨h1, h2, h3⟩
        · exact Or.inl ⟨h1, by simp only [List.length_cons]; omega, h3⟩
        · exact Or.inr ⟨h1, by simp only [List.length_cons]; omega, h3⟩
      · by_cases hk2 : k < aL + uL
        · rw [if_neg hk1, if_pos hk2] at hrun
          obtain ⟨m, hm1, hm2, ha, hu, hr2, hframe, hdisj⟩ := ih (k + 1) _ buf2 hrun
          have ha' : hdr'.answers = hdr.answers +
              (min m aL - min (k + 1) aL) := ha
          have hu' : hdr'.authoritative_entries = hdr.authoritative_entries + 1 +
              ((min m (aL + uL) - min (k + 1) (aL + uL)) -
                (min m aL - min (k + 1) aL)) := hu
          have hr' : hdr'.resource_entries = hdr.resource_entries +
              ((m - min m (aL + uL)) - (k + 1 - min (k + 1) (aL + uL))) := hr2
          have hframe' : hdr' = { hdr with
              truncated_message := hdr'.truncated_message,
              answers := hdr'.answers,
              authoritative_entries := hdr'.authoritative_entries,
              resource_entries := hdr'.resource_entries } := hframe
          refine ⟨m, by omega, by simp only [List.length_cons]; omega, by omega,
            by omega, by omega, hframe', ?_⟩
          rcases hdisj with ⟨h1, h2, h3⟩ | ⟨h1, h2, h3⟩
          · exact Or.inl ⟨h1, by simp only [List.length_cons]; omega, h3⟩
          · exact Or.inr ⟨h1, by simp only [List.length_cons]; omega, h3⟩
        · rw [if_neg hk1, if_neg hk2] at hrun
          obtain ⟨m, hm1, hm2, ha, hu, hr2, hframe, hdisj⟩ := ih (k + 1) _ buf2 hrun
          have ha' : hdr'.answers = hdr.answers +
              (min m aL - min (k + 1) aL) := ha
          have hu' : hdr'.authoritative_entries = hdr.authoritative_entries +
              ((min m (aL + uL) - min (k + 1) (aL + uL)) -
                (min m aL - min (k + 1) aL)) := hu
          have hr' : hdr'.resource_entries = hdr.resource_entries + 1 +
              ((m - min m (aL + uL)) - (k + 1 - min (k + 1) (aL + uL))) := hr2
          have hframe' : hdr' = { hdr with
              truncated_message := hdr'.truncated_message,
              answers := hdr'.answers,
              authoritative_entries := hdr'.authoritative_entries,
              resource_entries := hdr'.resource_entries } := hframe
          refine ⟨m, by omega, by simp only [List.length_cons]; omega, by omega,
            by omega, by omega, hframe', ?_⟩
          rcases hdisj with ⟨h1, h2, h3⟩ | ⟨h1, h2, h3⟩
          · exact Or.inl ⟨h1, by simp only [List.length_cons]; omega, h3⟩
          · exact Or.inr ⟨h1, by simp only [List.length_cons]; omega, h3⟩
    | error e2 =>
      by_cases hp : e2 = .panicked
      · subst hp
        rw [tempLoop_cons_panic aL uL k r _ hdr buf rc e] at hrun
        exact absurd hrun (by simp)
      · rw [tempLoop_cons_err aL uL k r _ hdr buf rc e2 e hp] at hrun
        rw [Except.ok.injEq, Prod.mk.injEq, Prod.mk.injEq] at hrun
        obtain ⟨h1, _, h3⟩ := hrun
        refine ⟨k, Nat.le_refl _, by simp only [List.length_cons]; omega, ?_, ?_,
          ?_, ?_, ?_⟩
        · rw [← h1]
          show hdr.answers = hdr.answers + (min k aL - min k aL)
          omega
        · rw [← h1]
          show hdr.authoritative_entries = hdr.authoritative_entries +
            ((min k (aL + uL) - min k (aL + uL)) - (min k aL - min k aL))
          omega
        · rw [← h1]
          show hdr.resource_entries = hdr.resource_entries +
            ((k - min k (aL + uL)) - (k - min k (aL + uL)))
          omega
        · rw [← h1]
        · refine Or.inr ⟨h3.symm, by simp only [List.length_cons]; omega, ?_⟩
          rw [← h1]

theorem packet_write_eq (p : DnsPacket) (buffer : BytePacketBuffer) :
    p.write buffer =
      (Except.bind (p.header.write BytePacketBuffer.new) fun temp1 =>
       Except.bind (writeQuestionsList p.questions temp1) fun temp2 =>
       Except.bind (tempLoop p.answers.length p.authorities.length
         (p.answers ++ p.authorities ++ p.resources).enum p.header temp2
         (p.answers ++ p.authorities ++ p.resources).length) fun res =>
       Except.bind (({ res.1 with questions := p.questions.length } : DnsHeader).write
         buffer) fun b1 =>
       Except.bind (writeQuestionsList p.questions b1) fun b2 =>
       Except.bind (writeRecordsList
         ((p.answers ++ p.authorities ++ p.resources).take res.2.2) b2) fun b3 =>
       Except.ok ({ p with header :=
         { res.1 with questions := p.questions.length } }, b3)) := rfl

/-- C3 amended: when DnsPacket::write succeeds and the three record-section counts
of the header were zero beforehand, the question count of the written header is
the question list length, and there is a record count n such that the body written
to the buffer is exactly the header, all questions, and the first n chained
records — with each section count of the written header equal to the number of
records of that section among those n. Without the zero-count premise the source
increments the existing counts instead of setting them (see the C3
counterexample). -/
theorem C3_counts_match_serialized (p : DnsPacket) (b : BytePacketBuffer)
    (p' : DnsPacket) (b' : BytePacketBuffer)
    (hz : p.header.answers = 0 ∧ p.header.authoritative_entries = 0 ∧
      p.header.resource_entries = 0)
    (hw : p.write b = .ok (p', b')) :
    p'.header.questions = p.questions.length ∧
    ∃ n, n ≤ (p.answers ++ p.authorities ++ p.resources).length ∧
      p'.header.answers = min n p.answers.length ∧
      p'.header.authoritative_entries =
        min (n - p.answers.length) p.authorities.length ∧
      p'.header.resource_entries = n - p.answers.length - p.authorities.length ∧
      ∃ b1 b2, p'.header.write b = .ok b1 ∧
        writeQuestionsList p.questions b1 = .ok b2 ∧
        writeRecordsList ((p.answers ++ p.authorities ++ p.resources).take n) b2 =
          .ok b' := by
  rw [packet_write_eq] at hw
  cases e1 : p.header.write BytePacketBuffer.new with
  | error err => rw [e1, ebind_err] at hw; exact absurd hw (by simp)
  | ok temp1 =>
  rw [e1, ebind_ok] at hw
  cases e2 : writeQuestionsList p.questions temp1 with
  | error err => rw [e2, ebind_err] at hw; exact absurd hw (by simp)
  | ok temp2 =>
  rw [e2, ebind_ok] at hw
  cases e3 : tempLoop p.answers.length p.authorities.length
      (p.answers ++ p.authorities ++ p.resources).enum p.header temp2
      (p.answers ++ p.authorities ++ p.resources).length with
  | error err => rw [e3, ebind_err] at hw; exact absurd hw (by simp)
  | ok res =>
  obtain ⟨hdr1, tmpb, rcnt⟩ := res
  simp only [e3, ebind_ok] at hw
  cases e4 : ({ hdr1 with questions := p.questions.length } : DnsHeader).write b with
  | error err => rw [e4, ebind_err] at hw; exact absurd hw (by simp)
  | ok b1 =>
  rw [e4, ebind_ok] at hw
  cases e5 : writeQuestionsList p.questions b1 with
  | error err => rw [e5, ebind_err] at hw; exact absurd hw (by simp)
  | ok b2 =>
  rw [e5, ebind_ok] at hw
  cases e6 : writeRecordsList
      ((p.answers ++ p.authorities ++ p.resources).take rcnt) b2 with
  | error err => rw [e6, ebind_err] at hw; exact absurd hw (by simp)
  | ok b3 =>
  rw [e6, ebind_ok] at hw
  rw [Except.ok.injEq, Prod.mk.injEq] at hw
  obtain ⟨hp', hb'⟩ := hw
  subst hb'
  have e3' : tempLoop p.answers.length p.authorities.length
      (List.enumFrom 0 (p.answers ++ p.authorities ++ p.resources)) p.header temp2
      (p.answers ++ p.authorities ++ p.resources).length =
      .ok (hdr1, tmpb, rcnt) := e3
  obtain ⟨m, _, hm2, ha, hu, hr2, _, hdisj⟩ :=
    tempLoop_count _ _ _ _ _ _ _ _ _ _ e3'
  have hrcm : rcnt = m := by
    rcases hdisj with ⟨h1, h2, _⟩ | ⟨h1, _, _⟩
    · omega
    · exact h1
  subst hrcm
  subst hp'
  refine ⟨rfl, rcnt, by omega, ?_, ?_, ?_, b1, b2, e4, e5, e6⟩
  · show hdr1.answers = _
    omega
  · show hdr1.authoritative_entries = _
    omega
  · show hdr1.resource_entries = _
    omega

/-- Number of leading records of rs that fit consecutively into the remaining
buffer space when writing starts at cursor position h. -/
def maxFit : Nat → List DnsRecord → Nat
  | _, [] => 0
  | h, r :: rs =>
    if h + (encRecord r).length ≤ 512 then maxFit (h + (encRecord r).length) rs + 1
    else 0

theorem maxFit_le_length (h : Nat) (rs : List DnsRecord) : maxFit h rs ≤ rs.length := by
  induction rs generalizing h with
  | nil => simp [maxFit]
  | cons r rest ih =>
    simp only [maxFit, List.length_cons]
    by_cases hc : h + (encRecord r).length ≤ 512
    · rw [if_pos hc]
      have := ih (h + (encRecord r).length)
      omega
    · rw [if_neg hc]
      omega

theorem maxFit_eq_length_fits (h : Nat) (rs : List DnsRecord) (hh : h ≤ 512)
    (he : maxFit h rs = rs.length) : h + (encRecords rs).length ≤ 512 := by
  induction rs generalizing h with
  | nil => simpa [encRecords] using hh
  | cons r rest ih =>
    simp only [maxFit, List.length_cons] at he
    by_cases hc : h + (encRecord r).length ≤ 512
    · rw [if_pos hc] at he
      have := ih (h + (encRecord r).length) hc (by omega)
      rw [encRecords_cons]
      simp only [List.length_append]
      omega
    · rw [if_neg hc] at he
      have := maxFit_le_length h (r :: rest)
      simp only [List.length_cons] at this
      omega

theorem maxFit_prefix_fits (h : Nat) (rs : List DnsRecord) (hh : h ≤ 512) :
    h + (encRecords (rs.take (maxFit h rs))).length ≤ 512 := by
  induction rs generalizing h with
  | nil => simpa [maxFit, encRecords] using hh
  | cons r rest ih =>
    simp only [maxFit]
    by_cases hc : h + (encRecord r).length ≤ 512
    · rw [if_pos hc]
      have := ih (h + (encRecord r).length) hc
      simp only [List.take_succ_cons, encRecords_cons, List.length_append]
      omega
    · rw [if_neg hc]
      simpa [encRecords] using hh

theorem tempLoop_trunc (aL uL : Nat) (rs : List DnsRecord) (k : Nat)
    (hdr : DnsHeader) (buf : BytePacketBuffer) (rc : Nat)
    (hw : ∀ r ∈ rs, labelsOkRecord r) (hh : buf.head ≤ 512)
    (hlt : maxFit buf.head rs < rs.length) :
    ∃ bufX, tempLoop aL uL (List.enumFrom k rs) hdr buf rc =
      .ok ({ hdr with
          truncated_message := true,
          answers := hdr.answers + (min (k + maxFit buf.head rs) aL - min k aL),
          authoritative_entries := hdr.authoritative_entries +
            ((min (k + maxFit buf.head rs) (aL + uL) - min k (aL + uL)) -
              (min (k + maxFit buf.head rs) aL - min k aL)),
          resource_entries := hdr.resource_entries +
            ((k + maxFit buf.head rs - min (k + maxFit buf.head rs) (aL + uL)) -
              (k - min k (aL + uL))) },
        bufX, k + maxFit buf.head rs) := by
  induction rs generalizing k hdr buf with
  | nil =>
    have h0 : maxFit buf.head ([] : List DnsRecord) = 0 := rfl
    rw [h0] at hlt
    simp at hlt
  | cons r rest ih =>
    have hm : List.enumFrom k (r :: rest) = (k, r) :: List.enumFrom (k + 1) rest := rfl
    by_cases hfit1 : buf.head + (encRecord r).length ≤ 512
    · have hmf : maxFit buf.head (r :: rest) =
          maxFit (buf.head + (encRecord r).length) rest + 1 := by
        simp only [maxFit, if_pos hfit1]
      rw [hmf] at hlt ⊢
      simp only [List.length_cons] at hlt
      have hlt' : maxFit (wAdv buf (encRecord r)).head rest < rest.length := by
        simp only [wAdv_head]
        omega
      have hh' : (wAdv buf (encRecord r)).head ≤ 512 := by
        simp only [wAdv_head]
        omega
      by_cases hk1 : k < aL
      · obtain ⟨bufX, hrec⟩ := ih (k + 1)
          { hdr with answers := hdr.answers + 1 } (wAdv buf (encRecord r))
          (fun x hx => hw x (by simp [hx])) hh' hlt'
        refine ⟨bufX, ?_⟩
        rw [hm, tempLoop_cons_ok aL uL k r _ hdr buf rc _ _
          (record_write_ok r buf (hw r (by simp)) hfit1), if_pos hk1, hrec]
        have hj : (wAdv buf (encRecord r)).head = buf.head + (encRecord r).length :=
          rfl
        rw [hj]
        have hjj : maxFit (wAdv buf (encRecord r)).head rest =
            maxFit (buf.head + (encRecord r).length) rest := rfl
        congr 1
        congr 1
        · cases hdr
          simp only [DnsHeader.mk.injEq, and_true, true_and]
          refine ⟨?_, ?_, ?_⟩ <;> omega
        · simp only [Prod.mk.injEq, eq_self_iff_true, true_and] <;> omega
      · by_cases hk2 : k < aL + uL
        · obtain ⟨bufX, hrec⟩ := ih (k + 1)
            { hdr with authoritative_entries := hdr.authoritative_entries + 1 }
            (wAdv buf (encRecord r))
            (fun x hx => hw x (by simp [hx])) hh' hlt'
          refine ⟨bufX, ?_⟩
          rw [hm, tempLoop_cons_ok aL uL k r _ hdr buf rc _ _
            (record_write_ok r buf (hw r (by simp)) hfit1), if_neg hk1, if_pos hk2,
            hrec]
          have hj : (wAdv buf (encRecord r)).head =
              buf.head + (encRecord r).length := rfl
          rw [hj]
          have hjj : maxFit (wAdv buf (encRecord r)).head rest =
              maxFit (buf.head + (encRecord r).length) rest := rfl
          congr 1
          congr 1
          · cases hdr
            simp only [DnsHeader.mk.injEq, and_true, true_and]
            refine ⟨?_, ?_, ?_⟩ <;> omega
          · simp only [Prod.mk.injEq, eq_self_iff_true, true_and] <;> omega
        · obtain ⟨bufX, hrec⟩ := ih (k + 1)
            { hdr with resource_entries := hdr.resource_entries + 1 }
            (wAdv buf (encRecord r))
            (fun x hx => hw x (by simp [hx])) hh' hlt'
          refine ⟨bufX, ?_⟩
          rw [hm, tempLoop_cons_ok aL uL k r _ hdr buf rc _ _
            (record_write_ok r buf (hw r (by simp)) hfit1), if_neg hk1, if_neg hk2,
            hrec]
          have hj : (wAdv buf (encRecord r)).head =
              buf.head + (encRecord r).length := rfl
          rw [hj]
          have hjj : maxFit (wAdv buf (encRecord r)).head rest =
              maxFit (buf.head + (encRecord r).length) rest := rfl
          congr 1
          congr 1
          · cases hdr
            simp only [DnsHeader.mk.injEq, and_true, true_and]
            refine ⟨?_, ?_, ?_⟩ <;> omega
          · simp only [Prod.mk.injEq, eq_self_iff_true, true_and] <;> omega
    · have hmf : maxFit buf.head (r :: rest) = 0 := by
        simp only [maxFit, if_neg hfit1]
      rw [hmf]
      refine ⟨buf, ?_⟩
      rw [hm, tempLoop_cons_err aL uL k r _ hdr buf rc .endOfBuffer
        (record_write_err r buf (hw r (by simp)) hh hfit1) (by simp)]
      congr 1
      congr 1
      cases hdr
      simp only [DnsHeader.mk.injEq, and_true, true_and]
      refine ⟨?_, ?_, ?_⟩ <;> omega

/-- C4 amended: for a packet with zero record-section counts whose header and
questions fit in 512 bytes but whose records overflow it, DnsPacket::write
succeeds, the written header has the truncated bit set, its section counts cover
exactly the n records that fit before the first failing one, and the buffer holds
only the header, the questions and those first n records. Without the zero-count
premise the counts are the old values plus the surviving records (see the C3
counterexample). -/
theorem C4_truncation (p : DnsPacket)
    (hz : p.header.answers = 0 ∧ p.header.authoritative_entries = 0 ∧
      p.header.resource_entries = 0)
    (hwq : ∀ q ∈ p.questions, labelsOk q.name)
    (hwr : ∀ r ∈ p.answers ++ p.authorities ++ p.resources, labelsOkRecord r)
    (hqfit : 12 + (encQuestions p.questions).length ≤ 512)
    (hoverflow : ¬12 + (encQuestions p.questions).length +
      (encRecords (p.answers ++ p.authorities ++ p.resources)).length ≤ 512) :
    ∃ p' b', p.write BytePacketBuffer.new = .ok (p', b') ∧
      p'.header.truncated_message = true ∧
      ∃ n, n < (p.answers ++ p.authorities ++ p.resources).length ∧
        p'.header.answers = min n p.answers.length ∧
        p'.header.authoritative_entries =
          min (n - p.answers.length) p.authorities.length ∧
        p'.header.resource_entries = n - p.answers.length - p.authorities.length ∧
        ∃ b1 b2, p'.header.write BytePacketBuffer.new = .ok b1 ∧
          writeQuestionsList p.questions b1 = .ok b2 ∧
          writeRecordsList ((p.answers ++ p.authorities ++ p.resources).take n) b2 =
            .ok b' := by
  have hq12 : BytePacketBuffer.new.head + 12 ≤ 512 := by decide
  have hnew : BytePacketBuffer.new.head = 0 := rfl
  have hqhead : (wAdv BytePacketBuffer.new (encHeader p.header)).head +
      (encQuestions p.questions).length ≤ 512 := by
    simp only [wAdv_head, encHeader_length]
    omega
  have htmphead : (wAdv (wAdv BytePacketBuffer.new (encHeader p.header))
      (encQuestions p.questions)).head = 12 + (encQuestions p.questions).length := by
    simp only [wAdv_head, encHeader_length]
    omega
  have htmple : (wAdv (wAdv BytePacketBuffer.new (encHeader p.header))
      (encQuestions p.questions)).head ≤ 512 := by
    rw [htmphead]
    omega
  have hlt : maxFit (wAdv (wAdv BytePacketBuffer.new (encHeader p.header))
      (encQuestions p.questions)).head (p.answers ++ p.authorities ++ p.resources) <
      (p.answers ++ p.authorities ++ p.resources).length := by
    rcases Nat.lt_or_ge (maxFit (wAdv (wAdv BytePacketBuffer.new
      (encHeader p.header)) (encQuestions p.questions)).head
      (p.answers ++ p.authorities ++ p.resources))
      (p.answers ++ p.authorities ++ p.resources).length with h | h
    · exact h
    · exfalso
      have hle := maxFit_le_length (wAdv (wAdv BytePacketBuffer.new
        (encHeader p.header)) (encQuestions p.questions)).head
        (p.answers ++ p.authorities ++ p.resources)
      have heq := maxFit_eq_length_fits _
        (p.answers ++ p.authorities ++ p.resources) htmple (by omega)
      rw [htmphead] at heq
      omega
  obtain ⟨bufX, htl⟩ := tempLoop_trunc p.answers.length p.authorities.length
    (p.answers ++ p.authorities ++ p.resources) 0 p.header
    (wAdv (wAdv BytePacketBuffer.new (encHeader p.header))
      (encQuestions p.questions))
    (p.answers ++ p.authorities ++ p.resources).length hwr htmple hlt
  have henum : (p.answers ++ p.authorities ++ p.resources).enum =
      List.enumFrom 0 (p.answers ++ p.authorities ++ p.resources) := rfl
  rw [packet_write_eq, header_write_ok _ _ hq12, ebind_ok,
    writeQuestionsList_ok _ _ hwq hqhead, ebind_ok, henum, htl]
  simp only [ebind_ok]
  have hprefix := maxFit_prefix_fits (wAdv (wAdv BytePacketBuffer.new
    (encHeader p.header)) (encQuestions p.questions)).head
    (p.answers ++ p.authorities ++ p.resources) htmple
  have hzero : (0 : Nat) + maxFit (wAdv (wAdv BytePacketBuffer.new
      (encHeader p.header)) (encQuestions p.questions)).head
      (p.answers ++ p.authorities ++ p.resources) =
      maxFit (wAdv (wAdv BytePacketBuffer.new (encHeader p.header))
        (encQuestions p.questions)).head
        (p.answers ++ p.authorities ++ p.resources) := by omega
  rw [hzero]
  have hreclen : ∀ hx : DnsHeader, (wAdv (wAdv BytePacketBuffer.new (encHeader hx))
      (encQuestions p.questions)).head +
      (encRecords ((p.answers ++ p.authorities ++ p.resources).take
        (maxFit (wAdv (wAdv BytePacketBuffer.new (encHeader p.header))
          (encQuestions p.questions)).head
          (p.answers ++ p.authorities ++ p.resources)))).length ≤ 512 := by
    intro hx
    have h1 := hprefix
    simp only [wAdv_head, encHeader_length] at h1 ⊢
    omega
  rw [header_write_ok _ _ hq12, ebind_ok, writeQuestionsList_ok _ _ hwq (by
    simp only [wAdv_head, encHeader_length]; omega), ebind_ok,
    writeRecordsList_ok _ _ (fun r hr => hwr r (List.take_subset _ _ hr)) (hreclen _),
    ebind_ok]
  set J := maxFit (wAdv (wAdv BytePacketBuffer.new (encHeader p.header))
    (encQuestions p.questions)).head (p.answers ++ p.authorities ++ p.resources)
    with hJ
  refine ⟨_, _, rfl, rfl, J, hlt, ?_, ?_, ?_, _, _,
    header_write_ok _ _ hq12, writeQuestionsList_ok _ _ hwq (by
      simp only [wAdv_head, encHeader_length]; omega),
    writeRecordsList_ok _ _ (fun r hr => hwr r (List.take_subset _ _ hr)) (hreclen _)⟩
  · show p.header.answers + (J ⊓ p.answers.length - 0 ⊓ p.answers.length) =
      min J p.answers.length
    omega
  · show p.header.authoritative_entries +
      (J ⊓ (p.answers.length + p.authorities.length) -
        0 ⊓ (p.answers.length + p.authorities.length) -
        (J ⊓ p.answers.length - 0 ⊓ p.answers.length)) =
      min (J - p.answers.length) p.authorities.length
    omega
  · show p.header.resource_entries +
      (J - J ⊓ (p.answers.length + p.authorities.length) -
        (0 - 0 ⊓ (p.answers.length + p.authorities.length))) =
      J - p.answers.length - p.authorities.length
    omega


instance wfLabelDec : DecidablePred wfLabel := fun l =>
  inferInstanceAs (Decidable (l ≠ [] ∧ l.length ≤ 63 ∧
    ∀ c ∈ l, c < 128 ∧ ¬(65 ≤ c ∧ c ≤ 90)))

instance wfNameDec : DecidablePred wfName := fun n =>
  inferInstanceAs (Decidable (∀ l ∈ splitB 46 n, wfLabel l))

instance labelsOkDec : DecidablePred labelsOk := fun n =>
  inferInstanceAs (Decidable (∀ l ∈ splitB 46 n, l.length ≤ 63))

instance supportedQtypeDec : DecidablePred supportedQtype := fun t =>
  inferInstanceAs (Decidable (t = .A ∨ t = .NS ∨ t = .CNAME ∨ t = .MX ∨ t = .AAAA))

instance wfQuestionDec : DecidablePred wfQuestion := fun q =>
  inferInstanceAs (Decidable (wfName q.name ∧ supportedQtype q.qtype))

instance labelsOkRecordDec : (r : DnsRecord) → Decidable (labelsOkRecord r)
  | .A d _ _ => inferInstanceAs (Decidable (labelsOk d))
  | .NS d host _ => inferInstanceAs (Decidable (labelsOk d ∧ labelsOk host))
  | .CNAME d host _ => inferInstanceAs (Decidable (labelsOk d ∧ labelsOk host))
  | .MX d _ host _ => inferInstanceAs (Decidable (labelsOk d ∧ labelsOk host))
  | .AAAA d _ _ => inferInstanceAs (Decidable (labelsOk d))
  | .UNKNOWN _ _ _ _ => inferInstanceAs (Decidable True)

instance wfRecordDec : (r : DnsRecord) → Decidable (wfRecord r)
  | .A d a t => inferInstanceAs (Decidable (wfName d ∧ t < 4294967296 ∧
      a.o0 < 256 ∧ a.o1 < 256 ∧ a.o2 < 256 ∧ a.o3 < 256))
  | .NS d host t => inferInstanceAs (Decidable (wfName d ∧ wfName host ∧
      t < 4294967296))
  | .CNAME d host t => inferInstanceAs (Decidable (wfName d ∧ wfName host ∧
      t < 4294967296))
  | .MX d p host t => inferInstanceAs (Decidable (wfName d ∧ wfName host ∧
      p < 65536 ∧ t < 4294967296))
  | .AAAA d a t => inferInstanceAs (Decidable (wfName d ∧ t < 4294967296 ∧
      a.s0 < 65536 ∧ a.s1 < 65536 ∧ a.s2 < 65536 ∧ a.s3 < 65536 ∧
      a.s4 < 65536 ∧ a.s5 < 65536 ∧ a.s6 < 65536 ∧ a.s7 < 65536))
  | .UNKNOWN _ _ _ _ => inferInstanceAs (Decidable False)

instance wfHeaderDec : (h : DnsHeader) → Decidable (wfHeader h) := fun h =>
  inferInstanceAs (Decidable (h.id < 65536 ∧ h.opcode = 0 ∧ h.questions < 65536 ∧
    h.answers < 65536 ∧ h.authoritative_entries < 65536 ∧
    h.resource_entries < 65536))

/-- Packet whose header already counts 5 answers while the answers list holds 1. -/
def c3Packet : DnsPacket :=
  { header := { DnsHeader.new with answers := 5 }
    questions := []
    answers := [.A [97] ⟨1, 2, 3, 4⟩ 0]
    authorities := []
    resources := [] }

/-- C3 counterexample: DnsPacket::write increments the header counts instead of
setting them, so a packet entering write with answer count 5 and one answer
record leaves with answer count 6 even though only one record was serialized. -/
theorem C3_counterexample :
    Except.map (fun x => x.1.header.answers) (c3Packet.write BytePacketBuffer.new) =
      .ok 6 ∧
    (c3Packet.answers ++ c3Packet.authorities ++ c3Packet.resources).length = 1 :=
  ⟨rfl, rfl⟩

/-- Small zero-count packet exercising all four sections, for the C3 witness. -/
def c3wPacket : DnsPacket :=
  { header := DnsHeader.new
    questions := [⟨[97, 98], .A⟩]
    answers := [.A [99] ⟨1, 2, 3, 4⟩ 7]
    authorities := [.NS [99] [100] 8]
    resources := [.A [101] ⟨5, 6, 7, 8⟩ 9] }

theorem C3_witness :
    ∃ p' b', c3wPacket.write BytePacketBuffer.new = .ok (p', b') ∧
      (p'.header.questions = c3wPacket.questions.length ∧
       ∃ n, n ≤ (c3wPacket.answers ++ c3wPacket.authorities ++
           c3wPacket.resources).length ∧
         p'.header.answers = min n c3wPacket.answers.length ∧
         p'.header.authoritative_entries =
           min (n - c3wPacket.answers.length) c3wPacket.authorities.length ∧
         p'.header.resource_entries =
           n - c3wPacket.answers.length - c3wPacket.authorities.length ∧
         ∃ b1 b2, p'.header.write BytePacketBuffer.new = .ok b1 ∧
           writeQuestionsList c3wPacket.questions b1 = .ok b2 ∧
           writeRecordsList ((c3wPacket.answers ++ c3wPacket.authorities ++
             c3wPacket.resources).take n) b2 = .ok b') := by
  have hok : (c3wPacket.write BytePacketBuffer.new).isOk = true := rfl
  cases e : c3wPacket.write BytePacketBuffer.new with
  | error err => rw [e] at hok; simp [Except.isOk, Except.toBool] at hok
  | ok pr =>
    obtain ⟨p', b'⟩ := pr
    exact ⟨p', b', rfl,
      C3_counts_match_serialized c3wPacket BytePacketBuffer.new p' b'
        ⟨rfl, rfl, rfl⟩ e⟩

/-- A 253-byte lowercase name with labels of 63, 63, 63 and 61 bytes. -/
def bigName : List Nat :=
  (List.replicate 63 97) ++ 46 :: (List.replicate 63 97) ++ 46 ::
    (List.replicate 63 97) ++ 46 :: (List.replicate 61 97)

/-- Two maximal A records: the first fits in a 512-byte packet, the second does
not, for the C4 witness. -/
def c4wPacket : DnsPacket :=
  { header := DnsHeader.new
    questions := []
    answers := [.A bigName ⟨1, 2, 3, 4⟩ 1, .A bigName ⟨5, 6, 7, 8⟩ 2]
    authorities := []
    resources := [] }

theorem C4_witness :
    ∃ p' b', c4wPacket.write BytePacketBuffer.new = .ok (p', b') ∧
      p'.header.truncated_message = true ∧
      ∃ n, n < (c4wPacket.answers ++ c4wPacket.authorities ++
          c4wPacket.resources).length ∧
        p'.header.answers = min n c4wPacket.answers.length ∧
        p'.header.authoritative_entries =
          min (n - c4wPacket.answers.length) c4wPacket.authorities.length ∧
        p'.header.resource_entries =
          n - c4wPacket.answers.length - c4wPacket.authorities.length ∧
        ∃ b1 b2, p'.header.write BytePacketBuffer.new = .ok b1 ∧
          writeQuestionsList c4wPacket.questions b1 = .ok b2 ∧
          writeRecordsList ((c4wPacket.answers ++ c4wPacket.authorities ++
            c4wPacket.resources).take n) b2 = .ok b' :=
  C4_truncation c4wPacket ⟨rfl, rfl, rfl⟩ (by simp [c4wPacket])
    (by decide) (by decide) (by decide)

/-- Overflowing packet that enters write with a nonzero answer count. -/
def c4cexPacket : DnsPacket :=
  { header := { DnsHeader.new with answers := 5 }
    questions := []
    answers := [.A bigName ⟨1, 2, 3, 4⟩ 1, .A bigName ⟨5, 6, 7, 8⟩ 2]
    authorities := []
    resources := [] }

/-- C4 counterexample: on an overflowing packet whose header already counts 5
answers, write succeeds with the truncated bit set, but the answer count in the
written header is 6, not the single record actually serialized, because the
source adds to the existing counts instead of setting them. -/
theorem C4_counterexample :
    Except.map (fun x => (x.1.header.answers, x.1.header.truncated_message))
      (c4cexPacket.write BytePacketBuffer.new) = .ok (6, true) ∧
    ¬12 + (encQuestions c4cexPacket.questions).length +
      (encRecords (c4cexPacket.answers ++ c4cexPacket.authorities ++
        c4cexPacket.resources)).length ≤ 512 :=
  ⟨rfl, by decide⟩

theorem read_byte_ok (b : BytePacketBuffer) (x : Nat) (hx : b.buf b.head = x)
    (hlt : b.head < 512) :
    b.read = .ok (x, { b with head := b.head + 1 }) := by
  unfold BytePacketBuffer.read MAX_SIZE
  rw [if_neg (by omega), hx]

theorem read_u16_eq (b : BytePacketBuffer) :
    b.read_u16 = Except.bind b.read (fun p =>
      Except.bind p.2.read (fun q => Except.ok ((p.1 <<< 8) ||| q.1, q.2))) := rfl

theorem read_u32_eq (b : BytePacketBuffer) :
    b.read_u32 = Except.bind b.read_u16 (fun p =>
      Except.bind p.2.read_u16 (fun q =>
        Except.ok ((p.1 <<< 16) ||| q.1, q.2))) := rfl

theorem read_u16_raw (b : BytePacketBuffer) (x y : Nat) (hx : b.buf b.head = x)
    (hy : b.buf (b.head + 1) = y) (hlt : b.head + 2 ≤ 512) :
    b.read_u16 = .ok ((x <<< 8) ||| y, { b with head := b.head + 2 }) := by
  rw [read_u16_eq, read_byte_ok b x hx (by omega)]
  simp only [ebind_ok]
  rw [read_byte_ok _ y hy (show b.head + 1 < 512 by omega)]
  simp only [ebind_ok]

theorem read_u16_val (b : BytePacketBuffer) (d : Nat)
    (hreg : region b.buf b.head (encU16 d)) (hd : d < 65536)
    (hlt : b.head + 2 ≤ 512) :
    b.read_u16 = .ok (d, { b with head := b.head + 2 }) := by
  have hx : b.buf b.head = (d >>> 8) % 256 := by simpa using hreg 0 (by simp)
  have hy : b.buf (b.head + 1) = d &&& 0xFF := by simpa using hreg 1 (by simp)
  rw [read_u16_raw b _ _ hx hy hlt, dec_u16 d hd]

theorem read_u32_val (b : BytePacketBuffer) (d : Nat)
    (hreg : region b.buf b.head (encU32 d)) (hd : d < 4294967296)
    (hlt : b.head + 4 ≤ 512) :
    b.read_u32 = .ok (d, { b with head := b.head + 4 }) := by
  have hsplit := (region_append b.buf b.head (encU16 ((d >>> 16) % 65536))
    (encU16 (d &&& 0xFFFF))).mp hreg
  rw [read_u32_eq, read_u16_val b _ hsplit.1 (by omega) (by omega)]
  simp only [ebind_ok]
  have h2 : region ({ b with head := b.head + 2 } : BytePacketBuffer).buf
      ({ b with head := b.head + 2 } : BytePacketBuffer).head
      (encU16 (d &&& 0xFFFF)) := by
    have := hsplit.2
    simpa [encU16_length] using this
  rw [read_u16_val _ _ h2 (by rw [and_65535_eq_mod]; omega) (by simp; omega)]
  simp only [ebind_ok]
  rw [dec_u32 d hd]

/-- The flag word assembled by DnsHeader::write unpacks, under DnsHeader::read's
bit positions, to the original fields whenever the opcode is zero. -/
theorem flags_roundtrip (h : DnsHeader) (hop : h.opcode = 0) :
    ResponseCode.from_num
      (((flagByte1 h <<< 8) ||| flagByte2 h) &&& 0xF) = h.rescode ∧
    ((((flagByte1 h <<< 8) ||| flagByte2 h) >>> 4) &&& 1 != 0) =
      h.checking_disabled ∧
    ((((flagByte1 h <<< 8) ||| flagByte2 h) >>> 5) &&& 1 != 0) = h.authed_data ∧
    ((((flagByte1 h <<< 8) ||| flagByte2 h) >>> 6) &&& 1 != 0) = h.z ∧
    ((((flagByte1 h <<< 8) ||| flagByte2 h) >>> 7) &&& 1 != 0) =
      h.recursion_available ∧
    ((((flagByte1 h <<< 8) ||| flagByte2 h) >>> 8) &&& 1 != 0) =
      h.recursion_desired ∧
    ((((flagByte1 h <<< 8) ||| flagByte2 h) >>> 9) &&& 1 != 0) =
      h.truncated_message ∧
    ((((flagByte1 h <<< 8) ||| flagByte2 h) >>> 10) &&& 1 != 0) =
      h.authoritative_answer ∧
    (((flagByte1 h <<< 8) ||| flagByte2 h) >>> 11) &&& 0xF = h.opcode ∧
    ((((flagByte1 h <<< 8) ||| flagByte2 h) >>> 15) &&& 1 != 0) = h.response := by
  obtain ⟨id, rd, tc, aa, opc, resp, rc, cd, ad, z, ra, qs, an, au, re⟩ := h
  simp only at hop
  subst hop
  simp only [flagByte1, flagByte2]
  cases rd <;> cases tc <;> cases aa <;> cases resp <;> cases cd <;> cases ad <;>
    cases z <;> cases ra <;> cases rc <;> decide

theorem header_read_eq (b : BytePacketBuffer) :
    DnsHeader.read b =
      (Except.bind b.read_u16 fun p1 =>
       Except.bind p1.2.read_u16 fun p2 =>
       Except.bind p2.2.read_u16 fun p3 =>
       Except.bind p3.2.read_u16 fun p4 =>
       Except.bind p4.2.read_u16 fun p5 =>
       Except.bind p5.2.read_u16 fun p6 =>
       Except.ok ({ id := p1.1
                    rescode := ResponseCode.from_num (p2.1 &&& 0xF)
                    checking_disabled := (p2.1 >>> 4) &&& 1 != 0
                    authed_data := (p2.1 >>> 5) &&& 1 != 0
                    z := (p2.1 >>> 6) &&& 1 != 0
                    recursion_available := (p2.1 >>> 7) &&& 1 != 0
                    recursion_desired := (p2.1 >>> 8) &&& 1 != 0
                    truncated_message := (p2.1 >>> 9) &&& 1 != 0
                    authoritative_answer := (p2.1 >>> 10) &&& 1 != 0
                    opcode := (p2.1 >>> 11) &&& 0xF
                    response := (p2.1 >>> 15) &&& 1 != 0
                    questions := p3.1
                    answers := p4.1
                    authoritative_entries := p5.1
                    resource_entries := p6.1 }, p6.2)) := rfl

theorem header_read_region (h : DnsHeader) (b : BytePacketBuffer)
    (hwf : wfHeader h) (hreg : region b.buf b.head (encHeader h))
    (hlt : b.head + 12 ≤ 512) :
    DnsHeader.read b = .ok (h, { b with head := b.head + 12 }) := by
  obtain ⟨hid, hop, hq, han, hau, hre⟩ := hwf
  have hr1 := (region_append b.buf b.head (encU16 h.id) _).mp (by
    simpa [encHeader, List.append_assoc] using hreg)
  have hr2 := (region_append b.buf (b.head + 2) [flagByte1 h, flagByte2 h] _).mp
    (by simpa [encU16_length] using hr1.2)
  have hr3 := (region_append b.buf (b.head + 2 + 2) (encU16 h.questions) _).mp
    (by simpa using hr2.2)
  have hr4 := (region_append b.buf (b.head + 2 + 2 + 2) (encU16 h.answers) _).mp
    (by simpa [encU16_length] using hr3.2)
  have hr5 := (region_append b.buf (b.head + 2 + 2 + 2 + 2)
    (encU16 h.authoritative_entries) _).mp (by simpa [encU16_length] using hr4.2)
  have hf1 : b.buf (b.head + 2) = flagByte1 h := by
    simpa using hr2.1 0 (by simp)
  have hf2 : b.buf (b.head + 2 + 1) = flagByte2 h := by
    simpa using hr2.1 1 (by simp)
  rw [header_read_eq, read_u16_val b h.id hr1.1 hid (show b.head + 2 ≤ 512 by omega)]
  simp only [ebind_ok]
  rw [read_u16_raw _ (flagByte1 h) (flagByte2 h) hf1 hf2
    (show b.head + 2 + 2 ≤ 512 by omega)]
  simp only [ebind_ok]
  rw [read_u16_val _ h.questions (by simpa using hr3.1) hq
    (show b.head + 2 + 2 + 2 ≤ 512 by omega)]
  simp only [ebind_ok]
  rw [read_u16_val _ h.answers (by simpa using hr4.1) han
    (show b.head + 2 + 2 + 2 + 2 ≤ 512 by omega)]
  simp only [ebind_ok]
  rw [read_u16_val _ h.authoritative_entries (by simpa using hr5.1) hau
    (show b.head + 2 + 2 + 2 + 2 + 2 ≤ 512 by omega)]
  simp only [ebind_ok]
  rw [read_u16_val _ h.resource_entries (by simpa [encU16_length] using hr5.2) hre
    (show b.head + 2 + 2 + 2 + 2 + 2 + 2 ≤ 512 by omega)]
  simp only [ebind_ok]
  obtain ⟨e1, e2, e3, e4, e5, e6, e7, e8, e9, e10⟩ := flags_roundtrip h hop
  rw [e1, e2, e3, e4, e5, e6, e7, e8, e9, e10]

theorem get_ok (b : BytePacketBuffer) (pos x : Nat) (hx : b.buf pos = x)
    (hlt : pos < 512) : b.get pos = .ok x := by
  rw [BytePacketBuffer.get, if_neg (by simp only [MAX_SIZE]; omega), hx]

theorem range_map_region (f : Nat → Nat) (p : Nat) (bs : List Nat)
    (h : region f p bs) :
    (List.range bs.length).map (fun i => f (p + i)) = bs := by
  apply List.ext_getElem
  · simp
  · intro i h1 h2
    simp only [List.getElem_map, List.getElem_range]
    exact h i h2

theorem get_range_ok (b : BytePacketBuffer) (start : Nat) (bs : List Nat)
    (hreg : region b.buf start bs) (hlt : start + bs.length < 512) :
    b.get_range start bs.length = .ok bs := by
  rw [BytePacketBuffer.get_range, if_neg (by simp only [MAX_SIZE]; omega)]
  exact congrArg Except.ok (range_map_region b.buf start bs hreg)

/-- The string read_qname accumulates over a label list: the pending delimiter,
then each label joined by dots. -/
def accJoin (delim : List Nat) : List (List Nat) → List Nat
  | [] => []
  | l :: ls => delim ++ l ++ accJoin [46] ls

theorem accJoin_46 (ls : List (List Nat)) (h : ls ≠ []) :
    accJoin [46] ls = 46 :: joinDot ls := by
  induction ls with
  | nil => exact absurd rfl h
  | cons l rest ih =>
    cases rest with
    | nil => simp [accJoin, joinDot]
    | cons l2 rest2 =>
      rw [show accJoin [46] (l :: l2 :: rest2)
          = [46] ++ l ++ accJoin [46] (l2 :: rest2) from rfl, ih (by simp)]
      simp [joinDot]

theorem accJoin_nil (ls : List (List Nat)) : accJoin [] ls = joinDot ls := by
  cases ls with
  | nil => rfl
  | cons l rest =>
    cases rest with
    | nil => simp [accJoin, joinDot]
    | cons l2 rest2 =>
      rw [show accJoin [] (l :: l2 :: rest2)
          = [] ++ l ++ accJoin [46] (l2 :: rest2) from rfl,
        accJoin_46 (l2 :: rest2) (by simp)]
      simp [joinDot]

theorem length_le_encLabels (ls : List (List Nat)) :
    ls.length ≤ (encLabels ls).length := by
  induction ls with
  | nil => simp [encLabels]
  | cons l rest ih => simp only [encLabels, List.length_cons, List.length_append]; omega

theorem readQnameGo_succ_eq (fuel : Nat) (b : BytePacketBuffer) (acc : List Nat)
    (pos : Nat) (jumped : Bool) (delim : List Nat) :
    readQnameGo (fuel + 1) b acc pos jumped delim =
      Except.bind (b.get pos) (fun label_len =>
        if label_len &&& 0xC0 = 0xC0 then
          if !jumped then
            Except.bind (b.seek (pos + 2)) (fun b1 =>
              Except.bind (b1.get (pos + 1)) (fun jump_byte =>
                readQnameGo fuel b1 acc (((label_len ^^^ 0xC0) <<< 8) ||| jump_byte)
                  true delim))
          else
            Except.bind (Except.ok b) (fun b1 =>
              Except.bind (b1.get (pos + 1)) (fun jump_byte =>
                readQnameGo fuel b1 acc (((label_len ^^^ 0xC0) <<< 8) ||| jump_byte)
                  true delim))
        else
          if label_len = 0 then
            if !jumped then
              Except.bind (b.seek (pos + 1)) (fun b1 => Except.ok (acc, b1))
            else Except.ok (acc, b)
          else
            Except.bind (b.get_range (pos + 1) label_len) (fun str_buffer =>
              readQnameGo fuel b (acc ++ delim ++ str_buffer.map dnsLower)
                (pos + 1 + label_len) jumped [46])) := by
  rw [readQnameGo]
  rfl

theorem readQnameGo_labels (ls : List (List Nat)) (fuel : Nat)
    (b : BytePacketBuffer) (acc : List Nat) (pos : Nat) (delim : List Nat)
    (hls : ∀ l ∈ ls, l ≠ [] ∧ l.length ≤ 63 ∧ ∀ c ∈ l, ¬(65 ≤ c ∧ c ≤ 90))
    (hreg : region b.buf pos (encLabels ls ++ [0]))
    (hlt : pos + (encLabels ls).length + 1 ≤ 512)
    (hfuel : ls.length + 1 ≤ fuel) :
    readQnameGo fuel b acc pos false delim =
      .ok (acc ++ accJoin delim ls,
        { b with head := pos + (encLabels ls).length + 1 }) := by
  induction ls generalizing fuel b acc pos delim with
  | nil =>
    obtain ⟨f, rfl⟩ : ∃ f, fuel = f + 1 := ⟨fuel - 1, by omega⟩
    have h0 : b.buf pos = 0 :=
      (region_singleton b.buf pos 0).mp (by simpa [encLabels] using hreg)
    have hlen0 : (encLabels ([] : List (List Nat))).length = 0 := rfl
    rw [readQnameGo_succ_eq, get_ok b pos 0 h0 (by omega)]
    simp only [ebind_ok]
    rw [if_neg (by decide)]
    rw [if_pos trivial, if_pos (by decide)]
    simp only [BytePacketBuffer.seek, ebind_ok, accJoin, List.append_nil]
    rfl
  | cons l rest ih =>
    obtain ⟨f, rfl⟩ : ∃ f, fuel = f + 1 := ⟨fuel - 1, by omega⟩
    obtain ⟨hne, hlen63, hchars⟩ := hls l (by simp)
    have hrest : ∀ l2 ∈ rest, l2 ≠ [] ∧ l2.length ≤ 63 ∧
        ∀ c ∈ l2, ¬(65 ≤ c ∧ c ≤ 90) := fun l2 hl2 => hls l2 (by simp [hl2])
    have hshape : encLabels (l :: rest) ++ [0]
        = l.length :: (l ++ (encLabels rest ++ [0])) := by
      simp [encLabels]
    rw [hshape, region_cons] at hreg
    obtain ⟨hlenb, hreg2⟩ := hreg
    rw [region_append] at hreg2
    obtain ⟨hregl, hregrest⟩ := hreg2
    have hlen' : (encLabels (l :: rest)).length
        = l.length + (encLabels rest).length + 1 := by
      simp only [encLabels, List.length_cons, List.length_append]; omega
    rw [readQnameGo_succ_eq, get_ok b pos l.length hlenb (by omega)]
    simp only [ebind_ok]
    have hnc : ¬(l.length &&& 0xC0 = 0xC0) := by
      have hsmall : ∀ x : Nat, x < 64 → x &&& 192 = 0 := by decide
      have h192 := hsmall l.length (by omega)
      omega
    rw [if_neg hnc, if_neg (by simpa using hne)]
    rw [get_range_ok b (pos + 1) l hregl (by omega)]
    simp only [ebind_ok]
    have hmap : l.map dnsLower = l := by
      have hid : ∀ c ∈ l, dnsLower c = c := fun c hc => by
        simp only [dnsLower, if_neg (hchars c hc)]
      calc l.map dnsLower = l.map id := List.map_congr_left hid
        _ = l := List.map_id l
    rw [hmap]
    rw [ih f b (acc ++ delim ++ l) (pos + 1 + l.length) [46] hrest hregrest
      (by omega) (by simp only [List.length_cons] at hfuel; omega)]
    have hacc : acc ++ delim ++ l ++ accJoin [46] rest
        = acc ++ accJoin delim (l :: rest) := by
      simp [accJoin, List.append_assoc]
    have hh : ({ b with head := pos + 1 + l.length + (encLabels rest).length + 1 } :
        BytePacketBuffer)
        = { b with head := pos + (encLabels (l :: rest)).length + 1 } := by
      have he : pos + 1 + l.length + (encLabels rest).length + 1
          = pos + (encLabels (l :: rest)).length + 1 := by omega
      rw [he]
    rw [hacc, hh]

theorem read_qname_encodes (n : List Nat) (b : BytePacketBuffer)
    (hwf : wfName n) (hreg : region b.buf b.head (encQname n))
    (hlt : b.head + (encQname n).length ≤ 512) :
    b.read_qname QNAME_FUEL [] =
      .ok (n, { b with head := b.head + (encQname n).length }) := by
  have hlq : (encQname n).length = (encLabels (splitB 46 n)).length + 1 := by
    simp [encQname]
  have hfuel : (splitB 46 n).length + 1 ≤ QNAME_FUEL := by
    have h1 := length_le_encLabels (splitB 46 n)
    simp only [QNAME_FUEL]
    omega
  have hls : ∀ l ∈ splitB 46 n, l ≠ [] ∧ l.length ≤ 63 ∧
      ∀ c ∈ l, ¬(65 ≤ c ∧ c ≤ 90) := by
    intro l hl
    obtain ⟨h1, h2, h3⟩ := hwf l hl
    exact ⟨h1, h2, fun c hc => (h3 c hc).2⟩
  rw [show b.read_qname QNAME_FUEL [] = readQnameGo QNAME_FUEL b [] b.head false []
      from rfl]
  rw [readQnameGo_labels (splitB 46 n) QNAME_FUEL b [] b.head [] hls hreg
    (by omega) hfuel]
  rw [show ([] : List Nat) ++ accJoin [] (splitB 46 n) = accJoin [] (splitB 46 n)
      from by simp]
  rw [accJoin_nil, joinDot_splitB]
  have hh : b.head + (encLabels (splitB 46 n)).length + 1
      = b.head + (encQname n).length := by omega
  rw [hh]

theorem wfName_labelsOk (n : List Nat) (h : wfName n) : labelsOk n :=
  fun l hl => (h l hl).2.1

theorem wfRecord_labelsOk (r : DnsRecord) (h : wfRecord r) : labelsOkRecord r := by
  cases r with
  | UNKNOWN d q dl t => trivial
  | A d a t => exact wfName_labelsOk d h.1
  | NS d host t => exact ⟨wfName_labelsOk d h.1, wfName_labelsOk host h.2.1⟩
  | CNAME d host t => exact ⟨wfName_labelsOk d h.1, wfName_labelsOk host h.2.1⟩
  | MX d p host t => exact ⟨wfName_labelsOk d h.1, wfName_labelsOk host h.2.1⟩
  | AAAA d a t => exact wfName_labelsOk d h.1

theorem encQname_length (n : List Nat) :
    (encQname n).length = (encLabels (splitB 46 n)).length + 1 := by
  simp [encQname]

theorem encQuestion_length (q : DnsQuestion) :
    (encQuestion q).length = (encQname q.name).length + 4 := by
  simp [encQuestion, encU16_length]

theorem length_le_encQuestions (qs : List DnsQuestion) :
    qs.length ≤ (encQuestions qs).length := by
  induction qs with
  | nil => simp [encQuestions]
  | cons q rest ih =>
    rw [encQuestions_cons]
    simp only [List.length_cons, List.length_append]
    have h1 := encQuestion_length q
    omega

theorem encRecord_length_pos (r : DnsRecord) (h : wfRecord r) :
    1 ≤ (encRecord r).length := by
  cases r with
  | UNKNOWN d q dl t => exact absurd h not_false
  | A d a t => simp [encRecord]
  | NS d host t => simp [encRecord]; omega
  | CNAME d host t => simp [encRecord]; omega
  | MX d p host t => simp [encRecord]; omega
  | AAAA d a t => simp [encRecord]

theorem length_le_encRecords (rs : List DnsRecord) (h : ∀ r ∈ rs, wfRecord r) :
    rs.length ≤ (encRecords rs).length := by
  induction rs with
  | nil => simp [encRecords]
  | cons r rest ih =>
    rw [encRecords_cons]
    simp only [List.length_cons, List.length_append]
    have h1 := encRecord_length_pos r (h r (by simp))
    have h2 := ih (fun x hx => h x (by simp [hx]))
    omega

theorem encRecords_append (a b : List DnsRecord) :
    encRecords (a ++ b) = encRecords a ++ encRecords b := by
  simp [encRecords]

theorem from_num_to_num (t : QueryType) (h : supportedQtype t) :
    QueryType.from_num t.to_num = t := by
  rcases h with h | h | h | h | h <;> subst h <;> rfl

theorem to_num_lt (t : QueryType) (h : supportedQtype t) : t.to_num < 65536 := by
  rcases h with h | h | h | h | h <;> subst h <;> decide

theorem question_read_eq (q0 : DnsQuestion) (b : BytePacketBuffer) :
    DnsQuestion.read q0 b =
      Except.bind (b.read_qname QNAME_FUEL q0.name) (fun p1 =>
      Except.bind p1.2.read_u16 (fun p2 =>
      Except.bind p2.2.read_u16 (fun p3 =>
      Except.ok (({ name := p1.1, qtype := QueryType.from_num p2.1 } : DnsQuestion),
        p3.2)))) := rfl

theorem question_read_encodes (q : DnsQuestion) (b : BytePacketBuffer)
    (hwf : wfQuestion q) (hreg : region b.buf b.head (encQuestion q))
    (hlt : b.head + (encQuestion q).length ≤ 512) :
    DnsQuestion.read ⟨[], .UNKNOWN 0⟩ b =
      .ok (q, { b with head := b.head + (encQuestion q).length }) := by
  obtain ⟨hname, hqt⟩ := hwf
  have hr1 := (region_append b.buf b.head (encQname q.name) _).mp
    (by simpa [encQuestion, List.append_assoc] using hreg)
  have hr2 := (region_append b.buf (b.head + (encQname q.name).length)
    (encU16 q.qtype.to_num) _).mp hr1.2
  have hlen := encQuestion_length q
  rw [question_read_eq]
  rw [show (⟨[], .UNKNOWN 0⟩ : DnsQuestion).name = [] from rfl]
  rw [read_qname_encodes q.name b hname hr1.1 (by omega)]
  simp only [ebind_ok]
  rw [read_u16_val _ q.qtype.to_num hr2.1 (to_num_lt _ hqt)
    (show b.head + (encQname q.name).length + 2 ≤ 512 by omega)]
  simp only [ebind_ok]
  rw [read_u16_val _ 1 (by simpa using hr2.2) (by decide)
    (show b.head + (encQname q.name).length + 2 + 2 ≤ 512 by omega)]
  simp only [ebind_ok]
  rw [from_num_to_num q.qtype hqt]
  have hh : b.head + (encQname q.name).length + 2 + 2
      = b.head + (encQuestion q).length := by omega
  rw [show ({ name := q.name, qtype := q.qtype } : DnsQuestion) = q from rfl, hh]

theorem record_read_eq (b : BytePacketBuffer) :
    DnsRecord.read b =
      Except.bind (b.read_qname QNAME_FUEL []) (fun p1 =>
      Except.bind p1.2.read_u16 (fun p2 =>
      Except.bind p2.2.read_u16 (fun p3 =>
      Except.bind p3.2.read_u32 (fun p4 =>
      Except.bind p4.2.read_u16 (fun p5 =>
      match QueryType.from_num p2.1 with
      | .A =>
        Except.bind p5.2.read_u32 (fun p6 =>
          Except.ok (.A p1.1
            ⟨(p6.1 >>> 24) &&& 0xFF, (p6.1 >>> 16) &&& 0xFF,
              (p6.1 >>> 8) &&& 0xFF, (p6.1 >>> 0) &&& 0xFF⟩ p4.1, p6.2))
      | .AAAA =>
        Except.bind p5.2.read_u32 (fun p6 =>
        Except.bind p6.2.read_u32 (fun p7 =>
        Except.bind p7.2.read_u32 (fun p8 =>
        Except.bind p8.2.read_u32 (fun p9 =>
          Except.ok (.AAAA p1.1
            ⟨(p6.1 >>> 16) &&& 0xFFFF, p6.1 &&& 0xFFFF, (p7.1 >>> 16) &&& 0xFFFF,
              p7.1 &&& 0xFFFF, (p8.1 >>> 16) &&& 0xFFFF, p8.1 &&& 0xFFFF,
              (p9.1 >>> 16) &&& 0xFFFF, p9.1 &&& 0xFFFF⟩ p4.1, p9.2)))))
      | .CNAME =>
        Except.bind (p5.2.read_qname QNAME_FUEL []) (fun p6 =>
          Except.ok (.CNAME p1.1 p6.1 p4.1, p6.2))
      | .NS =>
        Except.bind (p5.2.read_qname QNAME_FUEL []) (fun p6 =>
          Except.ok (.NS p1.1 p6.1 p4.1, p6.2))
      | .MX =>
        Except.bind p5.2.read_u16 (fun p6 =>
        Except.bind (p6.2.read_qname QNAME_FUEL []) (fun p7 =>
          Except.ok (.MX p1.1 p6.1 p7.1 p4.1, p7.2)))
      | .UNKNOWN _ =>
        Except.bind (p5.2.step p5.1) (fun b2 =>
          Except.ok (.UNKNOWN p1.1 p2.1 p5.1 p4.1, b2))))))) := rfl

theorem enc_ipv4 (a : Ipv4Addr) (h0 : a.o0 < 256) (h1 : a.o1 < 256)
    (h2 : a.o2 < 256) (h3 : a.o3 < 256) :
    [a.o0, a.o1, a.o2, a.o3]
      = encU32 ((a.o0 * 256 + a.o1) * 65536 + (a.o2 * 256 + a.o3)) := by
  simp only [encU32, encU16, Nat.shiftRight_eq_div_pow, and_255_eq_mod,
    and_65535_eq_mod, List.cons_append, List.nil_append, List.cons.injEq]
  norm_num
  refine ⟨?_, ?_, ?_, ?_⟩ <;> omega

theorem ipv4_extract (a : Ipv4Addr) (h0 : a.o0 < 256) (h1 : a.o1 < 256)
    (h2 : a.o2 < 256) (h3 : a.o3 < 256) :
    ((((a.o0 * 256 + a.o1) * 65536 + (a.o2 * 256 + a.o3)) >>> 24) &&& 0xFF = a.o0)
    ∧ ((((a.o0 * 256 + a.o1) * 65536 + (a.o2 * 256 + a.o3)) >>> 16) &&& 0xFF = a.o1)
    ∧ ((((a.o0 * 256 + a.o1) * 65536 + (a.o2 * 256 + a.o3)) >>> 8) &&& 0xFF = a.o2)
    ∧ ((((a.o0 * 256 + a.o1) * 65536 + (a.o2 * 256 + a.o3)) >>> 0) &&& 0xFF
        = a.o3) := by
  simp only [Nat.shiftRight_eq_div_pow, and_255_eq_mod]
  norm_num
  refine ⟨?_, ?_, ?_, ?_⟩ <;> omega

theorem record_read_A (d : List Nat) (a : Ipv4Addr) (t : Nat)
    (b : BytePacketBuffer) (hwf : wfRecord (.A d a t))
    (hreg : region b.buf b.head (encRecord (.A d a t)))
    (hlt : b.head + (encRecord (.A d a t)).length ≤ 512) :
    DnsRecord.read b =
      .ok (.A d a t, { b with head := b.head + (encRecord (.A d a t)).length }) := by
  obtain ⟨hd, ht, h0, h1, h2, h3⟩ := hwf
  have hlen := encRecord_A_length d a t
  have hA := (region_append b.buf b.head (encQname d) _).mp
    (by simpa [encRecord, List.append_assoc] using hreg)
  have hB := (region_append b.buf (b.head + (encQname d).length) (encU16 1) _).mp hA.2
  have hC := (region_append b.buf (b.head + (encQname d).length + 2)
    (encU16 1) _).mp (by simpa using hB.2)
  have hD := (region_append b.buf (b.head + (encQname d).length + 2 + 2)
    (encU32 t) _).mp (by simpa using hC.2)
  have hE := (region_append b.buf (b.head + (encQname d).length + 2 + 2 + 4)
    (encU16 4) _).mp (by simpa using hD.2)
  have hF : region b.buf (b.head + (encQname d).length + 2 + 2 + 4 + 2)
      (encU32 ((a.o0 * 256 + a.o1) * 65536 + (a.o2 * 256 + a.o3))) := by
    have := hE.2
    rw [enc_ipv4 a h0 h1 h2 h3] at this
    simpa using this
  rw [record_read_eq, read_qname_encodes d b hd hA.1 (by omega)]
  simp only [ebind_ok]
  rw [read_u16_val _ 1 hB.1 (by decide)
    (show b.head + (encQname d).length + 2 ≤ 512 by omega)]
  simp only [ebind_ok]
  rw [read_u16_val _ 1 hC.1 (by decide)
    (show b.head + (encQname d).length + 2 + 2 ≤ 512 by omega)]
  simp only [ebind_ok]
  rw [read_u32_val _ t hD.1 ht
    (show b.head + (encQname d).length + 2 + 2 + 4 ≤ 512 by omega)]
  simp only [ebind_ok]
  rw [read_u16_val _ 4 hE.1 (by decide)
    (show b.head + (encQname d).length + 2 + 2 + 4 + 2 ≤ 512 by omega)]
  simp only [ebind_ok, QueryType.from_num]
  rw [read_u32_val _ ((a.o0 * 256 + a.o1) * 65536 + (a.o2 * 256 + a.o3)) hF
    (by omega)
    (show b.head + (encQname d).length + 2 + 2 + 4 + 2 + 4 ≤ 512 by omega)]
  simp only [ebind_ok]
  obtain ⟨e0, e1, e2, e3⟩ := ipv4_extract a h0 h1 h2 h3
  rw [e0, e1, e2, e3]
  rw [show (⟨a.o0, a.o1, a.o2, a.o3⟩ : Ipv4Addr) = a from rfl]
  have hh : b.head + (encQname d).length + 2 + 2 + 4 + 2 + 4
      = b.head + (encRecord (.A d a t)).length := by omega
  rw [hh]

theorem encU16_pair (x y : Nat) (hx : x < 65536) (hy : y < 65536) :
    encU16 x ++ encU16 y = encU32 (x * 65536 + y) := by
  simp only [encU16, encU32, Nat.shiftRight_eq_div_pow, and_255_eq_mod,
    and_65535_eq_mod, List.cons_append, List.nil_append, List.cons.injEq]
  norm_num
  refine ⟨?_, ?_, ?_, ?_⟩ <;> omega

theorem u32_pair_extract (x y : Nat) (hx : x < 65536) (hy : y < 65536) :
    ((x * 65536 + y) >>> 16) &&& 0xFFFF = x ∧ (x * 65536 + y) &&& 0xFFFF = y := by
  simp only [Nat.shiftRight_eq_div_pow, and_65535_eq_mod]
  norm_num
  constructor <;> omega

theorem region_pair_u32 (f : Nat → Nat) (q x y : Nat) (hx : x < 65536)
    (hy : y < 65536) (h0 : region f q (encU16 x)) (h1 : region f (q + 2) (encU16 y)) :
    region f q (encU32 (x * 65536 + y)) := by
  rw [← encU16_pair x y hx hy]
  exact (region_append f q (encU16 x) (encU16 y)).mpr ⟨h0, by simpa using h1⟩

theorem record_read_NS (d host : List Nat) (t : Nat) (b : BytePacketBuffer)
    (hwf : wfRecord (.NS d host t))
    (hreg : region b.buf b.head (encRecord (.NS d host t)))
    (hlt : b.head + (encRecord (.NS d host t)).length ≤ 512) :
    DnsRecord.read b =
      .ok (.NS d host t,
        { b with head := b.head + (encRecord (.NS d host t)).length }) := by
  obtain ⟨hd, hhost, ht⟩ := hwf
  have hlen := encRecord_NS_length d host t
  have hA := (region_append b.buf b.head (encQname d) _).mp
    (by simpa [encRecord, List.append_assoc] using hreg)
  have hB := (region_append b.buf (b.head + (encQname d).length) (encU16 2) _).mp hA.2
  have hC := (region_append b.buf (b.head + (encQname d).length + 2)
    (encU16 1) _).mp (by simpa using hB.2)
  have hD := (region_append b.buf (b.head + (encQname d).length + 2 + 2)
    (encU32 t) _).mp (by simpa using hC.2)
  have hE := (region_append b.buf (b.head + (encQname d).length + 2 + 2 + 4)
    (encU16 (encQname host).length) _).mp (by simpa using hD.2)
  have hF : region b.buf (b.head + (encQname d).length + 2 + 2 + 4 + 2)
      (encQname host) := by simpa using hE.2
  rw [record_read_eq, read_qname_encodes d b hd hA.1 (by omega)]
  simp only [ebind_ok]
  rw [read_u16_val _ 2 hB.1 (by decide)
    (show b.head + (encQname d).length + 2 ≤ 512 by omega)]
  simp only [ebind_ok]
  rw [read_u16_val _ 1 hC.1 (by decide)
    (show b.head + (encQname d).length + 2 + 2 ≤ 512 by omega)]
  simp only [ebind_ok]
  rw [read_u32_val _ t hD.1 ht
    (show b.head + (encQname d).length + 2 + 2 + 4 ≤ 512 by omega)]
  simp only [ebind_ok]
  rw [read_u16_val _ (encQname host).length hE.1 (by omega)
    (show b.head + (encQname d).length + 2 + 2 + 4 + 2 ≤ 512 by omega)]
  simp only [ebind_ok, QueryType.from_num]
  rw [read_qname_encodes host _ hhost hF
    (show b.head + (encQname d).length + 2 + 2 + 4 + 2 + (encQname host).length
      ≤ 512 by omega)]
  simp only [ebind_ok]
  have hh : b.head + (encQname d).length + 2 + 2 + 4 + 2 + (encQname host).length
      = b.head + (encRecord (.NS d host t)).length := by omega
  rw [hh]

theorem record_read_CNAME (d host : List Nat) (t : Nat) (b : BytePacketBuffer)
    (hwf : wfRecord (.CNAME d host t))
    (hreg : region b.buf b.head (encRecord (.CNAME d host t)))
    (hlt : b.head + (encRecord (.CNAME d host t)).length ≤ 512) :
    DnsRecord.read b =
      .ok (.CNAME d host t,
        { b with head := b.head + (encRecord (.CNAME d host t)).length }) := by
  obtain ⟨hd, hhost, ht⟩ := hwf
  have hlen := encRecord_CNAME_length d host t
  have hA := (region_append b.buf b.head (encQname d) _).mp
    (by simpa [encRecord, List.append_assoc] using hreg)
  have hB := (region_append b.buf (b.head + (encQname d).length) (encU16 5) _).mp hA.2
  have hC := (region_append b.buf (b.head + (encQname d).length + 2)
    (encU16 1) _).mp (by simpa using hB.2)
  have hD := (region_append b.buf (b.head + (encQname d).length + 2 + 2)
    (encU32 t) _).mp (by simpa using hC.2)
  have hE := (region_append b.buf (b.head + (encQname d).length + 2 + 2 + 4)
    (encU16 (encQname host).length) _).mp (by simpa using hD.2)
  have hF : region b.buf (b.head + (encQname d).length + 2 + 2 + 4 + 2)
      (encQname host) := by simpa using hE.2
  rw [record_read_eq, read_qname_encodes d b hd hA.1 (by omega)]
  simp only [ebind_ok]
  rw [read_u16_val _ 5 hB.1 (by decide)
    (show b.head + (encQname d).length + 2 ≤ 512 by omega)]
  simp only [ebind_ok]
  rw [read_u16_val _ 1 hC.1 (by decide)
    (show b.head + (encQname d).length + 2 + 2 ≤ 512 by omega)]
  simp only [ebind_ok]
  rw [read_u32_val _ t hD.1 ht
    (show b.head + (encQname d).length + 2 + 2 + 4 ≤ 512 by omega)]
  simp only [ebind_ok]
  rw [read_u16_val _ (encQname host).length hE.1 (by omega)
    (show b.head + (encQname d).length + 2 + 2 + 4 + 2 ≤ 512 by omega)]
  simp only [ebind_ok, QueryType.from_num]
  rw [read_qname_encodes host _ hhost hF
    (show b.head + (encQname d).length + 2 + 2 + 4 + 2 + (encQname host).length
      ≤ 512 by omega)]
  simp only [ebind_ok]
  have hh : b.head + (encQname d).length + 2 + 2 + 4 + 2 + (encQname host).length
      = b.head + (encRecord (.CNAME d host t)).length := by omega
  rw [hh]

theorem record_read_MX (d : List Nat) (p : Nat) (host : List Nat) (t : Nat)
    (b : BytePacketBuffer) (hwf : wfRecord (.MX d p host t))
    (hreg : region b.buf b.head (encRecord (.MX d p host t)))
    (hlt : b.head + (encRecord (.MX d p host t)).length ≤ 512) :
    DnsRecord.read b =
      .ok (.MX d p host t,
        { b with head := b.head + (encRecord (.MX d p host t)).length }) := by
  obtain ⟨hd, hhost, hp, ht⟩ := hwf
  have hlen := encRecord_MX_length d p host t
  have hA := (region_append b.buf b.head (encQname d) _).mp
    (by simpa [encRecord, List.append_assoc] using hreg)
  have hB := (region_append b.buf (b.head + (encQname d).length) (encU16 15) _).mp
    hA.2
  have hC := (region_append b.buf (b.head + (encQname d).length + 2)
    (encU16 1) _).mp (by simpa using hB.2)
  have hD := (region_append b.buf (b.head + (encQname d).length + 2 + 2)
    (encU32 t) _).mp (by simpa using hC.2)
  have hE := (region_append b.buf (b.head + (encQname d).length + 2 + 2 + 4)
    (encU16 (2 + (encQname host).length)) _).mp (by simpa using hD.2)
  have hF := (region_append b.buf (b.head + (encQname d).length + 2 + 2 + 4 + 2)
    (encU16 p) _).mp (by simpa using hE.2)
  have hG : region b.buf (b.head + (encQname d).length + 2 + 2 + 4 + 2 + 2)
      (encQname host) := by simpa using hF.2
  rw [record_read_eq, read_qname_encodes d b hd hA.1 (by omega)]
  simp only [ebind_ok]
  rw [read_u16_val _ 15 hB.1 (by decide)
    (show b.head + (encQname d).length + 2 ≤ 512 by omega)]
  simp only [ebind_ok]
  rw [read_u16_val _ 1 hC.1 (by decide)
    (show b.head + (encQname d).length + 2 + 2 ≤ 512 by omega)]
  simp only [ebind_ok]
  rw [read_u32_val _ t hD.1 ht
    (show b.head + (encQname d).length + 2 + 2 + 4 ≤ 512 by omega)]
  simp only [ebind_ok]
  rw [read_u16_val _ (2 + (encQname host).length) hE.1 (by omega)
    (show b.head + (encQname d).length + 2 + 2 + 4 + 2 ≤ 512 by omega)]
  simp only [ebind_ok, QueryType.from_num]
  rw [read_u16_val _ p hF.1 hp
    (show b.head + (encQname d).length + 2 + 2 + 4 + 2 + 2 ≤ 512 by omega)]
  simp only [ebind_ok]
  rw [read_qname_encodes host _ hhost hG
    (show b.head + (encQname d).length + 2 + 2 + 4 + 2 + 2 +
      (encQname host).length ≤ 512 by omega)]
  simp only [ebind_ok]
  have hh : b.head + (encQname d).length + 2 + 2 + 4 + 2 + 2 +
      (encQname host).length = b.head + (encRecord (.MX d p host t)).length := by
    omega
  rw [hh]

theorem record_read_AAAA (d : List Nat) (a : Ipv6Addr) (t : Nat)
    (b : BytePacketBuffer) (hwf : wfRecord (.AAAA d a t))
    (hreg : region b.buf b.head (encRecord (.AAAA d a t)))
    (hlt : b.head + (encRecord (.AAAA d a t)).length ≤ 512) :
    DnsRecord.read b =
      .ok (.AAAA d a t,
        { b with head := b.head + (encRecord (.AAAA d a t)).length }) := by
  obtain ⟨hd, ht, h0, h1, h2, h3, h4, h5, h6, h7⟩ := hwf
  have hlen := encRecord_AAAA_length d a t
  have hA := (region_append b.buf b.head (encQname d) _).mp
    (by simpa [encRecord, List.append_assoc] using hreg)
  have hB := (region_append b.buf (b.head + (encQname d).length) (encU16 28) _).mp
    hA.2
  have hC := (region_append b.buf (b.head + (encQname d).length + 2)
    (encU16 1) _).mp (by simpa using hB.2)
  have hD := (region_append b.buf (b.head + (encQname d).length + 2 + 2)
    (encU32 t) _).mp (by simpa using hC.2)
  have hE := (region_append b.buf (b.head + (encQname d).length + 2 + 2 + 4)
    (encU16 16) _).mp (by simpa using hD.2)
  have hS0 := (region_append b.buf (b.head + (encQname d).length + 2 + 2 + 4 + 2)
    (encU16 a.s0) _).mp (by simpa using hE.2)
  have hS1 := (region_append b.buf
    (b.head + (encQname d).length + 2 + 2 + 4 + 2 + 2) (encU16 a.s1) _).mp
    (by simpa using hS0.2)
  have hS2 := (region_append b.buf
    (b.head + (encQname d).length + 2 + 2 + 4 + 2 + 2 + 2) (encU16 a.s2) _).mp
    (by simpa using hS1.2)
  have hS3 := (region_append b.buf
    (b.head + (encQname d).length + 2 + 2 + 4 + 2 + 2 + 2 + 2) (encU16 a.s3) _).mp
    (by simpa using hS2.2)
  have hS4 := (region_append b.buf
    (b.head + (encQname d).length + 2 + 2 + 4 + 2 + 2 + 2 + 2 + 2)
    (encU16 a.s4) _).mp (by simpa using hS3.2)
  have hS5 := (region_append b.buf
    (b.head + (encQname d).length + 2 + 2 + 4 + 2 + 2 + 2 + 2 + 2 + 2)
    (encU16 a.s5) _).mp (by simpa using hS4.2)
  have hS6 := (region_append b.buf
    (b.head + (encQname d).length + 2 + 2 + 4 + 2 + 2 + 2 + 2 + 2 + 2 + 2)
    (encU16 a.s6) _).mp (by simpa using hS5.2)
  have hS7 : region b.buf
      (b.head + (encQname d).length + 2 + 2 + 4 + 2 + 2 + 2 + 2 + 2 + 2 + 2 + 2)
      (encU16 a.s7) := by simpa using hS6.2
  have hQ0 : region b.buf (b.head + (encQname d).length + 2 + 2 + 4 + 2)
      (encU32 (a.s0 * 65536 + a.s1)) :=
    region_pair_u32 b.buf _ a.s0 a.s1 h0 h1 hS0.1 (by simpa using hS1.1)
  have hQ1 : region b.buf (b.head + (encQname d).length + 2 + 2 + 4 + 2 + 4)
      (encU32 (a.s2 * 65536 + a.s3)) :=
    region_pair_u32 b.buf _ a.s2 a.s3 h2 h3 (by simpa using hS2.1)
      (by simpa using hS3.1)
  have hQ2 : region b.buf (b.head + (encQname d).length + 2 + 2 + 4 + 2 + 4 + 4)
      (encU32 (a.s4 * 65536 + a.s5)) :=
    region_pair_u32 b.buf _ a.s4 a.s5 h4 h5 (by simpa using hS4.1)
      (by simpa using hS5.1)
  have hQ3 : region b.buf
      (b.head + (encQname d).length + 2 + 2 + 4 + 2 + 4 + 4 + 4)
      (encU32 (a.s6 * 65536 + a.s7)) :=
    region_pair_u32 b.buf _ a.s6 a.s7 h6 h7 (by simpa using hS6.1)
      (by simpa using hS7)
  rw [record_read_eq, read_qname_encodes d b hd hA.1 (by omega)]
  simp only [ebind_ok]
  rw [read_u16_val _ 28 hB.1 (by decide)
    (show b.head + (encQname d).length + 2 ≤ 512 by omega)]
  simp only [ebind_ok]
  rw [read_u16_val _ 1 hC.1 (by decide)
    (show b.head + (encQname d).length + 2 + 2 ≤ 512 by omega)]
  simp only [ebind_ok]
  rw [read_u32_val _ t hD.1 ht
    (show b.head + (encQname d).length + 2 + 2 + 4 ≤ 512 by omega)]
  simp only [ebind_ok]
  rw [read_u16_val _ 16 hE.1 (by decide)
    (show b.head + (encQname d).length + 2 + 2 + 4 + 2 ≤ 512 by omega)]
  simp only [ebind_ok, QueryType.from_num]
  rw [read_u32_val _ (a.s0 * 65536 + a.s1) hQ0 (by omega)
    (show b.head + (encQname d).length + 2 + 2 + 4 + 2 + 4 ≤ 512 by omega)]
  simp only [ebind_ok]
  rw [read_u32_val _ (a.s2 * 65536 + a.s3) hQ1 (by omega)
    (show b.head + (encQname d).length + 2 + 2 + 4 + 2 + 4 + 4 ≤ 512 by omega)]
  simp only [ebind_ok]
  rw [read_u32_val _ (a.s4 * 65536 + a.s5) hQ2 (by omega)
    (show b.head + (encQname d).length + 2 + 2 + 4 + 2 + 4 + 4 + 4 ≤ 512
      by omega)]
  simp only [ebind_ok]
  rw [read_u32_val _ (a.s6 * 65536 + a.s7) hQ3 (by omega)
    (show b.head + (encQname d).length + 2 + 2 + 4 + 2 + 4 + 4 + 4 + 4 ≤ 512
      by omega)]
  simp only [ebind_ok]
  obtain ⟨e0, e1⟩ := u32_pair_extract a.s0 a.s1 h0 h1
  obtain ⟨e2, e3⟩ := u32_pair_extract a.s2 a.s3 h2 h3
  obtain ⟨e4, e5⟩ := u32_pair_extract a.s4 a.s5 h4 h5
  obtain ⟨e6, e7⟩ := u32_pair_extract a.s6 a.s7 h6 h7
  rw [e0, e1, e2, e3, e4, e5, e6, e7]
  rw [show (⟨a.s0, a.s1, a.s2, a.s3, a.s4, a.s5, a.s6, a.s7⟩ : Ipv6Addr) = a
    from rfl]
  have hh : b.head + (encQname d).length + 2 + 2 + 4 + 2 + 4 + 4 + 4 + 4
      = b.head + (encRecord (.AAAA d a t)).length := by omega
  rw [hh]

theorem record_read_encodes (r : DnsRecord) (b : BytePacketBuffer)
    (hwf : wfRecord r) (hreg : region b.buf b.head (encRecord r))
    (hlt : b.head + (encRecord r).length ≤ 512) :
    DnsRecord.read b =
      .ok (r, { b with head := b.head + (encRecord r).length }) := by
  cases r with
  | UNKNOWN d q dl t => exact absurd hwf not_false
  | A d a t => exact record_read_A d a t b hwf hreg hlt
  | NS d host t => exact record_read_NS d host t b hwf hreg hlt
  | CNAME d host t => exact record_read_CNAME d host t b hwf hreg hlt
  | MX d p host t => exact record_read_MX d p host t b hwf hreg hlt
  | AAAA d a t => exact record_read_AAAA d a t b hwf hreg hlt

theorem readQuestionsN_encodes (qs : List DnsQuestion) (b : BytePacketBuffer)
    (hwf : ∀ q ∈ qs, wfQuestion q)
    (hreg : region b.buf b.head (encQuestions qs))
    (hlt : b.head + (encQuestions qs).length ≤ 512) :
    readQuestionsN qs.length b =
      .ok (qs, { b with head := b.head + (encQuestions qs).length }) := by
  induction qs generalizing b with
  | nil =>
    simp only [encQuestions, List.map_nil, List.flatten_nil, List.length_nil,
      Nat.add_zero]
    rfl
  | cons q rest ih =>
    rw [encQuestions_cons] at hreg hlt
    have hsplit := (region_append b.buf b.head (encQuestion q) _).mp hreg
    simp only [List.length_append] at hlt
    rw [show (q :: rest).length = rest.length + 1 from rfl]
    show Except.bind (DnsQuestion.read ⟨[], .UNKNOWN 0⟩ b) _ = _
    rw [question_read_encodes q b (hwf q (by simp)) hsplit.1 (by omega)]
    simp only [ebind_ok]
    rw [ih _ (fun x hx => hwf x (by simp [hx])) hsplit.2
      (show b.head + (encQuestion q).length + (encQuestions rest).length ≤ 512
        by omega)]
    simp only [ebind_ok]
    have hh : b.head + (encQuestion q).length + (encQuestions rest).length
        = b.head + (encQuestions (q :: rest)).length := by
      rw [encQuestions_cons]
      simp only [List.length_append]
      omega
    rw [hh]
    rfl

theorem readRecordsN_encodes (rs : List DnsRecord) (b : BytePacketBuffer)
    (hwf : ∀ r ∈ rs, wfRecord r)
    (hreg : region b.buf b.head (encRecords rs))
    (hlt : b.head + (encRecords rs).length ≤ 512) :
    readRecordsN rs.length b =
      .ok (rs, { b with head := b.head + (encRecords rs).length }) := by
  induction rs generalizing b with
  | nil =>
    simp only [encRecords, List.map_nil, List.flatten_nil, List.length_nil,
      Nat.add_zero]
    rfl
  | cons r rest ih =>
    rw [encRecords_cons] at hreg hlt
    have hsplit := (region_append b.buf b.head (encRecord r) _).mp hreg
    simp only [List.length_append] at hlt
    rw [show (r :: rest).length = rest.length + 1 from rfl]
    show Except.bind (DnsRecord.read b) _ = _
    rw [record_read_encodes r b (hwf r (by simp)) hsplit.1 (by omega)]
    simp only [ebind_ok]
    rw [ih _ (fun x hx => hwf x (by simp [hx])) hsplit.2
      (show b.head + (encRecord r).length + (encRecords rest).length ≤ 512
        by omega)]
    simp only [ebind_ok]
    have hh : b.head + (encRecord r).length + (encRecords rest).length
        = b.head + (encRecords (r :: rest)).length := by
      rw [encRecords_cons]
      simp only [List.length_append]
      omega
    rw [hh]
    rfl

/-- Byte image of a whole packet as DnsPacket::write lays it out: header,
questions, then the answer, authority and resource records in order. -/
def encPacket (p : DnsPacket) : List Nat :=
  encHeader p.header ++ encQuestions p.questions ++ encRecords p.answers ++
    encRecords p.authorities ++ encRecords p.resources

theorem from_buffer_eq (b : BytePacketBuffer) :
    DnsPacket.from_buffer b =
      (Except.bind (DnsHeader.read b) fun p1 =>
       Except.bind (readQuestionsN p1.1.questions p1.2) fun p2 =>
       Except.bind (readRecordsN p1.1.answers p2.2) fun p3 =>
       Except.bind (readRecordsN p1.1.authoritative_entries p3.2) fun p4 =>
       Except.bind (readRecordsN p1.1.resource_entries p4.2) fun p5 =>
       Except.ok { header := p1.1, questions := p2.1, answers := p3.1,
                   authorities := p4.1, resources := p5.1 }) := rfl

theorem from_buffer_encodes (p : DnsPacket) (b : BytePacketBuffer)
    (hwfh : wfHeader p.header)
    (hcq : p.header.questions = p.questions.length)
    (hca : p.header.answers = p.answers.length)
    (hcu : p.header.authoritative_entries = p.authorities.length)
    (hcr : p.header.resource_entries = p.resources.length)
    (hwq : ∀ q ∈ p.questions, wfQuestion q)
    (hwa : ∀ r ∈ p.answers, wfRecord r)
    (hwu : ∀ r ∈ p.authorities, wfRecord r)
    (hwr : ∀ r ∈ p.resources, wfRecord r)
    (hreg : region b.buf b.head (encPacket p))
    (hlt : b.head + (encPacket p).length ≤ 512) :
    DnsPacket.from_buffer b = .ok p := by
  have h1 := (region_append b.buf b.head (encHeader p.header) _).mp
    (by simpa [encPacket, List.append_assoc] using hreg)
  have h2 := (region_append b.buf (b.head + 12) (encQuestions p.questions) _).mp
    (by simpa [encHeader_length] using h1.2)
  have h3 := (region_append b.buf
    (b.head + 12 + (encQuestions p.questions).length)
    (encRecords p.answers) _).mp h2.2
  have h4 := (region_append b.buf
    (b.head + 12 + (encQuestions p.questions).length +
      (encRecords p.answers).length) (encRecords p.authorities) _).mp h3.2
  have h5 : region b.buf
      (b.head + 12 + (encQuestions p.questions).length +
        (encRecords p.answers).length + (encRecords p.authorities).length)
      (encRecords p.resources) := h4.2
  have hplen : (encPacket p).length = 12 + (encQuestions p.questions).length +
      (encRecords p.answers).length + (encRecords p.authorities).length +
      (encRecords p.resources).length := by
    simp only [encPacket, List.length_append, encHeader_length]
  rw [from_buffer_eq, header_read_region p.header b hwfh h1.1 (by omega)]
  simp only [ebind_ok]
  rw [hcq, readQuestionsN_encodes p.questions _ hwq h2.1
    (show b.head + 12 + (encQuestions p.questions).length ≤ 512 by omega)]
  simp only [ebind_ok]
  rw [hca, readRecordsN_encodes p.answers _ hwa h3.1
    (show b.head + 12 + (encQuestions p.questions).length +
      (encRecords p.answers).length ≤ 512 by omega)]
  simp only [ebind_ok]
  rw [hcu, readRecordsN_encodes p.authorities _ hwu h4.1
    (show b.head + 12 + (encQuestions p.questions).length +
      (encRecords p.answers).length + (encRecords p.authorities).length ≤ 512
      by omega)]
  simp only [ebind_ok]
  rw [hcr, readRecordsN_encodes p.resources _ hwr h5
    (show b.head + 12 + (encQuestions p.questions).length +
      (encRecords p.answers).length + (encRecords p.authorities).length +
      (encRecords p.resources).length ≤ 512 by omega)]
  rfl

/-- The packet as DnsPacket::write returns it: the header's question count set to
the question list length and, when the section counts start at zero and all
records fit, each section count set to its list length. -/
def writeFixup (p : DnsPacket) : DnsPacket :=
  { p with header := { p.header with
      questions := p.questions.length,
      answers := p.answers.length,
      authoritative_entries := p.authorities.length,
      resource_entries := p.resources.length } }

theorem packet_write_full (p : DnsPacket)
    (hz : p.header.answers = 0 ∧ p.header.authoritative_entries = 0 ∧
      p.header.resource_entries = 0)
    (hwq : ∀ q ∈ p.questions, labelsOk q.name)
    (hwr : ∀ r ∈ p.answers ++ p.authorities ++ p.resources, labelsOkRecord r)
    (hfit : 12 + (encQuestions p.questions).length +
      (encRecords (p.answers ++ p.authorities ++ p.resources)).length ≤ 512) :
    p.write BytePacketBuffer.new =
      .ok (writeFixup p, wAdv BytePacketBuffer.new (encPacket (writeFixup p))) := by
  have hq12 : BytePacketBuffer.new.head + 12 ≤ 512 := by decide
  have hnew : BytePacketBuffer.new.head = 0 := rfl
  have hL : (p.answers ++ p.authorities ++ p.resources).length =
      p.answers.length + p.authorities.length + p.resources.length := by
    rw [List.length_append, List.length_append]
  have hqhead : (wAdv BytePacketBuffer.new (encHeader p.header)).head +
      (encQuestions p.questions).length ≤ 512 := by
    simp only [wAdv_head, encHeader_length]
    omega
  have htmphead : (wAdv (wAdv BytePacketBuffer.new (encHeader p.header))
      (encQuestions p.questions)).head = 12 + (encQuestions p.questions).length := by
    simp only [wAdv_head, encHeader_length]
    omega
  have hrecfit : (wAdv (wAdv BytePacketBuffer.new (encHeader p.header))
      (encQuestions p.questions)).head +
      (encRecords (p.answers ++ p.authorities ++ p.resources)).length ≤ 512 := by
    rw [htmphead]
    omega
  have henum : (p.answers ++ p.authorities ++ p.resources).enum =
      List.enumFrom 0 (p.answers ++ p.authorities ++ p.resources) := rfl
  have htl : tempLoop p.answers.length p.authorities.length
      (List.enumFrom 0 (p.answers ++ p.authorities ++ p.resources)) p.header
      (wAdv (wAdv BytePacketBuffer.new (encHeader p.header))
        (encQuestions p.questions))
      (p.answers ++ p.authorities ++ p.resources).length =
      .ok (({ p.header with
          answers := p.answers.length,
          authoritative_entries := p.authorities.length,
          resource_entries := p.resources.length } : DnsHeader),
        wAdv (wAdv (wAdv BytePacketBuffer.new (encHeader p.header))
          (encQuestions p.questions))
          (encRecords (p.answers ++ p.authorities ++ p.resources)),
        (p.answers ++ p.authorities ++ p.resources).length) := by
    rw [tempLoop_allOk p.answers.length p.authorities.length
      (p.answers ++ p.authorities ++ p.resources) 0 p.header
      (wAdv (wAdv BytePacketBuffer.new (encHeader p.header))
        (encQuestions p.questions))
      (p.answers ++ p.authorities ++ p.resources).length hwr hrecfit]
    congr 1
    congr 1
    simp only [DnsHeader.mk.injEq, and_true, true_and, eq_self_iff_true]
    refine ⟨?_, ?_, ?_⟩ <;> omega
  rw [packet_write_eq, header_write_ok _ _ hq12, ebind_ok,
    writeQuestionsList_ok _ _ hwq hqhead, ebind_ok, henum, htl]
  simp only [ebind_ok]
  rw [header_write_ok _ _ hq12, ebind_ok]
  rw [writeQuestionsList_ok _ _ hwq
    (show (wAdv BytePacketBuffer.new (encHeader { p.header with
        questions := p.questions.length,
        answers := p.answers.length,
        authoritative_entries := p.authorities.length,
        resource_entries := p.resources.length })).head +
      (encQuestions p.questions).length ≤ 512 from by
        simp only [wAdv_head, encHeader_length]
        omega), ebind_ok]
  rw [List.take_length]
  rw [writeRecordsList_ok _ _ hwr
    (show (wAdv (wAdv BytePacketBuffer.new (encHeader { p.header with
        questions := p.questions.length,
        answers := p.answers.length,
        authoritative_entries := p.authorities.length,
        resource_entries := p.resources.length }))
        (encQuestions p.questions)).head +
      (encRecords (p.answers ++ p.authorities ++ p.resources)).length ≤ 512 from by
        simp only [wAdv_head, encHeader_length]
        omega)]
  rw [wAdv_append, wAdv_append]
  simp only [encPacket, writeFixup, encRecords_append, List.append_assoc]
  rfl

/-- Serialize with DnsPacket::write into a fresh buffer, then parse the buffer
back from offset 0 with DnsPacket::from_buffer: the composition claim C1 is
about. -/
def writeThenParse (p : DnsPacket) : Except Err DnsPacket :=
  Except.bind (p.write BytePacketBuffer.new) (fun r =>
    DnsPacket.from_buffer { r.2 with head := 0 })

/-- C1 (amended): for a packet whose header is well formed with zero
answer/authority/resource counts, whose questions and records have lowercase
names with nonempty labels of at most 63 bytes and supported types with in-range
numeric fields, and whose serialized form fits in the 512-byte buffer,
DnsPacket::write succeeds and DnsPacket::from_buffer parses the buffer back to
exactly the packet write returned: the input packet with its header counts set to
the question and record list lengths. The original claim (parse after serialize
is the identity) fails because write adds the serialized record counts to the
header instead of reproducing the input header, see the C1 counterexample. -/
theorem C1_roundtrip_amended (p : DnsPacket)
    (hwfh : wfHeader p.header)
    (hz : p.header.answers = 0 ∧ p.header.authoritative_entries = 0 ∧
      p.header.resource_entries = 0)
    (hwq : ∀ q ∈ p.questions, wfQuestion q)
    (hwr : ∀ r ∈ p.answers ++ p.authorities ++ p.resources, wfRecord r)
    (hfit : 12 + (encQuestions p.questions).length +
      (encRecords (p.answers ++ p.authorities ++ p.resources)).length ≤ 512) :
    ∃ b, p.write BytePacketBuffer.new = .ok (writeFixup p, b) ∧
      DnsPacket.from_buffer { b with head := 0 } = .ok (writeFixup p) := by
  have hwq' : ∀ q ∈ p.questions, labelsOk q.name :=
    fun q hq => wfName_labelsOk _ (hwq q hq).1
  have hwr' : ∀ r ∈ p.answers ++ p.authorities ++ p.resources, labelsOkRecord r :=
    fun r hr => wfRecord_labelsOk r (hwr r hr)
  have hLsum : (p.answers ++ p.authorities ++ p.resources).length =
      p.answers.length + p.authorities.length + p.resources.length := by
    rw [List.length_append, List.length_append]
  have hrecsplit : (encRecords (p.answers ++ p.authorities ++ p.resources)).length
      = (encRecords p.answers).length + (encRecords p.authorities).length +
        (encRecords p.resources).length := by
    rw [encRecords_append, encRecords_append, List.length_append,
      List.length_append]
  have hq16 : p.questions.length < 65536 := by
    have := length_le_encQuestions p.questions
    omega
  have hr16 := length_le_encRecords (p.answers ++ p.authorities ++ p.resources) hwr
  have henc : (encPacket (writeFixup p)).length =
      12 + (encQuestions p.questions).length + (encRecords p.answers).length +
        (encRecords p.authorities).length + (encRecords p.resources).length := by
    simp only [encPacket, writeFixup, List.length_append, encHeader_length]
  refine ⟨wAdv BytePacketBuffer.new (encPacket (writeFixup p)),
    packet_write_full p hz hwq' hwr' hfit, ?_⟩
  exact from_buffer_encodes (writeFixup p) _
    ⟨hwfh.1, hwfh.2.1, hq16, show p.answers.length < 65536 by omega,
      show p.authorities.length < 65536 by omega,
      show p.resources.length < 65536 by omega⟩
    rfl rfl rfl rfl hwq
    (fun r hr => hwr r (by simp only [writeFixup] at hr; simp [hr]))
    (fun r hr => hwr r (by simp only [writeFixup] at hr; simp [hr]))
    (fun r hr => hwr r (by simp only [writeFixup] at hr; simp [hr]))
    (region_writeListF (encPacket (writeFixup p)) BytePacketBuffer.new.buf
      BytePacketBuffer.new.head)
    (show 0 + (encPacket (writeFixup p)).length ≤ 512 by omega)
